import Mathlib

/-!
Verification development for the SJS spatial-join sampling core
(plane-sweep join counting and uniform join sampling, 2D, half-open boxes).

The definitions below are a shallow embedding of the C++ sources under
`include/sjs/`:
  * machine `u64` values are natural numbers; wrap-around is explicit (`% 2^64`);
  * `double`/`long double` values that only ever hold small dyadic rationals
    (the alias-table thresholds and the 53-bit uniform draws) are modelled by
    exact non-negative fractions (`Frac`); on every concrete input evaluated in
    this file all intermediate values are dyadic rationals with few mantissa
    bits, where the C++ floating-point arithmetic is exact;
  * geometric coordinates (`Scalar = double`) are modelled by `ℚ`: the join
    algorithms only ever compare coordinates (no coordinate arithmetic), and
    finite doubles are linearly ordered;
  * `std::vector` state is modelled by functions out of `ℕ` updated with
    `Function.update`, or by `List`s;
  * fallible operations return `Except String` / `Option`.
-/

set_option maxHeartbeats 1000000

deriving instance DecidableEq for Except

namespace SJS

/-! ## u64 arithmetic -/

def U64MOD : ℕ := 2 ^ 64

def U32MAX : ℕ := 2 ^ 32 - 1

def wrap64 (x : ℕ) : ℕ := x % U64MOD

def add64 (a b : ℕ) : ℕ := wrap64 (a + b)

def mul64 (a b : ℕ) : ℕ := wrap64 (a * b)

def shl64 (a k : ℕ) : ℕ := wrap64 (a <<< k)

def shr64 (a k : ℕ) : ℕ := a >>> k

def xor64 (a b : ℕ) : ℕ := a ^^^ b

def or64 (a b : ℕ) : ℕ := a ||| b

/-- Rotl from `core/rng.h`: `(x << k) | (x >> (64 - k))`. -/
def Rotl (x k : ℕ) : ℕ := or64 (shl64 x k) (shr64 x (64 - k))

/-! ## RNG (`core/rng.h`): splitmix64 seeding + xoshiro256** generation -/

structure SplitMix64 where
  state : ℕ

/-- One draw of splitmix64 (`SplitMix64::Next`). -/
def SplitMix64.next (g : SplitMix64) : ℕ × SplitMix64 :=
  let s := add64 g.state 0x9e3779b97f4a7c15
  let z := s
  let z := mul64 (xor64 z (shr64 z 30)) 0xbf58476d1ce4e5b9
  let z := mul64 (xor64 z (shr64 z 27)) 0x94d049bb133111eb
  (xor64 z (shr64 z 31), ⟨s⟩)

structure Xoshiro256SS where
  s0 : ℕ
  s1 : ℕ
  s2 : ℕ
  s3 : ℕ

/-- `Xoshiro256StarStar::Seed`: expand one seed via splitmix64, with the
all-zero-state guard. -/
def Xoshiro256SS.ofSeed (seed : ℕ) : Xoshiro256SS :=
  let g0 : SplitMix64 := ⟨seed⟩
  let (a, g1) := g0.next
  let (b, g2) := g1.next
  let (c, g3) := g2.next
  let (d, _) := g3.next
  if (or64 (or64 (or64 a b) c) d) = 0 then ⟨0x9e3779b97f4a7c15, b, c, d⟩
  else ⟨a, b, c, d⟩

/-- `Xoshiro256StarStar::NextU64`. -/
def Xoshiro256SS.nextU64 (g : Xoshiro256SS) : ℕ × Xoshiro256SS :=
  let result := mul64 (Rotl (mul64 g.s1 5) 7) 9
  let t := shl64 g.s1 17
  let s2 := xor64 g.s2 g.s0
  let s3 := xor64 g.s3 g.s1
  let s1 := xor64 g.s1 s2
  let s0 := xor64 g.s0 s3
  let s2 := xor64 s2 t
  let s3 := Rotl s3 45
  (result, ⟨s0, s1, s2, s3⟩)

/-! Exact non-negative fractions modelling the `double` values that occur in
the alias table and the RNG's `NextDouble` (see the file comment). -/

structure Frac where
  num : ℕ
  den : ℕ
deriving DecidableEq

def Frac.blt (a b : Frac) : Bool := a.num * b.den < b.num * a.den

def Frac.ofNat (n : ℕ) : Frac := ⟨n, 1⟩

def Frac.add (a b : Frac) : Frac := ⟨a.num * b.den + b.num * a.den, a.den * b.den⟩

/-- Value of `a - 1` for a fraction with `a ≥ 1` (the only use site,
`scaled[l] = (scaled[l] + scaled[s]) - 1.0L`, always has `scaled[l] ≥ 1`). -/
def Frac.subOne (a : Frac) : Frac := ⟨a.num - a.den, a.den⟩

structure Rng where
  gen : Xoshiro256SS

def Rng.ofSeed (seed : ℕ) : Rng := ⟨Xoshiro256SS.ofSeed seed⟩

def Rng.nextU64 (g : Rng) : ℕ × Rng :=
  let (x, g') := g.gen.nextU64
  (x, ⟨g'⟩)

def Rng.nextU32 (g : Rng) : ℕ × Rng :=
  let (x, g') := g.nextU64
  (shr64 x 32, g')

/-- `Rng::NextDouble`: top 53 bits of a draw scaled by `2^-53` (exact in
IEEE double, exact here as a fraction). -/
def Rng.nextDouble (g : Rng) : Frac × Rng :=
  let (x, g') := g.nextU64
  (⟨x >>> 11, 2 ^ 53⟩, g')

/-- Rejection loop of `Rng::UniformU64` (Lemire's method).  The C++ loop has
no a-priori iteration bound; the model carries fuel and accepts the final draw
unconditionally when the fuel runs out (each retry occurs with probability
`bound / 2^64`; on all inputs evaluated in this file no retry occurs at all).
The returned value is `< bound` in every case. -/
def Rng.uniformU64Go (bound threshold : ℕ) : ℕ → Rng → ℕ × Rng
  | 0, g =>
    let (x, g') := g.nextU64
    ((x * bound) >>> 64, g')
  | fuel + 1, g =>
    let (x, g') := g.nextU64
    let m := x * bound
    let l := m % U64MOD
    if threshold ≤ l then (m >>> 64, g')
    else Rng.uniformU64Go bound threshold fuel g'

def kUniformFuel : ℕ := 64

/-- `Rng::UniformU64`: unbiased draw in `[0, bound)`; `bound = 0` returns 0. -/
def Rng.uniformU64 (g : Rng) (bound : ℕ) : ℕ × Rng :=
  if bound = 0 then (0, g)
  else Rng.uniformU64Go bound ((U64MOD - bound) % bound) kUniformFuel g

/-- `Rng::UniformU32` = `static_cast<u32>(UniformU64(bound))`; the value is
already `< bound ≤ 2^32`, so the cast is the identity. -/
def Rng.uniformU32 (g : Rng) (bound : ℕ) : ℕ × Rng := g.uniformU64 bound

/-- Splitmix64 finalizer `HashSeed` from `core/rng.h`. -/
def HashSeed (x : ℕ) : ℕ :=
  let x := add64 x 0x9e3779b97f4a7c15
  let x := mul64 (xor64 x (shr64 x 30)) 0xbf58476d1ce4e5b9
  let x := mul64 (xor64 x (shr64 x 27)) 0x94d049bb133111eb
  xor64 x (shr64 x 31)

/-- `DeriveSeed(master, salt)`. -/
def DeriveSeed (master salt : ℕ) : ℕ :=
  HashSeed (xor64 master (add64 salt 0xD1B54A32D192ED03))

/-- `DeriveSeed(master, a, b)`. -/
def DeriveSeed3 (master a b : ℕ) : ℕ := DeriveSeed (DeriveSeed master a) b

/-! ## Geometry (`geometry/box.h`), specialised to Dim = 2 -/

structure Point2 where
  x : ℚ
  y : ℚ
deriving DecidableEq

structure Box2 where
  lo : Point2
  hi : Point2
deriving DecidableEq

/-- `Box::IsValid`: lo ≤ hi in all dimensions. -/
def Box2.IsValid (b : Box2) : Bool :=
  !(decide (b.hi.x < b.lo.x)) && !(decide (b.hi.y < b.lo.y))

/-- `Box::IsEmpty` (half-open): some dimension has `lo ≥ hi`. -/
def Box2.IsEmpty (b : Box2) : Bool :=
  !(decide (b.lo.x < b.hi.x)) || !(decide (b.lo.y < b.hi.y))

def Box2.IsProper (b : Box2) : Bool := !b.IsEmpty

/-- `Box::Intersects` (half-open): empties rejected, then strict `lo < hi`
comparisons per axis. -/
def Box2.Intersects (a b : Box2) : Bool :=
  if a.IsEmpty || b.IsEmpty then false
  else
    (decide (a.lo.x < b.hi.x) && decide (b.lo.x < a.hi.x)) &&
    (decide (a.lo.y < b.hi.y) && decide (b.lo.y < a.hi.y))

/-! ## Relations and datasets (`io/dataset.h`) -/

structure Relation where
  boxes : List Box2
  ids : List ℕ
deriving DecidableEq

/-- `Relation::GetId`: explicit id if present, else the index itself. -/
def Relation.GetId (rel : Relation) (i : ℕ) : ℕ :=
  if rel.ids.isEmpty then i else rel.ids.getD i 0

def Relation.size (rel : Relation) : ℕ := rel.boxes.length

/-- `Relation::Validate` with `require_proper = true`. -/
def Relation.ValidateProper (rel : Relation) : Bool :=
  rel.boxes.all (fun b => b.IsValid && !b.IsEmpty) &&
  (rel.ids.isEmpty || rel.ids.length == rel.boxes.length)

structure Dataset where
  R : Relation
  S : Relation
  halfOpen : Bool := true
deriving DecidableEq

/-- `Dataset::Validate` with `require_proper = true`. -/
def Dataset.ValidateProper (ds : Dataset) : Bool :=
  ds.halfOpen && ds.R.ValidateProper && ds.S.ValidateProper

/-! ## Sweep events (`join/join_types.h`, `join/sweep_events.h`) -/

inductive Side where
  | R
  | S
deriving DecidableEq

def OtherSide : Side → Side
  | .R => .S
  | .S => .R

inductive EventKind where
  | End
  | Start
deriving DecidableEq

/-- Numeric value of `EventKind` (`End = 0 < Start = 1`). -/
def EventKind.toNat : EventKind → ℕ
  | .End => 0
  | .Start => 1

inductive SideTieBreak where
  | RBeforeS
  | SBeforeR
deriving DecidableEq

def IsFirst (tb : SideTieBreak) (a b : Side) : Bool :=
  if a = b then false
  else match tb with
    | .RBeforeS => a = Side.R && b = Side.S
    | .SBeforeR => a = Side.S && b = Side.R

structure Event where
  x : ℚ
  kind : EventKind
  side : Side
  id : ℕ
  index : ℕ
deriving DecidableEq

/-- Comparator `EventLess`: (1) x asc, (2) kind asc (End before Start),
(3) id asc, (4) side tie-break, (5) index. -/
def EventLess (tb : SideTieBreak) (a b : Event) : Bool :=
  if a.x < b.x then true
  else if b.x < a.x then false
  else if a.kind.toNat < b.kind.toNat then true
  else if b.kind.toNat < a.kind.toNat then false
  else if a.id < b.id then true
  else if b.id < a.id then false
  else if a.side ≠ b.side then IsFirst tb a.side b.side
  else a.index < b.index

/-- `AppendRelationEvents` on sweep axis 0: one Start at `lo.x` and one End at
`hi.x` per box, skipping boxes empty on the sweep axis. -/
def relationEvents (rel : Relation) (side : Side) : List Event :=
  (List.range rel.boxes.length).foldr
    (fun i acc =>
      let b := rel.boxes.getD i ⟨⟨0, 0⟩, ⟨0, 0⟩⟩
      if b.lo.x < b.hi.x then
        { x := b.lo.x, kind := .Start, side := side, id := rel.GetId i, index := i } ::
        { x := b.hi.x, kind := .End, side := side, id := rel.GetId i, index := i } :: acc
      else acc)
    []

/-- Sort relation used to model `std::sort(..., EventLess{tb})`: `a` may
precede `b` iff `b` is not strictly smaller.  `std::sort` with a strict weak
order on pairwise distinct events has a unique result, so any correct sort
models it exactly. -/
def EventLe (tb : SideTieBreak) (a b : Event) : Prop := EventLess tb b a = false

instance (tb : SideTieBreak) : DecidableRel (EventLe tb) := fun a b => by
  unfold EventLe; infer_instance

/-- `BuildSweepEvents` for a dataset on axis 0: R events then S events, then
sort under `EventLess`. -/
def BuildSweepEvents (ds : Dataset) (tb : SideTieBreak) : List Event :=
  (relationEvents ds.R .R ++ relationEvents ds.S .S).insertionSort (EventLe tb)

/-! ## Brute-force oracle (`join/join_oracle.h`) -/

/-- `CountNaive`: O(|R||S|) double loop over the half-open intersection
predicate. -/
def CountNaive (R S : Relation) : ℕ :=
  (R.boxes.map (fun rb => (S.boxes.filter (fun sb => rb.Intersects sb)).length)).sum

/-! ## Segment trees (`baselines/ours/sampling.h`, namespace `detail`)

Node buckets (`std::vector<Item>` per node) become a function `ℕ → List Item`;
the flat `pos_in_node_` array becomes a function of the flat index
`handle * max_refs_ + backref`. -/

def kInvalidRank : ℕ := 2 ^ 32 - 1

structure Item where
  handle : ℕ
  backref : ℕ
deriving DecidableEq

/-- Next power of two `≥ m` with minimum 1; value of the loop
`p_ = 1; while (p_ < m_) p_ <<= 1;`.  Structural recursion on a fuel that is
always sufficient (the recursion depth on `(m+1)/2` is at most `m`). -/
def pow2geGo : ℕ → ℕ → ℕ
  | 0, _ => 1
  | fuel + 1, m => if m ≤ 1 then 1 else 2 * pow2geGo fuel ((m + 1) / 2)

def pow2ge (m : ℕ) : ℕ := pow2geGo m m

/-- Value of the loop `for (u32 x = p; x > 1; x >>= 1) ++logp;`
(i.e. `⌊log₂ p⌋` for `p ≥ 1`), with the same always-sufficient fuel. -/
def log2Go : ℕ → ℕ → ℕ
  | 0, _ => 0
  | fuel + 1, x => if x ≤ 1 then 0 else log2Go fuel (x / 2) + 1

def log2F (x : ℕ) : ℕ := log2Go x x

/-! ### StabbingSegTree -/

structure StabTree where
  nHandles : ℕ
  m : ℕ
  p : ℕ
  maxRefs : ℕ
  nodes : ℕ → List Item
  posInNode : ℕ → ℕ
  placementSize : ℕ → ℕ
  loRank : ℕ → ℕ
  hiRank : ℕ → ℕ

/-- `StabbingSegTree::Init` (followed by an implicit empty active set). -/
def StabTree.init (numHandles numPoints : ℕ) : StabTree :=
  let p := pow2ge numPoints
  { nHandles := numHandles
    m := numPoints
    p := p
    maxRefs := 2 * log2F p + 4
    nodes := fun _ => []
    posInNode := fun _ => 0
    placementSize := fun _ => 0
    loRank := fun _ => kInvalidRank
    hiRank := fun _ => kInvalidRank }

def StabTree.placementIndex (st : StabTree) (handle backref : ℕ) : ℕ :=
  handle * st.maxRefs + backref

/-- `StabbingSegTree::AddToNode`: append `(handle, placement_size)` to the
node bucket, record the position, bump the placement counter. -/
def StabTree.addToNode (st : StabTree) (handle node : ℕ) : StabTree :=
  let sz := st.placementSize handle
  let bucket := st.nodes node
  let pos := bucket.length
  { st with
    nodes := Function.update st.nodes node (bucket ++ [⟨handle, sz⟩])
    posInNode := Function.update st.posInNode (st.placementIndex handle sz) pos
    placementSize := Function.update st.placementSize handle (sz + 1) }

/-- Canonical-cover insertion loop of `StabbingSegTree::Insert`
(`l = L + p; r = R + p; while (l < r) ...`); `r` halves every iteration, so
fuel `r` is always sufficient. -/
def StabTree.insertLoopGo (handle : ℕ) : ℕ → StabTree → ℕ → ℕ → StabTree
  | 0, st, _, _ => st
  | fuel + 1, st, l, r =>
    if l < r then
      let st1 := if l % 2 = 1 then st.addToNode handle l else st
      let st2 := if r % 2 = 1 then st1.addToNode handle (r - 1) else st1
      StabTree.insertLoopGo handle fuel st2 ((if l % 2 = 1 then l + 1 else l) / 2)
        ((if r % 2 = 1 then r - 1 else r) / 2)
    else st

def StabTree.insertLoop (st : StabTree) (handle l r : ℕ) : StabTree :=
  StabTree.insertLoopGo handle r st l r

/-- `StabbingSegTree::Insert` of the interval `[L, R)` on ranks (with the
source's clamping to `[0, m]` and the empty-interval early return). -/
def StabTree.insert (st : StabTree) (handle L R : ℕ) : StabTree :=
  if R ≤ L || st.m = 0 then st
  else
    let L := min L st.m
    let R := min R st.m
    if R ≤ L then st
    else
      let st := { st with
        loRank := Function.update st.loRank handle L
        hiRank := Function.update st.hiRank handle R }
      st.insertLoop handle (L + st.p) (R + st.p)

/-- `StabbingSegTree::RemoveFromNode`: swap-delete at `pos` (backref fix-up for
the swapped item).  The source asserts the bucket non-empty; the model returns
the state unchanged on an empty bucket. -/
def StabTree.removeFromNode (st : StabTree) (node pos : ℕ) : StabTree :=
  let bucket := st.nodes node
  if bucket.isEmpty then st
  else
    let lastPos := bucket.length - 1
    if pos ≠ lastPos then
      let swapped := bucket.getD lastPos ⟨0, 0⟩
      { st with
        nodes := Function.update st.nodes node ((bucket.set pos swapped).dropLast)
        posInNode := Function.update st.posInNode
          (st.placementIndex swapped.handle swapped.backref) pos }
    else
      { st with nodes := Function.update st.nodes node bucket.dropLast }

/-- Cover-walk removal loop of `StabbingSegTree::Erase`, threading the backref
counter exactly as the source does (fuel as in the insertion loop). -/
def StabTree.eraseLoopGo (handle : ℕ) : ℕ → StabTree → ℕ → ℕ → ℕ → StabTree
  | 0, st, _, _, _ => st
  | fuel + 1, st, l, r, br =>
    if l < r then
      let st1 :=
        if l % 2 = 1 then
          st.removeFromNode l (st.posInNode (st.placementIndex handle br))
        else st
      let br1 := if l % 2 = 1 then br + 1 else br
      let st2 :=
        if r % 2 = 1 then
          st1.removeFromNode (r - 1) (st1.posInNode (st1.placementIndex handle br1))
        else st1
      let br2 := if r % 2 = 1 then br1 + 1 else br1
      StabTree.eraseLoopGo handle fuel st2 ((if l % 2 = 1 then l + 1 else l) / 2)
        ((if r % 2 = 1 then r - 1 else r) / 2) br2
    else st

def StabTree.eraseLoop (st : StabTree) (handle l r br : ℕ) : StabTree :=
  StabTree.eraseLoopGo handle r st l r br

/-- `StabbingSegTree::Erase`. -/
def StabTree.erase (st : StabTree) (handle : ℕ) : StabTree :=
  let sz := st.placementSize handle
  if sz = 0 then st
  else
    let L := st.loRank handle
    let R := st.hiRank handle
    let st' := st.eraseLoop handle (L + st.p) (R + st.p) 0
    { st' with
      placementSize := Function.update st'.placementSize handle 0
      loRank := Function.update st'.loRank handle kInvalidRank
      hiRank := Function.update st'.hiRank handle kInvalidRank }

/-- Leaf-to-root walk of `StabbingSegTree::Count` (`idx` halves every
iteration, so fuel `idx` is always sufficient). -/
def StabTree.countLoopGo (st : StabTree) : ℕ → ℕ → ℕ
  | 0, _ => 0
  | fuel + 1, idx =>
    if idx = 0 then 0
    else (st.nodes idx).length + st.countLoopGo fuel (idx / 2)

def StabTree.countLoop (st : StabTree) (idx : ℕ) : ℕ := st.countLoopGo idx idx

/-- `StabbingSegTree::Count` at query position `q`. -/
def StabTree.count (st : StabTree) (q : ℕ) : ℕ :=
  if st.m = 0 || st.m ≤ q then 0 else st.countLoop (q + st.p)

/-- Leaf-to-root node path `{idx, idx/2, ..., 1}` (fuel as in `countLoop`). -/
def pathNodesGo : ℕ → ℕ → List ℕ
  | 0, _ => []
  | fuel + 1, idx => if idx = 0 then [] else idx :: pathNodesGo fuel (idx / 2)

def pathNodes (idx : ℕ) : List ℕ := pathNodesGo idx idx

/-- Prefix-sum bucket selection shared by both trees' `Sample` loops:
first index whose cumulative weight exceeds `x`, with the source's defensive
clamp to the last index. -/
def selectBucketGo (ws : List ℕ) (x cum i : ℕ) : ℕ :=
  match ws with
  | [] => i - 1
  | w :: rest => if x < cum + w then i else selectBucketGo rest x (cum + w) (i + 1)

def selectBucket (ws : List ℕ) (x : ℕ) : ℕ := selectBucketGo ws x 0 0

/-- Draw loop of `StabbingSegTree::Sample`: per draw, one `UniformU64(total)`
bucket pick and one `UniformU32(bucket size)` intra-bucket pick. -/
def StabTree.sampleGo (st : StabTree) (path : List ℕ) (ws : List ℕ) (total : ℕ) :
    ℕ → Rng → List ℕ → List ℕ × Rng
  | 0, g, acc => (acc, g)
  | k + 1, g, acc =>
    let (x, g) := g.uniformU64 total
    let bi := selectBucket ws x
    let node := path.getD bi 0
    let bucket := st.nodes node
    let (pos, g) := g.uniformU32 bucket.length
    st.sampleGo path ws total k g (acc ++ [(bucket.getD pos ⟨0, 0⟩).handle])

/-- `StabbingSegTree::Sample`: `none` models returning `false`. -/
def StabTree.sample (st : StabTree) (q k : ℕ) (g : Rng) : Option (List ℕ) × Rng :=
  if k = 0 then (some [], g)
  else if st.m = 0 || st.m ≤ q then (none, g)
  else
    let path := (pathNodes (q + st.p)).filter (fun n => !(st.nodes n).isEmpty)
    let ws := path.map (fun n => (st.nodes n).length)
    let total := ws.sum
    if total = 0 || path.length = 0 then (none, g)
    else
      let (out, g) := st.sampleGo path ws total k g []
      (some out, g)

/-- `StabbingSegTree::Report`: concatenate the path buckets (appended to the
caller's output). -/
def StabTree.report (st : StabTree) (q : ℕ) : List ℕ :=
  if st.m = 0 || st.m ≤ q then []
  else (pathNodes (q + st.p)).foldr (fun n acc => (st.nodes n).map Item.handle ++ acc) []

/-! ### RangePointSegTree -/

structure PtsTree where
  nHandles : ℕ
  m : ℕ
  p : ℕ
  maxRefs : ℕ
  nodes : ℕ → List Item
  posInNode : ℕ → ℕ
  placementSize : ℕ → ℕ
  rankOfHandle : ℕ → ℕ

/-- `RangePointSegTree::Init`. -/
def PtsTree.init (numHandles numRanks : ℕ) : PtsTree :=
  let p := pow2ge numRanks
  { nHandles := numHandles
    m := numRanks
    p := p
    maxRefs := log2F p + 1
    nodes := fun _ => []
    posInNode := fun _ => 0
    placementSize := fun _ => 0
    rankOfHandle := fun _ => kInvalidRank }

def PtsTree.placementIndex (st : PtsTree) (handle backref : ℕ) : ℕ :=
  handle * st.maxRefs + backref

/-- `RangePointSegTree::AddToNode` (explicit backref argument). -/
def PtsTree.addToNode (st : PtsTree) (handle node backref : ℕ) : PtsTree :=
  let bucket := st.nodes node
  let pos := bucket.length
  { st with
    nodes := Function.update st.nodes node (bucket ++ [⟨handle, backref⟩])
    posInNode := Function.update st.posInNode (st.placementIndex handle backref) pos }

/-- Leaf-to-root insertion walk of `RangePointSegTree::Insert`; returns the
final backref count (fuel as in `countLoop`). -/
def PtsTree.insertLoopGo (handle : ℕ) : ℕ → PtsTree → ℕ → ℕ → PtsTree × ℕ
  | 0, st, _, br => (st, br)
  | fuel + 1, st, idx, br =>
    if idx = 0 then (st, br)
    else PtsTree.insertLoopGo handle fuel (st.addToNode handle idx br) (idx / 2) (br + 1)

def PtsTree.insertLoop (st : PtsTree) (handle idx br : ℕ) : PtsTree × ℕ :=
  PtsTree.insertLoopGo handle idx st idx br

/-- `RangePointSegTree::Insert` of a point at `rank`. -/
def PtsTree.insert (st : PtsTree) (handle rank : ℕ) : PtsTree :=
  let st := { st with rankOfHandle := Function.update st.rankOfHandle handle rank }
  let (st, br) := st.insertLoop handle (rank + st.p) 0
  { st with placementSize := Function.update st.placementSize handle br }

/-- `RangePointSegTree::RemoveFromNode` (same swap-delete as the stabbing
tree). -/
def PtsTree.removeFromNode (st : PtsTree) (node pos : ℕ) : PtsTree :=
  let bucket := st.nodes node
  if bucket.isEmpty then st
  else
    let lastPos := bucket.length - 1
    if pos ≠ lastPos then
      let swapped := bucket.getD lastPos ⟨0, 0⟩
      { st with
        nodes := Function.update st.nodes node ((bucket.set pos swapped).dropLast)
        posInNode := Function.update st.posInNode
          (st.placementIndex swapped.handle swapped.backref) pos }
    else
      { st with nodes := Function.update st.nodes node bucket.dropLast }

/-- Path-walk removal loop of `RangePointSegTree::Erase` (`rem` is the number
of placements still to remove, `i` the current backref index). -/
def PtsTree.eraseGo (st : PtsTree) (handle idx i : ℕ) : ℕ → PtsTree
  | 0 => st
  | rem + 1 =>
    let pos := st.posInNode (st.placementIndex handle i)
    (st.removeFromNode idx pos).eraseGo handle (idx / 2) (i + 1) rem

/-- `RangePointSegTree::Erase`. -/
def PtsTree.erase (st : PtsTree) (handle : ℕ) : PtsTree :=
  let sz := st.placementSize handle
  if sz = 0 then st
  else
    let rank := st.rankOfHandle handle
    let st' := st.eraseGo handle (rank + st.p) 0 sz
    { st' with
      placementSize := Function.update st'.placementSize handle 0
      rankOfHandle := Function.update st'.rankOfHandle handle kInvalidRank }

/-- Cover-walk summation loop of `RangePointSegTree::CountRange` (fuel as in
the stabbing insertion loop). -/
def PtsTree.countLoopGo (st : PtsTree) : ℕ → ℕ → ℕ → ℕ
  | 0, _, _ => 0
  | fuel + 1, l, r =>
    if l < r then
      (if l % 2 = 1 then (st.nodes l).length else 0) +
      (if r % 2 = 1 then (st.nodes (r - 1)).length else 0) +
      st.countLoopGo fuel ((l + 1) / 2) (r / 2)
    else 0

def PtsTree.countLoop (st : PtsTree) (l r : ℕ) : ℕ := st.countLoopGo r l r

/-- `RangePointSegTree::CountRange` over ranks `[l, r)` with the source's
clamping. -/
def PtsTree.countRange (st : PtsTree) (l r : ℕ) : ℕ :=
  if r ≤ l || st.m = 0 then 0
  else
    let l := min l st.m
    let r := min r st.m
    if r ≤ l then 0 else st.countLoop (l + st.p) (r + st.p)

/-- Loop body of `RangePointSegTree::DecomposeOrdered`, collecting the left
and right node stacks (fuel as in the other cover walks). -/
def decomposeLoop : ℕ → ℕ → ℕ → List ℕ → List ℕ → List ℕ × List ℕ
  | 0, _, _, left, right => (left, right)
  | fuel + 1, L, R, left, right =>
    if L < R then
      decomposeLoop fuel ((if L % 2 = 1 then L + 1 else L) / 2)
        ((if R % 2 = 1 then R - 1 else R) / 2)
        (if L % 2 = 1 then left ++ [L] else left)
        (if R % 2 = 1 then right ++ [R - 1] else right)
    else (left, right)

def decomposeGo (L R : ℕ) (left right : List ℕ) : List ℕ × List ℕ :=
  decomposeLoop R L R left right

/-- `RangePointSegTree::DecomposeOrdered` of `[l, r)` in absolute node indices
(`l + p`, `r + p`): left nodes in order, then right nodes reversed. -/
def decomposeOrdered (p l r : ℕ) : List ℕ :=
  if r ≤ l then []
  else
    let (left, right) := decomposeGo (l + p) (r + p) [] []
    left ++ right.reverse

/-- Draw loop of `RangePointSegTree::SampleRange` (same two-level selection as
the stabbing tree). -/
def PtsTree.sampleGo (st : PtsTree) (nodesNZ : List ℕ) (ws : List ℕ) (total : ℕ) :
    ℕ → Rng → List ℕ → List ℕ × Rng
  | 0, g, acc => (acc, g)
  | k + 1, g, acc =>
    let (x, g) := g.uniformU64 total
    let bi := selectBucket ws x
    let node := nodesNZ.getD bi 0
    let bucket := st.nodes node
    let (pos, g) := g.uniformU32 bucket.length
    st.sampleGo nodesNZ ws total k g (acc ++ [(bucket.getD pos ⟨0, 0⟩).handle])

/-- `RangePointSegTree::SampleRange`. -/
def PtsTree.sampleRange (st : PtsTree) (l r k : ℕ) (g : Rng) : Option (List ℕ) × Rng :=
  if k = 0 then (some [], g)
  else if r ≤ l || st.m = 0 then (none, g)
  else
    let l := min l st.m
    let r := min r st.m
    if r ≤ l then (none, g)
    else
      let cover := decomposeOrdered st.p l r
      let nodesNZ := cover.filter (fun n => !(st.nodes n).isEmpty)
      let ws := nodesNZ.map (fun n => (st.nodes n).length)
      let total := ws.sum
      if total = 0 || nodesNZ.length = 0 then (none, g)
      else
        let (out, g) := st.sampleGo nodesNZ ws total k g []
        (some out, g)

/-- `RangePointSegTree::ReportRange` (appended to the caller's output). -/
def PtsTree.reportRange (st : PtsTree) (l r : ℕ) : List ℕ :=
  if r ≤ l || st.m = 0 then []
  else
    let l := min l st.m
    let r := min r st.m
    if r ≤ l then []
    else
      (decomposeOrdered st.p l r).foldr
        (fun n acc => (st.nodes n).map Item.handle ++ acc) []

/-! ### ActiveIndex2D: per-side composition of the two trees -/

structure ActiveIndex2D where
  n : ℕ
  m : ℕ
  stab : StabTree
  pts : PtsTree

def ActiveIndex2D.init (numHandles numYloRanks : ℕ) : ActiveIndex2D :=
  { n := numHandles
    m := numYloRanks
    stab := StabTree.init numHandles numYloRanks
    pts := PtsTree.init numHandles numYloRanks }

def ActiveIndex2D.insert (a : ActiveIndex2D) (handle yloRank yhiLbRank : ℕ) :
    ActiveIndex2D :=
  { a with
    stab := a.stab.insert handle yloRank yhiLbRank
    pts := a.pts.insert handle yloRank }

def ActiveIndex2D.erase (a : ActiveIndex2D) (handle : ℕ) : ActiveIndex2D :=
  { a with stab := a.stab.erase handle, pts := a.pts.erase handle }

/-- Pattern A count: stabbing at the query's `ylo` rank. -/
def ActiveIndex2D.countA (a : ActiveIndex2D) (yQLoRank : ℕ) : ℕ :=
  a.stab.count yQLoRank

/-- Pattern B count: points with `ylo` rank in `(q_ylo, q_yhi)`, clamped. -/
def ActiveIndex2D.countB (a : ActiveIndex2D) (yQLoRank yQHiLbRank : ℕ) : ℕ :=
  if a.m = 0 then 0
  else
    let l := if yQLoRank + 1 ≤ a.m then yQLoRank + 1 else a.m
    let r := min yQHiLbRank a.m
    a.pts.countRange l r

def ActiveIndex2D.sampleA (a : ActiveIndex2D) (yQLoRank k : ℕ) (g : Rng) :
    Option (List ℕ) × Rng :=
  a.stab.sample yQLoRank k g

def ActiveIndex2D.sampleB (a : ActiveIndex2D) (yQLoRank yQHiLbRank k : ℕ) (g : Rng) :
    Option (List ℕ) × Rng :=
  let l := if yQLoRank + 1 ≤ a.m then yQLoRank + 1 else a.m
  let r := min yQHiLbRank a.m
  a.pts.sampleRange l r k g

def ActiveIndex2D.reportA (a : ActiveIndex2D) (yQLoRank : ℕ) : List ℕ :=
  a.stab.report yQLoRank

def ActiveIndex2D.reportB (a : ActiveIndex2D) (yQLoRank yQHiLbRank : ℕ) : List ℕ :=
  let l := if yQLoRank + 1 ≤ a.m then yQLoRank + 1 else a.m
  let r := min yQHiLbRank a.m
  a.pts.reportRange l r

/-! ## Shared 2D preprocessing context (`Ours2DContext::Build`, Dim = 2) -/

structure Ctx where
  ds : Dataset
  evs : List Event
  startIds : List (Option ℕ)
  numStarts : ℕ
  yCoords : List ℚ
  yloR : List ℕ
  yhiR : List ℕ
  yloS : List ℕ
  yhiS : List ℕ
  m : ℕ
deriving DecidableEq

/-- Dense start-id assignment: position-indexed table holding the sequential
0..E−1 rank for Start events and nothing for End events. -/
def startIdsGo : List Event → ℕ → List (Option ℕ)
  | [], _ => []
  | e :: rest, c =>
    match e.kind with
    | .Start => some c :: startIdsGo rest (c + 1)
    | .End => none :: startIdsGo rest c

/-- Index returned by `std::lower_bound` on the sorted deduplicated list `ys`:
the number of elements `< v`. -/
def lbRank (ys : List ℚ) (v : ℚ) : ℕ :=
  (ys.filter (fun u => decide (u < v))).length

/-- `Ours2DContext::Build`: u32 size guard, events, start ids, y-domain
(sorted unique `lo.y` values of R ∪ S, error when empty), rank tables, and the
(empty) active-index skeletons, which are recreated by the framework drivers. -/
def buildCtx (ds : Dataset) : Except String Ctx :=
  if U32MAX < ds.R.boxes.length || U32MAX < ds.S.boxes.length then
    .error "Ours2DContext: relation size exceeds u32"
  else
    let evs := BuildSweepEvents ds .RBeforeS
    let yCoords :=
      (((ds.R.boxes ++ ds.S.boxes).map (fun b => b.lo.y)).insertionSort (· ≤ ·)).dedup
    if yCoords.isEmpty then .error "Ours2DContext: empty y-domain"
    else
      .ok
        { ds := ds
          evs := evs
          startIds := startIdsGo evs 0
          numStarts := (evs.filter (fun e => e.kind == EventKind.Start)).length
          yCoords := yCoords
          yloR := ds.R.boxes.map (fun b => lbRank yCoords b.lo.y)
          yhiR := ds.R.boxes.map (fun b => lbRank yCoords b.hi.y)
          yloS := ds.S.boxes.map (fun b => lbRank yCoords b.lo.y)
          yhiS := ds.S.boxes.map (fun b => lbRank yCoords b.hi.y)
          m := yCoords.length }

/-! ## Framework II pass 1 (`OursSamplingBaseline::Count`) -/

structure CountState where
  aR : ActiveIndex2D
  aS : ActiveIndex2D
  wa : ℕ → ℕ
  wb : ℕ → ℕ
  wt : ℕ → ℕ
  W : ℕ

def initCountState (ctx : Ctx) : CountState :=
  { aR := ActiveIndex2D.init ctx.ds.R.boxes.length ctx.m
    aS := ActiveIndex2D.init ctx.ds.S.boxes.length ctx.m
    wa := fun _ => 0
    wb := fun _ => 0
    wt := fun _ => 0
    W := 0 }

/-- One event of pass 1: End erases; Start queries the opposite active set
(Pattern A stabbing + Pattern B range count), stores the weights, accumulates
`W += w` (u64, wrapping — the source performs no overflow check here) and only
then inserts the query into its own side. -/
def countStep (ctx : Ctx) (st : CountState) : Event × Option ℕ → CountState
  | (ev, sid?) =>
    match ev.kind with
    | .End =>
      match ev.side with
      | .R => { st with aR := st.aR.erase ev.index }
      | .S => { st with aS := st.aS.erase ev.index }
    | .Start =>
      let sid := sid?.getD 0
      let qIsR := ev.side = Side.R
      let qYlo := if qIsR then ctx.yloR.getD ev.index 0 else ctx.yloS.getD ev.index 0
      let qYhi := if qIsR then ctx.yhiR.getD ev.index 0 else ctx.yhiS.getD ev.index 0
      let other := if qIsR then st.aS else st.aR
      let wa := other.countA qYlo
      let wb := other.countB qYlo qYhi
      let w := wa + wb
      let st :=
        { st with
          wa := Function.update st.wa sid wa
          wb := Function.update st.wb sid wb
          wt := Function.update st.wt sid w
          W := add64 st.W w }
      if qIsR then { st with aR := st.aR.insert ev.index qYlo qYhi }
      else { st with aS := st.aS.insert ev.index qYlo qYhi }

/-- Pass 1 of Framework II (the rng argument of `Count` is unused by the
source: `(void)rng`). -/
def samplingCount (ctx : Ctx) : CountState :=
  (ctx.evs.zip ctx.startIds).foldl (countStep ctx) (initCountState ctx)

/-- `CountResult` restricted to the fields the core sets (`MakeExactCount`):
the `long double` value is an exact u64 here (64-bit mantissa). -/
structure CountResult where
  value : ℕ
  exact : Bool
deriving DecidableEq

def MakeExactCount (v : ℕ) : CountResult := ⟨v, true⟩

/-! ## Alias table (`sampling/alias_table.h`, `BuildFromU64`) -/

structure AliasTable where
  prob : List Frac
  aliasIdx : List ℕ
  n : ℕ
  uniformFallback : Bool

/-- Main Vose construction loop (`while (!small.empty() && !large.empty())`).
The C++ stacks push/pop at the vector back; here the list head is the stack
top.  Returns the final `prob`/`alias` maps and the remaining stacks. -/
def aliasBuildLoopGo :
    ℕ → (ℕ → Frac) → (ℕ → Frac) → (ℕ → ℕ) → List ℕ → List ℕ →
    (ℕ → Frac) × (ℕ → ℕ) × List ℕ × List ℕ
  | 0, _, prob, aliasIdx, small, large => (prob, aliasIdx, small, large)
  | fuel + 1, scaled, prob, aliasIdx, small, large =>
    match small, large with
    | s :: small, l :: large =>
      let prob := Function.update prob s (scaled s)
      let aliasIdx := Function.update aliasIdx s l
      let scaled := Function.update scaled l (((scaled l).add (scaled s)).subOne)
      if (scaled l).blt (Frac.ofNat 1) then
        aliasBuildLoopGo fuel scaled prob aliasIdx (l :: small) large
      else
        aliasBuildLoopGo fuel scaled prob aliasIdx small (l :: large)
    | small, large => (prob, aliasIdx, small, large)

/-- Each iteration of the Vose loop shrinks `|small| + |large|` by one, so
that sum is a sufficient fuel. -/
def aliasBuildLoop (scaled : ℕ → Frac) (prob : ℕ → Frac) (aliasIdx : ℕ → ℕ)
    (small large : List ℕ) : (ℕ → Frac) × (ℕ → ℕ) × List ℕ × List ℕ :=
  aliasBuildLoopGo (small.length + large.length) scaled prob aliasIdx small large

/-- Defensive clamp of a probability into `[0, 1]` (source end of build). -/
def aliasClamp (p : Frac) : Frac :=
  if p.blt ⟨0, 1⟩ then ⟨0, 1⟩
  else if (Frac.ofNat 1).blt p then ⟨1, 1⟩
  else p

/-- `AliasTable::BuildFromU64`.  The u128 weight sum is an exact natural
number; `scaled[i] = w_i · n / sum` and all subsequent long-double arithmetic
is modelled exactly (see the file comment). -/
def AliasTable.buildFromU64 (weights : List ℕ) : Except String AliasTable :=
  let n := weights.length
  if n = 0 then .ok ⟨[], [], 0, false⟩
  else if U32MAX < n then
    .error "AliasTable::BuildFromU64: n too large for u32 alias indices"
  else
    let sum := weights.sum
    if sum = 0 then
      .ok { prob := List.replicate n (Frac.ofNat 1)
            aliasIdx := List.range n
            n := n
            uniformFallback := true }
    else
      let scaled0 : ℕ → Frac := fun i => ⟨weights.getD i 0 * n, sum⟩
      let small0 := ((List.range n).filter (fun i => (scaled0 i).blt (Frac.ofNat 1))).reverse
      let large0 := ((List.range n).filter (fun i => !(scaled0 i).blt (Frac.ofNat 1))).reverse
      let res := aliasBuildLoop scaled0 (fun _ => Frac.ofNat 1) (fun _ => 0) small0 large0
      let prob1 := res.1
      let aliasIdx1 := res.2.1
      let smallRem := res.2.2.2
      let largeRem := res.2.2.1
      let prob2 := largeRem.foldl (fun f idx => Function.update f idx (Frac.ofNat 1)) prob1
      let prob3 := smallRem.foldl (fun f idx => Function.update f idx (Frac.ofNat 1)) prob2
      let aliasIdx2 := largeRem.foldl (fun f idx => Function.update f idx idx) aliasIdx1
      let aliasIdx3 := smallRem.foldl (fun f idx => Function.update f idx idx) aliasIdx2
      .ok { prob := (List.range n).map (fun i => aliasClamp (prob3 i))
            aliasIdx := (List.range n).map (fun i => if n ≤ aliasIdx3 i then i else aliasIdx3 i)
            n := n
            uniformFallback := false }

/-- `AliasTable::Sample`: uniform fallback, else a bucket draw plus a
threshold compare against one `NextDouble`. -/
def AliasTable.sample (tbl : AliasTable) (g : Rng) : ℕ × Rng :=
  if tbl.uniformFallback then g.uniformU64 tbl.n
  else
    let (i, g) := g.uniformU64 tbl.n
    let (u, g) := g.nextDouble
    (if u.blt (tbl.prob.getD i ⟨1, 1⟩) then i else tbl.aliasIdx.getD i i, g)

/-! ## Slot plan (`BuildSlotPlan2D`) -/

structure SlotPlan2D where
  offsetA : List ℕ
  offsetB : List ℕ
  slotsA : List ℕ
  slotsB : List ℕ
deriving DecidableEq

/-- First pass of `BuildSlotPlan2D`: per slot, one alias draw for the event id
and a conditional draw for the pattern (`false` = A, `true` = B); zero-weight
sides take no draw. -/
def planDraws (tbl : AliasTable) (wA wB : List ℕ) :
    ℕ → Rng → List (ℕ × Bool) → List (ℕ × Bool) × Rng
  | 0, g, acc => (acc, g)
  | j + 1, g, acc =>
    let (eid, g) := tbl.sample g
    let wa := wA.getD eid 0
    let wb := wB.getD eid 0
    let w := wa + wb
    let (pat, g) :=
      if wa = 0 then (true, g)
      else if wb = 0 then (false, g)
      else
        let (r, g) := g.uniformU64 w
        (!decide (r < wa), g)
    planDraws tbl wA wB j g (acc ++ [(eid, pat)])

/-- Per-event draw counts of the first pass (`cnt_a`, `cnt_b`). -/
def planCnt (draws : List (ℕ × Bool)) (pat : Bool) (e : ℕ) : ℕ :=
  draws.countP (fun d => d.1 == e && d.2 == pat)

/-- Prefix-sum offsets `offset[0] = 0`, `offset[e+1] = offset[e] + cnt[e]`. -/
def prefixSums (cnt : ℕ → ℕ) (E : ℕ) : List ℕ :=
  (List.range (E + 1)).map (fun e => ((List.range e).map cnt).sum)

/-- Second, stable fill pass of `BuildSlotPlan2D`: scatter slot indices into
the flat arrays at the per-event cursors. -/
def fillGo : List (ℕ × Bool) → ℕ → (ℕ → ℕ) → (ℕ → ℕ) → (ℕ → Option ℕ) →
    (ℕ → Option ℕ) → (ℕ → Option ℕ) × (ℕ → Option ℕ)
  | [], _, _, _, slA, slB => (slA, slB)
  | (eid, pat) :: rest, j, curA, curB, slA, slB =>
    if pat then
      fillGo rest (j + 1) curA (Function.update curB eid (curB eid + 1)) slA
        (Function.update slB (curB eid) (some j))
    else
      fillGo rest (j + 1) (Function.update curA eid (curA eid + 1)) curB
        (Function.update slA (curA eid) (some j)) slB

/-- `BuildSlotPlan2D` (alias on `w_total`, t assignment draws, prefix-sum
offsets, stable fill).  Slots arrays are value-initialized by `resize`, hence
the `getD 0` readback of unwritten positions. -/
def BuildSlotPlan2D (t : ℕ) (g : Rng) (wTotal wA wB : List ℕ) :
    Except String (SlotPlan2D × Rng) :=
  let E := wTotal.length
  if E = 0 then .error "BuildSlotPlan2D: empty event set"
  else
    match AliasTable.buildFromU64 wTotal with
    | .error e => .error e
    | .ok tbl =>
      let (draws, g) := planDraws tbl wA wB t g []
      let offsetA := prefixSums (planCnt draws false) E
      let offsetB := prefixSums (planCnt draws true) E
      let totalA := offsetA.getD E 0
      let totalB := offsetB.getD E 0
      let (slA, slB) := fillGo draws 0 (fun e => offsetA.getD e 0) (fun e => offsetB.getD e 0)
        (fun _ => none) (fun _ => none)
      .ok
        ({ offsetA := offsetA
           offsetB := offsetB
           slotsA := (List.range totalA).map (fun p => (slA p).getD 0)
           slotsB := (List.range totalB).map (fun p => (slB p).getD 0) }, g)

/-! ## Framework II pass 2 (`OursSamplingBaseline::Sample`) -/

structure SampleSet where
  pairs : List (ℕ × ℕ)
  withReplacement : Bool := true
  weighted : Bool := false
deriving DecidableEq

structure Phase3State where
  aR : ActiveIndex2D
  aS : ActiveIndex2D
  pairs : ℕ → ℕ × ℕ
  err : Option String
  g : Rng

/-- Write `k` sampled partners into their assigned output slots, in (R, S) id
order. -/
def writeSlots (ds : Dataset) (qIsR : Bool) (qIdx : ℕ) (slots : List ℕ)
    (begin' k : ℕ) (sampled : List ℕ) (pairs : ℕ → ℕ × ℕ) : ℕ → ℕ × ℕ :=
  (List.range k).foldl
    (fun pm i =>
      let slot := slots.getD (begin' + i) 0
      let oh := sampled.getD i 0
      let pr :=
        if qIsR then (ds.R.GetId qIdx, ds.S.GetId oh)
        else (ds.R.GetId oh, ds.S.GetId qIdx)
      Function.update pm slot pr)
    pairs

/-- One event of pass 2: End erases; Start draws `k_A` Pattern-A partners and
`k_B` Pattern-B partners for its assigned slots (failing on an inconsistent
sub-sampler), then inserts itself.  Once a failure is recorded the remaining
events leave it untouched (the source returns immediately). -/
def phase3Step (ctx : Ctx) (plan : SlotPlan2D) (st : Phase3State) :
    Event × Option ℕ → Phase3State
  | (ev, sid?) =>
    if st.err.isSome then st
    else
      match ev.kind with
      | .End =>
        match ev.side with
        | .R => { st with aR := st.aR.erase ev.index }
        | .S => { st with aS := st.aS.erase ev.index }
      | .Start =>
        let sid := sid?.getD 0
        let qIsR := ev.side = Side.R
        let qYlo := if qIsR then ctx.yloR.getD ev.index 0 else ctx.yloS.getD ev.index 0
        let qYhi := if qIsR then ctx.yhiR.getD ev.index 0 else ctx.yhiS.getD ev.index 0
        let other := if qIsR then st.aS else st.aR
        let beginA := plan.offsetA.getD sid 0
        let kA := plan.offsetA.getD (sid + 1) 0 - beginA
        let resA : Except String ((ℕ → ℕ × ℕ) × Rng) :=
          if kA > 0 then
            let (ores, g) := other.sampleA qYlo kA st.g
            match ores with
            | none => .error "OursSamplingBaseline::Sample: SampleA failed (inconsistent weights)"
            | some sampled =>
              if sampled.length ≠ kA then
                .error "OursSamplingBaseline::Sample: SampleA failed (inconsistent weights)"
              else
                .ok (writeSlots ctx.ds qIsR ev.index plan.slotsA beginA kA sampled st.pairs, g)
          else .ok (st.pairs, st.g)
        match resA with
        | .error e => { st with err := some e }
        | .ok (pairs1, g1) =>
          let beginB := plan.offsetB.getD sid 0
          let kB := plan.offsetB.getD (sid + 1) 0 - beginB
          let resB : Except String ((ℕ → ℕ × ℕ) × Rng) :=
            if kB > 0 then
              let (ores, g) := other.sampleB qYlo qYhi kB g1
              match ores with
              | none => .error "OursSamplingBaseline::Sample: SampleB failed (inconsistent weights)"
              | some sampled =>
                if sampled.length ≠ kB then
                  .error "OursSamplingBaseline::Sample: SampleB failed (inconsistent weights)"
                else
                  .ok (writeSlots ctx.ds qIsR ev.index plan.slotsB beginB kB sampled pairs1, g)
            else .ok (pairs1, g1)
          match resB with
          | .error e => { st with err := some e }
          | .ok (pairs2, g2) =>
            if qIsR then
              { st with aR := st.aR.insert ev.index qYlo qYhi, pairs := pairs2, g := g2 }
            else
              { st with aS := st.aS.insert ev.index qYlo qYhi, pairs := pairs2, g := g2 }

/-- `OursSamplingBaseline::Sample` given the pass-1 state (the runner always
runs Count first, so `weights_valid_` holds).  `t` is `cfg.run.t`. -/
def samplingSample (ctx : Ctx) (cs : CountState) (t : ℕ) (g : Rng) :
    Except String SampleSet :=
  if U32MAX < t then
    .error "OursSamplingBaseline::Sample: run.t too large (must fit in u32)"
  else if t = 0 then .ok { pairs := [] }
  else if cs.W = 0 then .ok { pairs := [] }
  else
    let E := ctx.numStarts
    let wTotalL := (List.range E).map cs.wt
    let wAL := (List.range E).map cs.wa
    let wBL := (List.range E).map cs.wb
    match BuildSlotPlan2D t g wTotalL wAL wBL with
    | .error e => .error e
    | .ok (plan, g) =>
      let st0 : Phase3State :=
        { aR := ActiveIndex2D.init ctx.ds.R.boxes.length ctx.m
          aS := ActiveIndex2D.init ctx.ds.S.boxes.length ctx.m
          pairs := fun _ => (0, 0)
          err := none
          g := g }
      let stF := (ctx.evs.zip ctx.startIds).foldl (phase3Step ctx plan) st0
      match stF.err with
      | some e => .error e
      | none => .ok { pairs := (List.range t).map stF.pairs }

/-! ## Runner for Variant::Sampling (`runners/sampling_runner.h`) -/

/-- The configuration knobs the Ours baselines read (`cfg.run.t`,
`cfg.run.j_star`, and the `extra` string map keys `budget` / `w_small`). -/
structure Config where
  t : ℕ
  jStar : ℕ := 1000000
  extraBudget : Option ℕ := none
  extraWSmall : Option ℕ := none

/-- `ExtraU64Or(cfg, "budget", cfg.run.j_star)` and the `w_small` analogue. -/
def Config.budget (cfg : Config) : ℕ := cfg.extraBudget.getD cfg.jStar

def Config.wSmall (cfg : Config) : ℕ := cfg.extraWSmall.getD 0

structure RunOut where
  count : CountResult
  samples : SampleSet
deriving DecidableEq

/-- `RunSamplingOnce` for the Ours Sampling baseline: derive the two phase
RNGs from the seed (`DeriveSeed(seed, 1)` / `DeriveSeed(seed, 2)`), then
Reset → Build → Count → Sample.  Count ignores its rng. -/
def runSamplingOnce (ds : Dataset) (cfg : Config) (seed : ℕ) : Except String RunOut :=
  let _rngCount := Rng.ofSeed (DeriveSeed seed 1)
  let rngSample := Rng.ofSeed (DeriveSeed seed 2)
  match buildCtx ds with
  | .error e => .error e
  | .ok ctx =>
    let cs := samplingCount ctx
    match samplingSample ctx cs cfg.t rngSample with
    | .error e => .error e
    | .ok ss => .ok { count := MakeExactCount cs.W, samples := ss }

/-! ## Framework III (`baselines/ours/adaptive.h`)

The Poisson-tail slot score (`SlotScorePoisson`) is genuinely floating-point
and, per the source and the design notes, advisory only (it never affects the
output distribution and is dead code when the budget is 0).  The adaptive
driver below is therefore parametrized by an arbitrary score function
`score w E i wSofar t r`. -/

def ScoreFn : Type := ℕ → ℕ → ℕ → ℕ → ℕ → ℕ → Frac

/-- Minimum heap score; `none` models `-inf` on an empty heap. -/
def heapMinScore (h : List (Frac × ℕ)) : Option Frac :=
  h.foldl
    (fun acc x =>
      match acc with
      | none => some x.1
      | some mn => if x.1.blt mn then some x.1 else some mn)
    none

/-- Pop of the `std::priority_queue` min-heap (`PrefetchSlotGreater`): the
element with minimal score, ties broken towards the smaller sid.  (The heap is
only exercised when `budget > 0`; none of the theorems below reach it.) -/
def heapPopMin (h : List (Frac × ℕ)) : (Frac × ℕ) × List (Frac × ℕ) :=
  match h with
  | [] => ((⟨0, 1⟩, 0), [])
  | x :: xs =>
    let best := xs.foldl
      (fun b y => if y.1.blt b.1 || (y.1 == b.1 && y.2 < b.2) then y else b) x
    (best, h.erase best)

/-- Eviction of one prefetch slot of event `j` (decrement the keep count, drop
the last stored sample). -/
def evictSlot (keep : ℕ → ℕ) (parts : ℕ → List ℕ) (j : ℕ) : (ℕ → ℕ) × (ℕ → List ℕ) :=
  if keep j > 0 then
    (Function.update keep j (keep j - 1),
     if (parts j).isEmpty then parts else Function.update parts j (parts j).dropLast)
  else (keep, parts)

/-- The `while (true)` prefetch-slot push loop of `OursAdaptiveBaseline::Count`.
The C++ loop terminates because the score is non-increasing in `r`; the model
carries fuel (the loop is unreachable in this file's theorems, which all have
`budget = 0`). -/
def prefetchPushLoop (score : ScoreFn) (w E i wSofar t sid BSamp : ℕ) :
    ℕ → List (Frac × ℕ) → (ℕ → ℕ) → (ℕ → List ℕ) →
    List (Frac × ℕ) × (ℕ → ℕ) × (ℕ → List ℕ)
  | 0, heap, keep, parts => (heap, keep, parts)
  | fuel + 1, heap, keep, parts =>
    let r := keep sid + 1
    let sc := score w E i wSofar t r
    if heap.length < BSamp then
      prefetchPushLoop score w E i wSofar t sid BSamp fuel ((sc, sid) :: heap)
        (Function.update keep sid (keep sid + 1)) parts
    else
      let beatsMin :=
        match heapMinScore heap with
        | none => true
        | some mn => mn.blt sc
      if beatsMin then
        let heap1 := (sc, sid) :: heap
        let keep1 := Function.update keep sid (keep sid + 1)
        let (popped, heap2) := heapPopMin heap1
        let (keep2, parts2) := evictSlot keep1 parts popped.2
        prefetchPushLoop score w E i wSofar t sid BSamp fuel heap2 keep2 parts2
      else (heap, keep, parts)

/-- Heap-shrink loop after a full cache is taken
(`while (heap.Size() > B_samp) ...`); each pop shrinks the heap, so the heap
size bounds the iteration count. -/
def heapShrink (BSamp : ℕ) : ℕ → List (Frac × ℕ) → (ℕ → ℕ) → (ℕ → List ℕ) →
    List (Frac × ℕ) × (ℕ → ℕ) × (ℕ → List ℕ)
  | 0, heap, keep, parts => (heap, keep, parts)
  | fuel + 1, heap, keep, parts =>
    if BSamp < heap.length then
      let (popped, heap') := heapPopMin heap
      let (keep', parts') := evictSlot keep parts popped.2
      heapShrink BSamp fuel heap' keep' parts'
    else (heap, keep, parts)

/-- Pattern draws for the prefetched samples of one event (`rng_pat` loop). -/
def genPats (wa wb w : ℕ) : ℕ → Rng → List Bool → List Bool × Rng
  | 0, g, acc => (acc, g)
  | j + 1, g, acc =>
    let (p, g) :=
      if wa = 0 then (true, g)
      else if wb = 0 then (false, g)
      else
        let (r, g) := g.uniformU64 w
        (!decide (r < wa), g)
    genPats wa wb w j g (acc ++ [p])

/-- Interleave the A- and B-samples back into pattern order (the `ia`/`ib`
cursor loop). -/
def interleaveGo : List Bool → List ℕ → List ℕ → List ℕ
  | [], _, _ => []
  | p :: rest, xa, xb =>
    if p then xb.headD 0 :: interleaveGo rest xa xb.tail
    else xa.headD 0 :: interleaveGo rest xa.tail xb

structure ACState where
  aR : ActiveIndex2D
  aS : ActiveIndex2D
  wa : ℕ → ℕ
  wb : ℕ → ℕ
  wt : ℕ → ℕ
  W : ℕ
  wSofar : ℕ
  memFull : ℕ
  cached : ℕ → Bool
  cacheOff : ℕ → ℕ
  cacheLen : ℕ → ℕ
  cachePartners : List ℕ
  prefetchKeep : ℕ → ℕ
  prefetchPartners : ℕ → List ℕ
  heap : List (Frac × ℕ)

def initACState (ctx : Ctx) : ACState :=
  { aR := ActiveIndex2D.init ctx.ds.R.boxes.length ctx.m
    aS := ActiveIndex2D.init ctx.ds.S.boxes.length ctx.m
    wa := fun _ => 0
    wb := fun _ => 0
    wt := fun _ => 0
    W := 0
    wSofar := 0
    memFull := 0
    cached := fun _ => false
    cacheOff := fun _ => 0
    cacheLen := fun _ => 0
    cachePartners := []
    prefetchKeep := fun _ => 0
    prefetchPartners := fun _ => []
    heap := [] }

/-- One event of `OursAdaptiveBaseline::Count`: identical weight computation
to Framework II, but with the u64 overflow check (`JoinTooLarge`-style error),
the optional full cache for small events, and the prefetch slot heap. -/
def aCountStep (score : ScoreFn) (ctx : Ctx) (E budget wSmall : ℕ)
    (enablePrefetch : Bool) (basePrefetchSeed t : ℕ)
    (acc : Except String ACState) (evs : Event × Option ℕ) : Except String ACState :=
  match acc with
  | .error e => .error e
  | .ok st =>
    let (ev, sid?) := evs
    match ev.kind with
    | .End =>
      match ev.side with
      | .R => .ok { st with aR := st.aR.erase ev.index }
      | .S => .ok { st with aS := st.aS.erase ev.index }
    | .Start =>
      let sid := sid?.getD 0
      if E ≤ sid then .error "OursAdaptiveBaseline::Count: sid out of range"
      else
        let i := sid + 1
        let qIsR := ev.side = Side.R
        let qYlo := if qIsR then ctx.yloR.getD ev.index 0 else ctx.yloS.getD ev.index 0
        let qYhi := if qIsR then ctx.yhiR.getD ev.index 0 else ctx.yhiS.getD ev.index 0
        let other := if qIsR then st.aS else st.aR
        let wa := other.countA qYlo
        let wb := other.countB qYlo qYhi
        let w := wa + wb
        if w > 0 ∧ (U64MOD - 1) - w < st.W then
          .error "OursAdaptiveBaseline::Count: |J| overflowed u64"
        else
          let st :=
            { st with
              wa := Function.update st.wa sid wa
              wb := Function.update st.wb sid wb
              wt := Function.update st.wt sid w
              W := st.W + w
              wSofar := st.wSofar + w }
          let canFullCache :=
            wSmall > 0 ∧ w > 0 ∧ w ≤ wSmall ∧ st.memFull + w ≤ budget
          let st :=
            if canFullCache then
              let rep := other.reportA qYlo ++ other.reportB qYlo qYhi
              let off := st.cachePartners.length
              let st :=
                { st with
                  cached := Function.update st.cached sid true
                  cacheOff := Function.update st.cacheOff sid off
                  cacheLen := Function.update st.cacheLen sid rep.length
                  cachePartners := st.cachePartners ++ rep
                  memFull := st.memFull + w }
              let BSamp := budget - st.memFull
              let (heap', keep', parts') :=
                heapShrink BSamp (st.heap.length + 1) st.heap st.prefetchKeep
                  st.prefetchPartners
              { st with heap := heap', prefetchKeep := keep', prefetchPartners := parts' }
            else st
          let cacheLenMismatch :=
            canFullCache ∧ st.cacheLen sid ≠ w
          if cacheLenMismatch then
            .error "OursAdaptiveBaseline::Count: cache REPORT size mismatch (bug)"
          else
            let doPrefetch := ¬canFullCache ∧ enablePrefetch ∧ w > 0
            let res : Except String ACState :=
              if doPrefetch then
                let BSamp := budget - st.memFull
                if BSamp > 0 then
                  let (heap', keep', parts') :=
                    prefetchPushLoop score w E i st.wSofar t sid BSamp
                      (BSamp + t + 1) st.heap st.prefetchKeep st.prefetchPartners
                  let st := { st with heap := heap', prefetchKeep := keep',
                                      prefetchPartners := parts' }
                  let sKeep := st.prefetchKeep sid
                  if sKeep > 0 then
                    let evSeed := DeriveSeed3 basePrefetchSeed 0xA11C3E sid
                    let rngPat := Rng.ofSeed (DeriveSeed evSeed 1)
                    let rngSamp := Rng.ofSeed (DeriveSeed evSeed 2)
                    let (pats, _) := genPats wa wb w sKeep rngPat []
                    let kA := (pats.filter (fun p => !p)).length
                    let kB := (pats.filter (fun p => p)).length
                    let resA : Except String (List ℕ × Rng) :=
                      if kA > 0 then
                        match other.sampleA qYlo kA rngSamp with
                        | (none, _) => .error "OursAdaptiveBaseline::Count: prefetch SampleA failed"
                        | (some xs, g') =>
                          if xs.length ≠ kA then
                            .error "OursAdaptiveBaseline::Count: prefetch SampleA failed"
                          else .ok (xs, g')
                      else .ok ([], rngSamp)
                    match resA with
                    | .error e => .error e
                    | .ok (sampA, gA) =>
                      let resB : Except String (List ℕ) :=
                        if kB > 0 then
                          match other.sampleB qYlo qYhi kB gA with
                          | (none, _) => .error "OursAdaptiveBaseline::Count: prefetch SampleB failed"
                          | (some xs, _) =>
                            if xs.length ≠ kB then
                              .error "OursAdaptiveBaseline::Count: prefetch SampleB failed"
                            else .ok xs
                        else .ok []
                      match resB with
                      | .error e => .error e
                      | .ok sampB =>
                        let parts' :=
                          Function.update st.prefetchPartners sid
                            (interleaveGo pats sampA sampB)
                        .ok { st with prefetchPartners := parts' }
                  else .ok st
                else .ok st
              else .ok st
            match res with
            | .error e => .error e
            | .ok st =>
              if qIsR then .ok { st with aR := st.aR.insert ev.index qYlo qYhi }
              else .ok { st with aS := st.aS.insert ev.index qYlo qYhi }

/-- `OursAdaptiveBaseline::Count`.  When prefetch is enabled, one `NextU64` is
drawn from the count rng as the base prefetch seed; the returned rng reflects
that consumption. -/
def adaptiveCount (score : ScoreFn) (ctx : Ctx) (cfg : Config) (rng? : Option Rng) :
    Except String (ACState × Option Rng) :=
  let E := ctx.numStarts
  let budget := cfg.budget
  let wSmall := cfg.wSmall
  let enablePrefetch := rng?.isSome ∧ budget > 0 ∧ cfg.t > 0
  let (basePrefetchSeed, rng?') :=
    if enablePrefetch then
      match rng? with
      | some g => let (x, g') := g.nextU64; (x, some g')
      | none => (0, rng?)
    else (0, rng?)
  let res := (ctx.evs.zip ctx.startIds).foldl
    (aCountStep score ctx E budget wSmall (decide enablePrefetch) basePrefetchSeed cfg.t)
    (.ok (initACState ctx))
  match res with
  | .error e => .error e
  | .ok st => .ok (st, rng?')

/-! ### Adaptive Sample -/

structure SlotAssign where
  sid : ℕ
  slot : ℕ
deriving DecidableEq

def bySidSlot (a b : SlotAssign) : Bool :=
  if a.sid < b.sid then true
  else if b.sid < a.sid then false
  else a.slot < b.slot

/-- Sort relation modelling `std::sort(..., by_sid_slot)` (assignments are
pairwise distinct in `slot`, so the sorted result is unique). -/
def BySidSlotLe (a b : SlotAssign) : Prop := bySidSlot b a = false

instance : DecidableRel BySidSlotLe := fun a b => by
  unfold BySidSlotLe; infer_instance

/-- Assignment draws of the adaptive Sample (`rng_assign` loop). -/
def assignDraws (tbl : AliasTable) : ℕ → ℕ → Rng → List SlotAssign → List SlotAssign × Rng
  | 0, _, g, acc => (acc, g)
  | k + 1, j, g, acc =>
    let (sid, g) := tbl.sample g
    assignDraws tbl k (j + 1) g (acc ++ [⟨sid, j⟩])

/-- The sid → (side, index) map built by `OursAdaptiveBaseline::Build`. -/
def startSideMap (ctx : Ctx) : ℕ → Side :=
  (ctx.evs.zip ctx.startIds).foldl
    (fun f x =>
      match x.2, x.1.kind with
      | some sid, .Start => Function.update f sid x.1.side
      | _, _ => f)
    (fun _ => .R)

def startIndexMap (ctx : Ctx) : ℕ → ℕ :=
  (ctx.evs.zip ctx.startIds).foldl
    (fun f x =>
      match x.2, x.1.kind with
      | some sid, .Start => Function.update f sid x.1.index
      | _, _ => f)
    (fun _ => 0)

/-- Cache-fill loop for one fully cached event (`crng` draws). -/
def cacheFillGo (ds : Dataset) (side : Side) (qId off len : ℕ)
    (cachePartners : List ℕ) (run : List SlotAssign) (g : Rng)
    (pairs : ℕ → ℕ × ℕ) : (ℕ → ℕ × ℕ) × Rng :=
  run.foldl
    (fun (acc : (ℕ → ℕ × ℕ) × Rng) a =>
      let (pick, g) := acc.2.uniformU64 len
      let oh := cachePartners.getD (off + pick) 0
      let pr :=
        match side with
        | .R => (qId, ds.S.GetId oh)
        | .S => (ds.R.GetId oh, qId)
      (Function.update acc.1 a.slot pr, g))
    (pairs, g)

/-- Residual pattern decisions for the tail of one run (`prng` loop). -/
def residPats (wa wb w : ℕ) (sid : ℕ) (tail' : List SlotAssign) (g : Rng) :
    List SlotAssign × List SlotAssign :=
  (tail'.foldl
    (fun (acc : List SlotAssign × List SlotAssign × Rng) a =>
      let (pat, g) :=
        if wa = 0 then (true, acc.2.2)
        else if wb = 0 then (false, acc.2.2)
        else
          let (r, g) := acc.2.2.uniformU64 w
          (!decide (r < wa), g)
      if pat then (acc.1, acc.2.1 ++ [⟨sid, a.slot⟩], g)
      else (acc.1 ++ [⟨sid, a.slot⟩], acc.2.1, g))
    ([], [], g)) |> (fun x => (x.1, x.2.1))

/-- Phase-2 fill of the adaptive Sample: walk the sorted assignments in runs
of equal sid; fully cached events draw from the cache, others consume the
prefetch prefix and record residual slots tagged by pattern. -/
def phase2FillGo (ctx : Ctx) (acs : ACState) (seedCache seedPat : ℕ) :
    ℕ → List SlotAssign → (ℕ → ℕ × ℕ) → List SlotAssign → List SlotAssign →
    Except String ((ℕ → ℕ × ℕ) × List SlotAssign × List SlotAssign)
  | _, [], pairs, asgA, asgB => .ok (pairs, asgA, asgB)
  | 0, _ :: _, pairs, asgA, asgB => .ok (pairs, asgA, asgB)
  | fuel + 1, a :: rest, pairs, asgA, asgB =>
    let sid := a.sid
    let run := a :: rest.takeWhile (fun x => x.sid == sid)
    let rest' := rest.dropWhile (fun x => x.sid == sid)
    let side := startSideMap ctx sid
    let qIdx := startIndexMap ctx sid
    let qId :=
      match side with
      | .R => ctx.ds.R.GetId qIdx
      | .S => ctx.ds.S.GetId qIdx
    if acs.cached sid then
      let len := acs.cacheLen sid
      if len = 0 then .error "OursAdaptiveBaseline::Sample: cached sid has empty cache"
      else
        let crng := Rng.ofSeed (DeriveSeed3 seedCache 0xCA11CE sid)
        let (pairs', _) :=
          cacheFillGo ctx.ds side qId (acs.cacheOff sid) len acs.cachePartners run crng pairs
        phase2FillGo ctx acs seedCache seedPat fuel rest' pairs' asgA asgB
    else
      let pref := acs.prefetchPartners sid
      let s := pref.length
      let k := run.length
      let a' := min s k
      let pairs' :=
        (List.range a').foldl
          (fun pm j =>
            let slot := (run.getD j ⟨0, 0⟩).slot
            let oh := pref.getD j 0
            let pr :=
              match side with
              | .R => (qId, ctx.ds.S.GetId oh)
              | .S => (ctx.ds.R.GetId oh, qId)
            Function.update pm slot pr)
          pairs
      if a' < k then
        let wa := acs.wa sid
        let wb := acs.wb sid
        let w := wa + wb
        if w = 0 then
          .error "OursAdaptiveBaseline::Sample: sampled an event with w_e==0 (unexpected)"
        else
          let prng := Rng.ofSeed (DeriveSeed3 seedPat 0xA7717 sid)
          let (newA, newB) := residPats wa wb w sid (run.drop a') prng
          phase2FillGo ctx acs seedCache seedPat fuel rest' pairs' (asgA ++ newA) (asgB ++ newB)
      else phase2FillGo ctx acs seedCache seedPat fuel rest' pairs' asgA asgB

/-- Each run consumes at least one assignment, so the list length is a
sufficient fuel. -/
def phase2Fill (ctx : Ctx) (acs : ACState) (seedCache seedPat : ℕ)
    (asg : List SlotAssign) (pairs : ℕ → ℕ × ℕ) (asgA asgB : List SlotAssign) :
    Except String ((ℕ → ℕ × ℕ) × List SlotAssign × List SlotAssign) :=
  phase2FillGo ctx acs seedCache seedPat asg.length asg pairs asgA asgB

/-- Residual-plan cursor fill (same scatter technique as `BuildSlotPlan2D`'s
second pass, from the sorted residual assignment lists). -/
def residFill : List SlotAssign → (ℕ → ℕ) → (ℕ → Option ℕ) → ℕ → Option ℕ
  | [], _, sl => sl
  | x :: rest, cur, sl =>
    residFill rest (Function.update cur x.sid (cur x.sid + 1))
      (Function.update sl (cur x.sid) (some x.slot))

/-- One event of the adaptive residual pass 2: like Framework II's pass 2 but
with per-event RNG streams derived from `seed_sweep`. -/
def adaptivePass2Step (ctx : Ctx) (plan : SlotPlan2D) (seedSweep : ℕ)
    (st : Phase3State) : Event × Option ℕ → Phase3State
  | (ev, sid?) =>
    if st.err.isSome then st
    else
      match ev.kind with
      | .End =>
        match ev.side with
        | .R => { st with aR := st.aR.erase ev.index }
        | .S => { st with aS := st.aS.erase ev.index }
      | .Start =>
        let sid := sid?.getD 0
        let qIsR := ev.side = Side.R
        let qYlo := if qIsR then ctx.yloR.getD ev.index 0 else ctx.yloS.getD ev.index 0
        let qYhi := if qIsR then ctx.yhiR.getD ev.index 0 else ctx.yhiS.getD ev.index 0
        let other := if qIsR then st.aS else st.aR
        let evSeed := DeriveSeed3 seedSweep 0x5EED sid
        let rngA := Rng.ofSeed (DeriveSeed evSeed 1)
        let rngB := Rng.ofSeed (DeriveSeed evSeed 2)
        let beginA := plan.offsetA.getD sid 0
        let kA := plan.offsetA.getD (sid + 1) 0 - beginA
        let resA : Except String (ℕ → ℕ × ℕ) :=
          if kA > 0 then
            match other.sampleA qYlo kA rngA with
            | (none, _) => .error "OursAdaptiveBaseline::Sample: residual SampleA failed"
            | (some sampled, _) =>
              if sampled.length ≠ kA then
                .error "OursAdaptiveBaseline::Sample: residual SampleA failed"
              else .ok (writeSlots ctx.ds qIsR ev.index plan.slotsA beginA kA sampled st.pairs)
          else .ok st.pairs
        match resA with
        | .error e => { st with err := some e }
        | .ok pairs1 =>
          let resB : Except String (ℕ → ℕ × ℕ) :=
            if plan.offsetB.getD (sid + 1) 0 - plan.offsetB.getD sid 0 > 0 then
              let beginB := plan.offsetB.getD sid 0
              let kB := plan.offsetB.getD (sid + 1) 0 - beginB
              match other.sampleB qYlo qYhi kB rngB with
              | (none, _) => .error "OursAdaptiveBaseline::Sample: residual SampleB failed"
              | (some sampled, _) =>
                if sampled.length ≠ kB then
                  .error "OursAdaptiveBaseline::Sample: residual SampleB failed"
                else .ok (writeSlots ctx.ds qIsR ev.index plan.slotsB beginB kB sampled pairs1)
            else .ok pairs1
          match resB with
          | .error e => { st with err := some e }
          | .ok pairs2 =>
            if qIsR then { st with aR := st.aR.insert ev.index qYlo qYhi, pairs := pairs2 }
            else { st with aS := st.aS.insert ev.index qYlo qYhi, pairs := pairs2 }

/-- `OursAdaptiveBaseline::Sample` given the pass-1 state (the runner always
runs Count first, so weights and caches are valid). -/
def adaptiveSample (ctx : Ctx) (acs : ACState) (t : ℕ) (g : Rng) :
    Except String SampleSet :=
  if U32MAX < t then
    .error "OursAdaptiveBaseline::Sample: run.t too large (must fit in u32)"
  else if t = 0 then .ok { pairs := [] }
  else if acs.W = 0 then .ok { pairs := [] }
  else
    let E := ctx.numStarts
    let wTotalL := (List.range E).map acs.wt
    match AliasTable.buildFromU64 wTotalL with
    | .error e => .error e
    | .ok tbl =>
      let (seedAssign, g) := g.nextU64
      let (seedCache, g) := g.nextU64
      let (seedPat, g) := g.nextU64
      let (seedSweep, _) := g.nextU64
      let rngAssign := Rng.ofSeed seedAssign
      let (asg0, _) := assignDraws tbl t 0 rngAssign []
      let asg := asg0.insertionSort BySidSlotLe
      match phase2Fill ctx acs seedCache seedPat asg (fun _ => (0, 0)) [] [] with
      | .error e => .error e
      | .ok (pairs, asgA, asgB) =>
        if asgA.isEmpty ∧ asgB.isEmpty then .ok { pairs := (List.range t).map pairs }
        else
          let asgA := asgA.insertionSort BySidSlotLe
          let asgB := asgB.insertionSort BySidSlotLe
          let offsetA := prefixSums (fun e => asgA.countP (fun x => x.sid == e)) E
          let offsetB := prefixSums (fun e => asgB.countP (fun x => x.sid == e)) E
          let slA := residFill asgA (fun e => offsetA.getD e 0) (fun _ => none)
          let slB := residFill asgB (fun e => offsetB.getD e 0) (fun _ => none)
          let plan : SlotPlan2D :=
            { offsetA := offsetA
              offsetB := offsetB
              slotsA := (List.range asgA.length).map (fun p => (slA p).getD 0)
              slotsB := (List.range asgB.length).map (fun p => (slB p).getD 0) }
          let st0 : Phase3State :=
            { aR := ActiveIndex2D.init ctx.ds.R.boxes.length ctx.m
              aS := ActiveIndex2D.init ctx.ds.S.boxes.length ctx.m
              pairs := pairs
              err := none
              g := g }
          let stF := (ctx.evs.zip ctx.startIds).foldl
            (adaptivePass2Step ctx plan seedSweep) st0
          match stF.err with
          | some e => .error e
          | none => .ok { pairs := (List.range t).map stF.pairs }

/-- `RunAdaptiveOnce` for the Ours Adaptive baseline: same protocol and seed
derivation as the sampling runner, with Count receiving the count rng. -/
def runAdaptiveOnce (score : ScoreFn) (ds : Dataset) (cfg : Config) (seed : ℕ) :
    Except String RunOut :=
  let rngCount := Rng.ofSeed (DeriveSeed seed 1)
  let rngSample := Rng.ofSeed (DeriveSeed seed 2)
  match buildCtx ds with
  | .error e => .error e
  | .ok ctx =>
    match adaptiveCount score ctx cfg (some rngCount) with
    | .error e => .error e
    | .ok (acs, _) =>
      match adaptiveSample ctx acs cfg.t rngSample with
      | .error e => .error e
      | .ok ss => .ok { count := MakeExactCount acs.W, samples := ss }

/-! ## Proof layer: segment-tree index arithmetic

`coverL l r` is the multiset of nodes visited by the canonical-cover loops
(`while (l < r) ...` in `Insert`/`Erase`/`CountRange`/`DecomposeOrdered`);
`pathL x` is the leaf-to-root path (`while (idx > 0) idx >>= 1`).  The central
fact is `cover_path_count`: for `1 ≤ l ≤ r ≤ 2l` and `r ≤ 2x`, exactly one
cover node of `[l, r)` lies on the path of `x` iff `x` is in the leaf range,
and none otherwise. -/

def coverL (l r : ℕ) : List ℕ :=
  if _h : l < r then
    (if l % 2 = 1 then [l] else []) ++ (if r % 2 = 1 then [r - 1] else []) ++
      coverL ((l + 1) / 2) (r / 2)
  else []
termination_by r
decreasing_by omega

def pathL (x : ℕ) : List ℕ :=
  if _h : x = 0 then [] else x :: pathL (x / 2)
termination_by x
decreasing_by omega

lemma pathL_zero : pathL 0 = [] := by simp [pathL]

lemma pathL_pos (x : ℕ) (h : x ≠ 0) : pathL x = x :: pathL (x / 2) := by
  conv_lhs => rw [pathL]
  simp [h]

lemma div_pow_add (x j m : ℕ) : x / 2 ^ j / 2 ^ m = x / 2 ^ (j + m) := by
  rw [Nat.div_div_eq_div_mul, pow_add]

lemma div_pow_expand (x j k : ℕ) (h : j ≤ k) : x / 2 ^ k = x / 2 ^ j / 2 ^ (k - j) := by
  rw [div_pow_add, Nat.add_sub_cancel' h]

lemma div_pow_mono (x j k : ℕ) (h : j ≤ k) : x / 2 ^ k ≤ x / 2 ^ j := by
  rw [div_pow_expand x j k h]; exact Nat.div_le_self _ _

lemma div_two_eq_div_pow (x : ℕ) : x / 2 = x / 2 ^ 1 := by norm_num

lemma pathL_mem (x n : ℕ) : n ∈ pathL x ↔ 0 < n ∧ ∃ k, x / 2 ^ k = n := by
  induction x using Nat.strong_induction_on with
  | _ x ih =>
    by_cases hx : x = 0
    · subst hx
      simp only [pathL_zero, List.not_mem_nil, false_iff, not_and]
      intro hn
      rintro ⟨k, hk⟩
      rw [Nat.zero_div] at hk
      omega
    · rw [pathL_pos x hx, List.mem_cons, ih (x / 2) (by omega)]
      constructor
      · rintro (rfl | ⟨hn, k, hk⟩)
        · exact ⟨by omega, 0, by simp⟩
        · refine ⟨hn, k + 1, ?_⟩
          rw [← hk, div_two_eq_div_pow, div_pow_add]
          have h2 : 1 + k = k + 1 := by omega
          rw [h2]
      · rintro ⟨hn, k, hk⟩
        rcases Nat.eq_zero_or_pos k with rfl | hkpos
        · left; simpa using hk.symm
        · right
          refine ⟨hn, ⟨k - 1, ?_⟩⟩
          rw [div_two_eq_div_pow, div_pow_add]
          have h2 : 1 + (k - 1) = k := by omega
          rw [h2, hk]

/-- Leaf-range membership of `x` for the node interval `[l, r)`, in quotient
form: some iterated halving of `x` lands in `[l, r)`. -/
def InSeg (l r x : ℕ) : Prop := ∃ k, l ≤ x / 2 ^ k ∧ x / 2 ^ k < r

lemma inSeg_zero_right (l x : ℕ) : ¬ InSeg l 0 x := by
  rintro ⟨k, _, h⟩; omega

lemma pathL_mem_inSeg (x n : ℕ) (hn : 0 < n) :
    n ∈ pathL x ↔ InSeg n (n + 1) x := by
  rw [pathL_mem]
  constructor
  · rintro ⟨-, k, hk⟩; exact ⟨k, by omega, by omega⟩
  · rintro ⟨k, h1, h2⟩; exact ⟨hn, k, by omega⟩

lemma div_pow_succ (x k : ℕ) : x / 2 ^ (k + 1) = x / 2 ^ k / 2 := by
  rw [div_two_eq_div_pow (x / 2 ^ k), div_pow_add]

/-- Coverage step: membership in the leaf range of `[l, r)` splits into the
two possibly-emitted end nodes and the parent range. -/
lemma inSeg_split (l r x : ℕ) (hl : 1 ≤ l) (hlt : l < r) (hr2l : r ≤ 2 * l)
    (hrx : r ≤ 2 * x) :
    InSeg l r x ↔
      (l % 2 = 1 ∧ InSeg l (l + 1) x) ∨ (r % 2 = 1 ∧ InSeg (r - 1) r x) ∨
        InSeg ((l + 1) / 2) (r / 2) x := by
  constructor
  · rintro ⟨k, h1, h2⟩
    by_cases hA : x / 2 ^ k = l ∧ l % 2 = 1
    · exact Or.inl ⟨hA.2, ⟨k, by omega, by omega⟩⟩
    · by_cases hB : x / 2 ^ k = r - 1 ∧ r % 2 = 1
      · exact Or.inr (Or.inl ⟨hB.2, ⟨k, by omega, by omega⟩⟩)
      · refine Or.inr (Or.inr ⟨k + 1, ?_, ?_⟩) <;> rw [div_pow_succ] <;> omega
  · rintro (⟨hodd, k, h1, h2⟩ | ⟨hodd, k, h1, h2⟩ | ⟨k, h1, h2⟩)
    · exact ⟨k, by omega, by omega⟩
    · exact ⟨k, by omega, by omega⟩
    · match k with
      | 0 => simp only [pow_zero, Nat.div_one] at h1 h2; omega
      | km + 1 =>
        rw [div_pow_succ] at h1 h2
        exact ⟨km, by omega, by omega⟩

/-- Exclusivity: the emitted left end node and the emitted right end node
never both lie on the path of `x`. -/
lemma inSeg_excl12 (l r x : ℕ) (hlodd : l % 2 = 1) (hrodd : r % 2 = 1)
    (hlt : l < r) (hr2l : r ≤ 2 * l) :
    InSeg l (l + 1) x → InSeg (r - 1) r x → False := by
  rintro ⟨j, hj1, hj2⟩ ⟨i, hi1, hi2⟩
  have hj : x / 2 ^ j = l := by omega
  have hi : x / 2 ^ i = r - 1 := by omega
  have hij : i < j := by
    by_contra hc
    have := div_pow_mono x j i (by omega)
    omega
  have hexp := div_pow_expand x i j (by omega)
  have hmono := div_pow_mono (x / 2 ^ i) 1 (j - i) (by omega)
  rw [← hexp] at hmono
  rw [hi] at hmono
  rw [hj] at hmono
  simp only [pow_one] at hmono
  omega

/-- Exclusivity: the emitted left end node and the parent range are
incompatible. -/
lemma inSeg_excl13 (l r x : ℕ) (hlodd : l % 2 = 1) (hl : 1 ≤ l) (hlt : l < r)
    (hr2l : r ≤ 2 * l) (hrx : r ≤ 2 * x) :
    InSeg l (l + 1) x → InSeg ((l + 1) / 2) (r / 2) x → False := by
  rintro ⟨j, hj1, hj2⟩ ⟨k, hk1, hk2⟩
  have hj : x / 2 ^ j = l := by omega
  match k with
  | 0 =>
    simp only [pow_zero, Nat.div_one] at hk1 hk2
    omega
  | km + 1 =>
    rw [div_pow_succ] at hk1 hk2
    -- x / 2 ^ km ∈ [l + 1, 2l - 1]
    have hkm1 : l + 1 ≤ x / 2 ^ km := by omega
    have hkm2 : x / 2 ^ km ≤ 2 * l - 1 := by omega
    have hkmj : km < j := by
      by_contra hc
      have := div_pow_mono x j km (by omega)
      omega
    have hexp := div_pow_expand x km j (by omega)
    have hmono := div_pow_mono (x / 2 ^ km) 1 (j - km) (by omega)
    rw [← hexp] at hmono
    rw [hj] at hmono
    simp only [pow_one] at hmono
    omega

/-- Exclusivity: the emitted right end node and the parent range are
incompatible. -/
lemma inSeg_excl23 (l r x : ℕ) (hrodd : r % 2 = 1) (hl : 1 ≤ l) (hlt : l < r)
    (hr2l : r ≤ 2 * l) (hrx : r ≤ 2 * x) :
    InSeg (r - 1) r x → InSeg ((l + 1) / 2) (r / 2) x → False := by
  rintro ⟨j, hj1, hj2⟩ ⟨k, hk1, hk2⟩
  have hj : x / 2 ^ j = r - 1 := by omega
  match k with
  | 0 =>
    simp only [pow_zero, Nat.div_one] at hk1 hk2
    omega
  | km + 1 =>
    rw [div_pow_succ] at hk1 hk2
    have hkm2 : x / 2 ^ km ≤ r - 2 := by omega
    have hkm1 : l ≤ x / 2 ^ km := by omega
    have hjkm : j < km := by
      by_contra hc
      have := div_pow_mono x km j (by omega)
      omega
    have hexp := div_pow_expand x j km (by omega)
    have hmono := div_pow_mono (x / 2 ^ j) 1 (km - j) (by omega)
    rw [← hexp] at hmono
    rw [hj] at hmono
    simp only [pow_one] at hmono
    omega

open Classical in
/-- Central counting fact: under the level hypotheses `1 ≤ l ≤ r ≤ 2l` and
`r ≤ 2x`, the number of canonical-cover nodes of `[l, r)` lying on the
root-path of `x` (with multiplicity) is exactly the indicator of `x` being in
the leaf range of `[l, r)`. -/
lemma cover_path_countP (x : ℕ) : ∀ r l, 1 ≤ l → l ≤ r → r ≤ 2 * l → r ≤ 2 * x →
    (coverL l r).countP (fun n => decide (n ∈ pathL x)) =
      if InSeg l r x then 1 else 0 := by
  intro r
  induction r using Nat.strong_induction_on with
  | _ r ih =>
    intro l hl hle hr2l hrx
    by_cases hlt : l < r
    · rw [coverL, dif_pos hlt]
      rw [List.countP_append, List.countP_append]
      have hrec := ih (r / 2) (by omega) ((l + 1) / 2) (by omega) (by omega)
        (by omega) (by omega)
      rw [hrec]
      have hA : (if l % 2 = 1 then [l] else []).countP
          (fun n => decide (n ∈ pathL x)) =
          if l % 2 = 1 ∧ InSeg l (l + 1) x then 1 else 0 := by
        by_cases ho : l % 2 = 1
        · rw [if_pos ho]
          have hiff : l ∈ pathL x ↔ l % 2 = 1 ∧ InSeg l (l + 1) x := by
            rw [pathL_mem_inSeg x l (by omega)]
            simp [ho]
          by_cases hm : l ∈ pathL x
          · rw [if_pos (hiff.1 hm)]
            simp [List.countP_cons, hm]
          · rw [if_neg (fun hc => hm (hiff.2 hc))]
            simp [List.countP_cons, hm]
        · rw [if_neg ho]
          simp [ho]
      have hB : (if r % 2 = 1 then [r - 1] else []).countP
          (fun n => decide (n ∈ pathL x)) =
          if r % 2 = 1 ∧ InSeg (r - 1) r x then 1 else 0 := by
        by_cases ho : r % 2 = 1
        · rw [if_pos ho]
          have hiff : r - 1 ∈ pathL x ↔ r % 2 = 1 ∧ InSeg (r - 1) r x := by
            rw [pathL_mem_inSeg x (r - 1) (by omega)]
            have hr1 : r - 1 + 1 = r := by omega
            rw [hr1]
            simp [ho]
          by_cases hm : r - 1 ∈ pathL x
          · rw [if_pos (hiff.1 hm)]
            simp [List.countP_cons, hm]
          · rw [if_neg (fun hc => hm (hiff.2 hc))]
            simp [List.countP_cons, hm]
        · rw [if_neg ho]
          simp [ho]
      rw [hA, hB]
      rw [inSeg_split l r x hl hlt hr2l hrx]
      by_cases c1 : l % 2 = 1 ∧ InSeg l (l + 1) x
      · have nc2 : ¬ (r % 2 = 1 ∧ InSeg (r - 1) r x) := by
          rintro ⟨ho, hseg⟩
          exact inSeg_excl12 l r x c1.1 ho hlt hr2l c1.2 hseg
        have nc3 : ¬ InSeg ((l + 1) / 2) (r / 2) x := fun hseg =>
          inSeg_excl13 l r x c1.1 hl hlt hr2l hrx c1.2 hseg
        simp [c1, nc2, nc3]
      · by_cases c2 : r % 2 = 1 ∧ InSeg (r - 1) r x
        · have nc3 : ¬ InSeg ((l + 1) / 2) (r / 2) x := fun hseg =>
            inSeg_excl23 l r x c2.1 hl hlt hr2l hrx c2.2 hseg
          simp [c1, c2, nc3]
        · by_cases c3 : InSeg ((l + 1) / 2) (r / 2) x
          · simp [c1, c2, c3]
          · simp [c1, c2, c3]
    · have hlr : l = r := by omega
      subst hlr
      rw [coverL, dif_neg (by omega)]
      rw [if_neg]
      · simp
      · rintro ⟨k, h1, h2⟩; omega

/-- Top-level reading of `InSeg`: for same-level `l = L + p`, `r = R + p` and
a leaf `x = q + p` with `q < p` and `R ≤ p`, leaf-range membership is exactly
`L ≤ q < R`. -/
lemma inSeg_top (p L R q : ℕ) (hq : q < p) (hR : R ≤ p) :
    InSeg (L + p) (R + p) (q + p) ↔ L ≤ q ∧ q < R := by
  constructor
  · rintro ⟨k, h1, h2⟩
    match k with
    | 0 =>
      simp only [pow_zero, Nat.div_one] at h1 h2
      omega
    | km + 1 =>
      have hmono := div_pow_mono (q + p) 1 (km + 1) (by omega)
      simp only [pow_one] at hmono
      omega
  · rintro ⟨h1, h2⟩
    exact ⟨0, by simp; omega, by simp; omega⟩

lemma sum_map_add' (B : List ℕ) (f g : ℕ → ℕ) :
    (B.map (fun x => f x + g x)).sum = (B.map f).sum + (B.map g).sum := by
  induction B with
  | nil => simp
  | cons b B ih => simp only [List.map_cons, List.sum_cons, ih]; omega

lemma sum_indicator_eq_count (a : ℕ) (B : List ℕ) :
    (B.map (fun m => if m = a then 1 else 0)).sum = B.count a := by
  induction B with
  | nil => simp
  | cons b B ih =>
    rw [List.map_cons, List.sum_cons, ih, List.count_cons]
    by_cases hb : b = a
    · subst hb; simp; omega
    · have : ¬ (a == b) = true := by simp [beq_iff_eq]; omega
      simp [hb, this]

/-- Counting pairs of equal elements two ways. -/
lemma list_count_exchange (A B : List ℕ) :
    (A.map (fun n => B.count n)).sum = (B.map (fun m => A.count m)).sum := by
  induction A with
  | nil => simp
  | cons a A ihA =>
    rw [List.map_cons, List.sum_cons, ihA]
    have h1 : ∀ m, (a :: A).count m = (if m = a then 1 else 0) + A.count m := by
      intro m
      rw [List.count_cons]
      by_cases hm : m = a
      · simp [hm]; omega
      · have : ¬ (a = m) := fun h => hm h.symm
        simp [hm, this]
    calc B.count a + (B.map fun m => A.count m).sum
        = (B.map (fun m => if m = a then 1 else 0)).sum +
            (B.map fun m => A.count m).sum := by rw [sum_indicator_eq_count]
      _ = (B.map (fun m => (if m = a then 1 else 0) + A.count m)).sum := by
          rw [sum_map_add']
      _ = (B.map (fun m => (a :: A).count m)).sum := by simp only [h1]

lemma countP_disjoint {α : Type} (c : List α) (p q : α → Bool)
    (h : ∀ x ∈ c, ¬(p x = true ∧ q x = true)) :
    c.countP (fun x => p x || q x) = c.countP p + c.countP q := by
  induction c with
  | nil => simp
  | cons x c ih =>
    simp only [List.countP_cons]
    have hx := h x (by simp)
    have hrest : ∀ y ∈ c, ¬(p y = true ∧ q y = true) := fun y hy => h y (by simp [hy])
    rw [ih hrest]
    by_cases hp : p x = true <;> by_cases hq : q x = true <;>
      simp [hp, hq] at hx ⊢ <;> omega

/-- Summing member counts of a duplicate-free list is counting membership. -/
lemma sum_count_nodup (P c : List ℕ) (h : P.Nodup) :
    (P.map (fun n => c.count n)).sum = c.countP (fun n => decide (n ∈ P)) := by
  induction P with
  | nil => simp [List.countP_eq_zero]
  | cons p P ih =>
    obtain ⟨hp, hnd⟩ := List.nodup_cons.1 h
    rw [List.map_cons, List.sum_cons, ih hnd]
    have heq : c.countP (fun n => decide (n ∈ p :: P)) =
        c.countP (fun n => (n == p) || decide (n ∈ P)) := by
      apply List.countP_congr
      intro n _
      by_cases h1 : n = p <;> simp [h1]
    rw [heq, countP_disjoint]
    · rw [← List.count_eq_countP]
    · intro x _
      rintro ⟨hx1, hx2⟩
      simp only [beq_iff_eq] at hx1
      subst hx1
      exact hp (by simpa using hx2)

lemma pathL_le (x n : ℕ) (h : n ∈ pathL x) : n ≤ x := by
  rw [pathL_mem] at h
  obtain ⟨-, k, hk⟩ := h
  calc n = x / 2 ^ k := hk.symm
  _ ≤ x := Nat.div_le_self _ _

lemma pathL_nodup (x : ℕ) : (pathL x).Nodup := by
  induction x using Nat.strong_induction_on with
  | _ x ih =>
    by_cases hx : x = 0
    · simp [hx, pathL_zero]
    · rw [pathL_pos x hx]
      refine List.nodup_cons.2 ⟨fun hmem => ?_, ih (x / 2) (by omega)⟩
      have := pathL_le (x / 2) x hmem
      omega

lemma pathL_length_succ (x : ℕ) (h : x ≠ 0) :
    (pathL x).length = (pathL (x / 2)).length + 1 := by
  rw [pathL_pos x h]
  simp

/-! ### Stabbing tree: loop effects and the size invariant -/

lemma addToNode_fields (st : StabTree) (h node : ℕ) :
    (st.addToNode h node).m = st.m ∧ (st.addToNode h node).p = st.p ∧
    (st.addToNode h node).loRank = st.loRank ∧
    (st.addToNode h node).hiRank = st.hiRank := by
  simp [StabTree.addToNode]

lemma addToNode_nodes_len (st : StabTree) (h node n : ℕ) :
    ((st.addToNode h node).nodes n).length =
      (st.nodes n).length + (if n = node then 1 else 0) := by
  simp only [StabTree.addToNode, Function.update_apply]
  by_cases hn : n = node <;> simp [hn]

lemma addToNode_placement (st : StabTree) (h node h' : ℕ) :
    (st.addToNode h node).placementSize h' =
      st.placementSize h' + (if h' = h then 1 else 0) := by
  simp only [StabTree.addToNode, Function.update_apply]
  by_cases hh : h' = h <;> simp [hh]

lemma stab_insertLoopGo_effects (handle : ℕ) :
    ∀ fuel st l r, r ≤ fuel →
      (∀ n, ((StabTree.insertLoopGo handle fuel st l r).nodes n).length =
        (st.nodes n).length + (coverL l r).count n) ∧
      (∀ h', (StabTree.insertLoopGo handle fuel st l r).placementSize h' =
        st.placementSize h' + (if h' = handle then (coverL l r).length else 0)) ∧
      (StabTree.insertLoopGo handle fuel st l r).m = st.m ∧
      (StabTree.insertLoopGo handle fuel st l r).p = st.p ∧
      (StabTree.insertLoopGo handle fuel st l r).loRank = st.loRank ∧
      (StabTree.insertLoopGo handle fuel st l r).hiRank = st.hiRank := by
  intro fuel
  induction fuel with
  | zero =>
    intro st l r hr
    have : ¬ l < r := by omega
    rw [coverL, dif_neg this]
    simp [StabTree.insertLoopGo]
  | succ fuel ih =>
    intro st l r hr
    by_cases hlt : l < r
    · rw [coverL, dif_pos hlt]
      simp only [StabTree.insertLoopGo, if_pos hlt]
      set st1 := if l % 2 = 1 then st.addToNode handle l else st with hst1
      set st2 := if r % 2 = 1 then st1.addToNode handle (r - 1) else st1 with hst2
      have hl2 : (if l % 2 = 1 then l + 1 else l) / 2 = (l + 1) / 2 := by split <;> omega
      have hr2 : (if r % 2 = 1 then r - 1 else r) / 2 = r / 2 := by split <;> omega
      have hrec := ih st2 ((if l % 2 = 1 then l + 1 else l) / 2)
        ((if r % 2 = 1 then r - 1 else r) / 2) (by split <;> omega)
      obtain ⟨hN, hP, hM, hPp, hLo, hHi⟩ := hrec
      have hst1N : ∀ n, (st1.nodes n).length =
          (st.nodes n).length + (if l % 2 = 1 then [l] else []).count n := by
        intro n
        rw [hst1]
        by_cases ho : l % 2 = 1
        · simp only [ho, if_true]
          rw [addToNode_nodes_len]
          by_cases hn : n = l <;> simp [hn, List.count_cons]
        · simp [ho]
      have hst2N : ∀ n, (st2.nodes n).length =
          (st1.nodes n).length + (if r % 2 = 1 then [r - 1] else []).count n := by
        intro n
        rw [hst2]
        by_cases ho : r % 2 = 1
        · simp only [ho, if_true]
          rw [addToNode_nodes_len]
          by_cases hn : n = r - 1 <;> simp [hn, List.count_cons]
        · simp [ho]
      have hst1P : ∀ h', st1.placementSize h' =
          st.placementSize h' + (if h' = handle then (if l % 2 = 1 then [l] else []).length else 0) := by
        intro h'
        rw [hst1]
        by_cases ho : l % 2 = 1
        · simp only [ho, if_true]
          rw [addToNode_placement]
          by_cases hh : h' = handle <;> simp [hh]
        · simp [ho]
      have hst2P : ∀ h', st2.placementSize h' =
          st1.placementSize h' + (if h' = handle then (if r % 2 = 1 then [r - 1] else []).length else 0) := by
        intro h'
        rw [hst2]
        by_cases ho : r % 2 = 1
        · simp only [ho, if_true]
          rw [addToNode_placement]
          by_cases hh : h' = handle <;> simp [hh]
        · simp [ho]
      have hfields1 : st1.m = st.m ∧ st1.p = st.p ∧ st1.loRank = st.loRank ∧
          st1.hiRank = st.hiRank := by
        rw [hst1]; split <;> simp [StabTree.addToNode]
      have hfields2 : st2.m = st1.m ∧ st2.p = st1.p ∧ st2.loRank = st1.loRank ∧
          st2.hiRank = st1.hiRank := by
        rw [hst2]; split <;> simp [StabTree.addToNode]
      refine ⟨?_, ?_, ?_, ?_, ?_, ?_⟩
      · intro n
        rw [hN n, hst2N n, hst1N n, hl2, hr2]
        simp only [List.count_append]
        omega
      · intro h'
        rw [hP h', hst2P h', hst1P h', hl2, hr2]
        simp only [List.length_append]
        by_cases hh : h' = handle <;> simp [hh] <;> omega
      · rw [hM, hfields2.1, hfields1.1]
      · rw [hPp, hfields2.2.1, hfields1.2.1]
      · rw [hLo, hfields2.2.2.1, hfields1.2.2.1]
      · rw [hHi, hfields2.2.2.2, hfields1.2.2.2]
    · rw [coverL, dif_neg hlt]
      simp [StabTree.insertLoopGo, hlt]

/-! ### Power-of-two sizing and canonical-cover structure -/

lemma pow2geGo_ge (fuel : ℕ) : ∀ m, m ≤ fuel →
    m ≤ pow2geGo fuel m ∧ 1 ≤ pow2geGo fuel m := by
  induction fuel with
  | zero =>
    intro m h
    have : m = 0 := by omega
    subst this
    simp [pow2geGo]
  | succ fuel ih =>
    intro m h
    simp only [pow2geGo]
    by_cases hm : m ≤ 1
    · simp [hm]
    · simp only [if_neg hm]
      have := ih ((m + 1) / 2) (by omega)
      omega

lemma le_pow2ge (m : ℕ) : m ≤ pow2ge m := (pow2geGo_ge m m le_rfl).1

lemma one_le_pow2ge (m : ℕ) : 1 ≤ pow2ge m := (pow2geGo_ge m m le_rfl).2

lemma coverL_mem_lt (n : ℕ) : ∀ r l, n ∈ coverL l r → n < r := by
  intro r
  induction r using Nat.strong_induction_on with
  | _ r ih =>
    intro l hn
    by_cases hlt : l < r
    · rw [coverL, dif_pos hlt] at hn
      simp only [List.mem_append] at hn
      rcases hn with (h | h) | h
      · by_cases ho : l % 2 = 1 <;> simp [ho] at h; omega
      · by_cases ho : r % 2 = 1 <;> simp [ho] at h; omega
      · have := ih (r / 2) (by omega) ((l + 1) / 2) h
        omega
    · rw [coverL, dif_neg hlt] at hn
      simp at hn

lemma coverL_nodup : ∀ r l, 1 ≤ l → r ≤ 2 * l → (coverL l r).Nodup := by
  intro r
  induction r using Nat.strong_induction_on with
  | _ r ih =>
    intro l hl hr2l
    by_cases hlt : l < r
    · rw [coverL, dif_pos hlt]
      have hrec : (coverL ((l + 1) / 2) (r / 2)).Nodup :=
        ih (r / 2) (by omega) ((l + 1) / 2) (by omega) (by omega)
      have hdeep : ∀ n ∈ coverL ((l + 1) / 2) (r / 2), n < l := by
        intro n hn
        have := coverL_mem_lt n (r / 2) ((l + 1) / 2) hn
        omega
      rw [List.append_assoc, List.nodup_append]
      refine ⟨?_, ?_, ?_⟩
      · by_cases ho : l % 2 = 1 <;> simp [ho]
      · rw [List.nodup_append]
        refine ⟨?_, hrec, ?_⟩
        · by_cases ho : r % 2 = 1 <;> simp [ho]
        · intro a ha hb
          by_cases ho : r % 2 = 1 <;> simp [ho] at ha
          subst ha
          have := hdeep _ hb
          omega
      · intro a ha hb
        by_cases ho : l % 2 = 1 <;> simp [ho] at ha
        subst ha
        simp only [List.mem_append] at hb
        rcases hb with hb | hb
        · by_cases ho2 : r % 2 = 1 <;> simp [ho2] at hb
          omega
        · have := hdeep _ hb
          omega
    · rw [coverL, dif_neg hlt]
      simp

lemma coverL_length_pos : ∀ r l, l < r → 0 < (coverL l r).length := by
  intro r
  induction r using Nat.strong_induction_on with
  | _ r ih =>
    intro l hlt
    rw [coverL, dif_pos hlt]
    by_cases hol : l % 2 = 1
    · simp [hol]
    · by_cases hor : r % 2 = 1
      · simp [hor]
      · simp only [hol, hor, if_neg, List.nil_append, List.length_append]
        have := ih (r / 2) (by omega) ((l + 1) / 2) (by omega)
        omega

lemma count_nodup_indicator (B : List ℕ) (hB : B.Nodup) (n : ℕ) :
    B.count n = if n ∈ B then 1 else 0 := by
  by_cases h : n ∈ B
  · rw [if_pos h, List.count_eq_one_of_mem hB h]
  · rw [if_neg h, List.count_eq_zero_of_not_mem h]

lemma map_count_sum_eq_countP (B : List ℕ) (hB : B.Nodup) (A : List ℕ) :
    (A.map (fun n => B.count n)).sum = A.countP (fun n => decide (n ∈ B)) := by
  induction A with
  | nil => simp
  | cons a A ih =>
    rw [List.map_cons, List.sum_cons, ih, List.countP_cons,
      count_nodup_indicator B hB a]
    by_cases h : a ∈ B <;> simp [h] <;> omega

lemma countP_mem_comm (A B : List ℕ) (hA : A.Nodup) (hB : B.Nodup) :
    A.countP (fun n => decide (n ∈ B)) = B.countP (fun n => decide (n ∈ A)) := by
  rw [← map_count_sum_eq_countP B hB A, ← map_count_sum_eq_countP A hA B,
    list_count_exchange]

lemma sum_map_zero (A : List ℕ) : (A.map (fun _ => (0 : ℕ))).sum = 0 := by
  induction A with
  | nil => simp
  | cons a A ih => simp [ih]

lemma sum_sum_comm (P A : List ℕ) (f : ℕ → ℕ → ℕ) :
    (P.map (fun n => (A.map (fun a => f a n)).sum)).sum =
      (A.map (fun a => (P.map (fun n => f a n)).sum)).sum := by
  induction P with
  | nil => simp [sum_map_zero]
  | cons p P ih =>
    rw [List.map_cons, List.sum_cons, ih, ← sum_map_add']
    congr 1

lemma sum_map_ite_eq_countP (A : List ℕ) (P : ℕ → Prop) [DecidablePred P] :
    (A.map (fun i => if P i then 1 else 0)).sum = A.countP (fun i => decide (P i)) := by
  induction A with
  | nil => simp
  | cons a A ih =>
    rw [List.map_cons, List.sum_cons, ih, List.countP_cons]
    by_cases h : P a <;> simp [h] <;> omega

lemma sublist_sum_le {A B : List ℕ} (h : List.Sublist A B) : A.sum ≤ B.sum := by
  induction h with
  | slnil => simp
  | cons a h ih => simp only [List.sum_cons]; omega
  | cons₂ a h ih => simp only [List.sum_cons]; omega

/-! ### Stabbing-tree operations against the ideal cover/path description -/

lemma stab_countLoopGo_eq (st : StabTree) :
    ∀ fuel idx, idx ≤ fuel → st.countLoopGo fuel idx =
      ((pathL idx).map (fun n => (st.nodes n).length)).sum := by
  intro fuel
  induction fuel with
  | zero =>
    intro idx h
    have : idx = 0 := by omega
    subst this
    simp [StabTree.countLoopGo, pathL_zero]
  | succ fuel ih =>
    intro idx h
    by_cases h0 : idx = 0
    · subst h0
      simp [StabTree.countLoopGo, pathL_zero]
    · rw [pathL_pos idx h0]
      simp only [StabTree.countLoopGo, if_neg h0, List.map_cons, List.sum_cons]
      rw [ih (idx / 2) (by omega)]

lemma stab_removeFromNode_fields (st : StabTree) (node pos : ℕ) :
    (st.removeFromNode node pos).m = st.m ∧
    (st.removeFromNode node pos).p = st.p ∧
    (st.removeFromNode node pos).loRank = st.loRank ∧
    (st.removeFromNode node pos).hiRank = st.hiRank ∧
    (st.removeFromNode node pos).placementSize = st.placementSize := by
  unfold StabTree.removeFromNode
  by_cases he : (st.nodes node).isEmpty
  · simp [he]
  · by_cases hp : pos ≠ (st.nodes node).length - 1 <;> simp [he, hp]

lemma stab_removeFromNode_len (st : StabTree) (node pos n : ℕ) :
    ((st.removeFromNode node pos).nodes n).length =
      (st.nodes n).length - (if n = node then 1 else 0) := by
  by_cases hn : n = node
  · subst hn
    by_cases he : (st.nodes n).isEmpty
    · have h0 : (st.nodes n).length = 0 := by
        simpa [List.isEmpty_iff_length_eq_zero] using he
      simp [StabTree.removeFromNode, he, h0]
    · by_cases hp : pos ≠ (st.nodes n).length - 1
      · simp [StabTree.removeFromNode, he, hp, List.length_dropLast, List.length_set]
      · simp [StabTree.removeFromNode, he, hp, List.length_dropLast]
  · by_cases he : (st.nodes node).isEmpty
    · simp [StabTree.removeFromNode, he, hn]
    · by_cases hp : pos ≠ (st.nodes node).length - 1 <;>
        simp [StabTree.removeFromNode, he, hp, Function.update_noteq hn] <;>
        simp [hn]

lemma stab_eraseLoopGo_effects (handle : ℕ) :
    ∀ fuel st l r br, r ≤ fuel →
      (∀ n, (coverL l r).count n ≤ (st.nodes n).length) →
      (∀ n, ((StabTree.eraseLoopGo handle fuel st l r br).nodes n).length =
        (st.nodes n).length - (coverL l r).count n) ∧
      (StabTree.eraseLoopGo handle fuel st l r br).m = st.m ∧
      (StabTree.eraseLoopGo handle fuel st l r br).p = st.p ∧
      (StabTree.eraseLoopGo handle fuel st l r br).loRank = st.loRank ∧
      (StabTree.eraseLoopGo handle fuel st l r br).hiRank = st.hiRank ∧
      (StabTree.eraseLoopGo handle fuel st l r br).placementSize = st.placementSize := by
  intro fuel
  induction fuel with
  | zero =>
    intro st l r br hr hcnt
    have : ¬ l < r := by omega
    rw [coverL, dif_neg this]
    simp [StabTree.eraseLoopGo]
  | succ fuel ih =>
    intro st l r br hr hcnt
    by_cases hlt : l < r
    · have hcover : coverL l r =
          (if l % 2 = 1 then [l] else []) ++ (if r % 2 = 1 then [r - 1] else []) ++
            coverL ((l + 1) / 2) (r / 2) := by
        rw [coverL, dif_pos hlt]
      simp only [StabTree.eraseLoopGo, if_pos hlt]
      set st1 := if l % 2 = 1 then
          st.removeFromNode l (st.posInNode (st.placementIndex handle br))
        else st with hst1
      set br1 := if l % 2 = 1 then br + 1 else br with hbr1
      set st2 := if r % 2 = 1 then
          st1.removeFromNode (r - 1) (st1.posInNode (st1.placementIndex handle br1))
        else st1 with hst2
      have hl2 : (if l % 2 = 1 then l + 1 else l) / 2 = (l + 1) / 2 := by
        split <;> omega
      have hr2 : (if r % 2 = 1 then r - 1 else r) / 2 = r / 2 := by
        split <;> omega
      have hlne : l % 2 = 1 → r % 2 = 1 → l ≠ r - 1 := by omega
      have hst1N : ∀ n, (st1.nodes n).length =
          (st.nodes n).length - (if l % 2 = 1 then [l] else []).count n := by
        intro n
        rw [hst1]
        by_cases ho : l % 2 = 1
        · simp only [ho, if_true]
          rw [stab_removeFromNode_len]
          by_cases hn : n = l <;> simp [hn]
        · simp [ho]
      have hst2N : ∀ n, (st2.nodes n).length =
          (st1.nodes n).length - (if r % 2 = 1 then [r - 1] else []).count n := by
        intro n
        rw [hst2]
        by_cases ho : r % 2 = 1
        · simp only [ho, if_true]
          rw [stab_removeFromNode_len]
          by_cases hn : n = r - 1 <;> simp [hn]
        · simp [ho]
      have hfields1 : st1.m = st.m ∧ st1.p = st.p ∧ st1.loRank = st.loRank ∧
          st1.hiRank = st.hiRank ∧ st1.placementSize = st.placementSize := by
        rw [hst1]
        split
        · exact stab_removeFromNode_fields ..
        · exact ⟨rfl, rfl, rfl, rfl, rfl⟩
      have hfields2 : st2.m = st1.m ∧ st2.p = st1.p ∧ st2.loRank = st1.loRank ∧
          st2.hiRank = st1.hiRank ∧ st2.placementSize = st1.placementSize := by
        rw [hst2]
        split
        · exact stab_removeFromNode_fields ..
        · exact ⟨rfl, rfl, rfl, rfl, rfl⟩
      have hsplit : ∀ n, (coverL l r).count n =
          (if l % 2 = 1 then [l] else []).count n +
          (if r % 2 = 1 then [r - 1] else []).count n +
          (coverL ((l + 1) / 2) (r / 2)).count n := by
        intro n
        rw [hcover]
        simp [List.count_append]
        omega
      have hcnt2 : ∀ n, (coverL ((l + 1) / 2) (r / 2)).count n ≤ (st2.nodes n).length := by
        intro n
        have := hcnt n
        rw [hsplit n] at this
        rw [hst2N n, hst1N n]
        omega
      have hrec := ih st2 ((l + 1) / 2) (r / 2)
        (if r % 2 = 1 then br1 + 1 else br1) (by omega) hcnt2
      obtain ⟨hN, hM, hP, hLo, hHi, hPs⟩ := hrec
      rw [hl2, hr2]
      refine ⟨?_, ?_, ?_, ?_, ?_, ?_⟩
      · intro n
        rw [hN n, hst2N n, hst1N n, hsplit n]
        have := hcnt n
        rw [hsplit n] at this
        omega
      · rw [hM, hfields2.1, hfields1.1]
      · rw [hP, hfields2.2.1, hfields1.2.1]
      · rw [hLo, hfields2.2.2.1, hfields1.2.2.1]
      · rw [hHi, hfields2.2.2.2.1, hfields1.2.2.2.1]
      · rw [hPs, hfields2.2.2.2.2, hfields1.2.2.2.2]
    · rw [coverL, dif_neg hlt]
      simp [StabTree.eraseLoopGo, hlt]

lemma stab_insert_unfold (st : StabTree) (h L R : ℕ) (hm : st.m ≠ 0) (hLR : L < R)
    (hRm : R ≤ st.m) :
    st.insert h L R =
      StabTree.insertLoopGo h (R + st.p)
        { st with loRank := Function.update st.loRank h L,
                  hiRank := Function.update st.hiRank h R }
        (L + st.p) (R + st.p) := by
  have hLm : min L st.m = L := by omega
  have hRm' : min R st.m = R := by omega
  simp [StabTree.insert, StabTree.insertLoop, hm, show ¬ R ≤ L from by omega, hLm, hRm']

lemma stab_insert_effects (st : StabTree) (h L R : ℕ) (hm : st.m ≠ 0) (hLR : L < R)
    (hRm : R ≤ st.m) :
    (∀ n, ((st.insert h L R).nodes n).length =
      (st.nodes n).length + (coverL (L + st.p) (R + st.p)).count n) ∧
    (∀ h', (st.insert h L R).placementSize h' =
      st.placementSize h' + (if h' = h then (coverL (L + st.p) (R + st.p)).length else 0)) ∧
    (st.insert h L R).m = st.m ∧ (st.insert h L R).p = st.p ∧
    (st.insert h L R).loRank = Function.update st.loRank h L ∧
    (st.insert h L R).hiRank = Function.update st.hiRank h R := by
  rw [stab_insert_unfold st h L R hm hLR hRm]
  have he := stab_insertLoopGo_effects h (R + st.p)
    { st with loRank := Function.update st.loRank h L,
              hiRank := Function.update st.hiRank h R }
    (L + st.p) (R + st.p) le_rfl
  obtain ⟨hN, hP, hM, hPp, hLo, hHi⟩ := he
  exact ⟨hN, hP, hM, hPp, hLo, hHi⟩

lemma stab_erase_effects (st : StabTree) (h : ℕ)
    (hsz : st.placementSize h ≠ 0)
    (hcnt : ∀ n, (coverL (st.loRank h + st.p) (st.hiRank h + st.p)).count n ≤
      (st.nodes n).length) :
    (∀ n, ((st.erase h).nodes n).length =
      (st.nodes n).length - (coverL (st.loRank h + st.p) (st.hiRank h + st.p)).count n) ∧
    (st.erase h).m = st.m ∧ (st.erase h).p = st.p ∧
    (st.erase h).placementSize = Function.update st.placementSize h 0 ∧
    (st.erase h).loRank = Function.update st.loRank h kInvalidRank ∧
    (st.erase h).hiRank = Function.update st.hiRank h kInvalidRank := by
  have he := stab_eraseLoopGo_effects h (st.hiRank h + st.p) st
    (st.loRank h + st.p) (st.hiRank h + st.p) 0 le_rfl hcnt
  obtain ⟨hN, hM, hP, hLo, hHi, hPs⟩ := he
  simp only [StabTree.erase, StabTree.eraseLoop, if_neg hsz]
  refine ⟨hN, hM, hP, ?_, ?_, ?_⟩
  · rw [hPs]
  · rw [hLo]
  · rw [hHi]

/-! ### Stabbing-tree multiset invariant -/

/-- Size-level invariant of a stabbing tree holding one interval
`[lo i, hi i)` (shifted by `p`) per active handle `i`. -/
def StInv (m p : ℕ) (lo hi : ℕ → ℕ) (acts : List ℕ) (st : StabTree) : Prop :=
  st.m = m ∧ st.p = p ∧
  (∀ n, (st.nodes n).length =
    (acts.map (fun i => (coverL (lo i + p) (hi i + p)).count n)).sum) ∧
  (∀ i ∈ acts, st.loRank i = lo i ∧ st.hiRank i = hi i ∧
    st.placementSize i = (coverL (lo i + p) (hi i + p)).length) ∧
  (∀ i, i ∉ acts → st.placementSize i = 0)

lemma StInv_init (m nH : ℕ) (lo hi : ℕ → ℕ) :
    StInv m (pow2ge m) lo hi [] (StabTree.init nH m) := by
  refine ⟨rfl, rfl, fun n => by simp [StabTree.init], ?_, fun i _ => rfl⟩
  intro i hmem
  simp at hmem

lemma StInv_insert (m p : ℕ) (lo hi : ℕ → ℕ) (acts : List ℕ) (st : StabTree)
    (inv : StInv m p lo hi acts st) (i : ℕ) (hni : i ∉ acts)
    (hm : 0 < m) (hlh : lo i < hi i) (hhm : hi i ≤ m) :
    StInv m p lo hi (i :: acts) (st.insert i (lo i) (hi i)) := by
  obtain ⟨hM, hP, hN, hAct, hPs⟩ := inv
  have heff := stab_insert_effects st i (lo i) (hi i) (by omega) hlh (by omega)
  obtain ⟨eN, eP, eM, ePp, eLo, eHi⟩ := heff
  rw [hP] at eN eP
  refine ⟨by rw [eM, hM], by rw [ePp, hP], ?_, ?_, ?_⟩
  · intro n
    rw [eN n, hN n]
    simp [List.map_cons, List.sum_cons]
    omega
  · intro j hj
    rcases List.mem_cons.1 hj with rfl | hj'
    · refine ⟨?_, ?_, ?_⟩
      · rw [eLo]; simp
      · rw [eHi]; simp
      · rw [eP j, hPs j hni]
        simp
    · have hne : j ≠ i := fun hc => hni (hc ▸ hj')
      obtain ⟨h1, h2, h3⟩ := hAct j hj'
      refine ⟨?_, ?_, ?_⟩
      · rw [eLo, Function.update_noteq hne, h1]
      · rw [eHi, Function.update_noteq hne, h2]
      · rw [eP j, h3, if_neg hne]
        omega
  · intro j hj
    have hji : j ≠ i := fun hc => hj (hc ▸ List.mem_cons_self i acts)
    have hja : j ∉ acts := fun hc => hj (List.mem_cons_of_mem i hc)
    rw [eP j, hPs j hja, if_neg hji]

lemma StInv_erase (m p : ℕ) (lo hi : ℕ → ℕ) (acts : List ℕ) (st : StabTree)
    (inv : StInv m p lo hi acts st) (i : ℕ) (hmem : i ∈ acts) (hnd : acts.Nodup)
    (hlh : lo i < hi i) :
    StInv m p lo hi (acts.erase i) (st.erase i) := by
  obtain ⟨hM, hP, hN, hAct, hPs⟩ := inv
  obtain ⟨hLoi, hHii, hPsi⟩ := hAct i hmem
  have hperm : acts.Perm (i :: acts.erase i) := List.perm_cons_erase hmem
  have hsum : ∀ n, (acts.map (fun j => (coverL (lo j + p) (hi j + p)).count n)).sum =
      (coverL (lo i + p) (hi i + p)).count n +
      ((acts.erase i).map (fun j => (coverL (lo j + p) (hi j + p)).count n)).sum := by
    intro n
    rw [(hperm.map _).sum_eq]
    simp
  have hsz : st.placementSize i ≠ 0 := by
    rw [hPsi]
    have := coverL_length_pos (hi i + p) (lo i + p) (by omega)
    omega
  have hcnt : ∀ n, (coverL (st.loRank i + st.p) (st.hiRank i + st.p)).count n ≤
      (st.nodes n).length := by
    intro n
    rw [hLoi, hHii, hP, hN n, hsum n]
    omega
  have heff := stab_erase_effects st i hsz hcnt
  obtain ⟨eN, eM, eP, ePs, eLo, eHi⟩ := heff
  rw [hLoi, hHii, hP] at eN
  refine ⟨by rw [eM, hM], by rw [eP, hP], ?_, ?_, ?_⟩
  · intro n
    rw [eN n, hN n, hsum n]
    omega
  · intro j hj
    have hji : j ≠ i := ((List.Nodup.mem_erase_iff hnd).1 hj).1
    have hja : j ∈ acts := ((List.Nodup.mem_erase_iff hnd).1 hj).2
    obtain ⟨h1, h2, h3⟩ := hAct j hja
    refine ⟨?_, ?_, ?_⟩
    · rw [eLo, Function.update_noteq hji, h1]
    · rw [eHi, Function.update_noteq hji, h2]
    · rw [ePs, Function.update_noteq hji, h3]
  · intro j hj
    by_cases hji : j = i
    · subst hji
      rw [ePs, Function.update_same]
    · have hja : j ∉ acts := by
        intro hc
        exact hj ((List.Nodup.mem_erase_iff hnd).2 ⟨hji, hc⟩)
      rw [ePs, Function.update_noteq hji, hPs j hja]

lemma StInv_count (m p : ℕ) (lo hi : ℕ → ℕ) (acts : List ℕ) (st : StabTree)
    (inv : StInv m p lo hi acts st) (q : ℕ) (hq : q < m) (hm : 0 < m) (hmp : m ≤ p)
    (hbounds : ∀ i ∈ acts, lo i < hi i ∧ hi i ≤ m) :
    st.count q = acts.countP (fun i => decide (lo i ≤ q ∧ q < hi i)) := by
  obtain ⟨hM, hP, hN, _, _⟩ := inv
  have hp1 : 1 ≤ p := by omega
  have hcond : ¬ (st.m = 0 || st.m ≤ q) = true := by
    simp [hM]
    omega
  rw [StabTree.count, if_neg hcond, StabTree.countLoop, hP,
    stab_countLoopGo_eq st (q + p) (q + p) le_rfl]
  have hNs : ∀ n, (st.nodes n).length =
      (acts.map (fun i => (coverL (lo i + p) (hi i + p)).count n)).sum := hN
  calc ((pathL (q + p)).map (fun n => (st.nodes n).length)).sum
      = ((pathL (q + p)).map (fun n =>
          (acts.map (fun i => (coverL (lo i + p) (hi i + p)).count n)).sum)).sum := by
        congr 1
        exact List.map_congr_left (fun n _ => hNs n)
    _ = (acts.map (fun i =>
          ((pathL (q + p)).map (fun n => (coverL (lo i + p) (hi i + p)).count n)).sum)).sum := by
        exact sum_sum_comm (pathL (q + p)) acts
          (fun i n => (coverL (lo i + p) (hi i + p)).count n)
    _ = (acts.map (fun i => if lo i ≤ q ∧ q < hi i then 1 else 0)).sum := by
        congr 1
        apply List.map_congr_left
        intro i hi'
        obtain ⟨hb1, hb2⟩ := hbounds i hi'
        rw [sum_count_nodup (pathL (q + p)) (coverL (lo i + p) (hi i + p))
          (pathL_nodup (q + p))]
        rw [cover_path_countP (q + p) (hi i + p) (lo i + p) (by omega) (by omega)
          (by omega) (by omega)]
        have hiff := inSeg_top p (lo i) (hi i) q (by omega) (by omega)
        simp only [hiff]
    _ = acts.countP (fun i => decide (lo i ≤ q ∧ q < hi i)) := by
        exact sum_map_ite_eq_countP acts (fun i => lo i ≤ q ∧ q < hi i)

/-! ### Range-point tree operations against the ideal path/cover description -/

lemma pts_addToNode_len (st : PtsTree) (h node br n : ℕ) :
    ((st.addToNode h node br).nodes n).length =
      (st.nodes n).length + (if n = node then 1 else 0) := by
  unfold PtsTree.addToNode
  by_cases hn : n = node
  · subst hn
    simp
  · simp [Function.update_noteq hn, hn]

lemma pts_addToNode_fields (st : PtsTree) (h node br : ℕ) :
    (st.addToNode h node br).m = st.m ∧ (st.addToNode h node br).p = st.p ∧
    (st.addToNode h node br).placementSize = st.placementSize ∧
    (st.addToNode h node br).rankOfHandle = st.rankOfHandle := by
  unfold PtsTree.addToNode
  exact ⟨rfl, rfl, rfl, rfl⟩

lemma pts_insertLoopGo_effects (handle : ℕ) :
    ∀ fuel st idx br, idx ≤ fuel →
      (∀ n, (((PtsTree.insertLoopGo handle fuel st idx br).1.nodes n).length =
        (st.nodes n).length + (pathL idx).count n)) ∧
      (PtsTree.insertLoopGo handle fuel st idx br).2 = br + (pathL idx).length ∧
      (PtsTree.insertLoopGo handle fuel st idx br).1.m = st.m ∧
      (PtsTree.insertLoopGo handle fuel st idx br).1.p = st.p ∧
      (PtsTree.insertLoopGo handle fuel st idx br).1.placementSize = st.placementSize ∧
      (PtsTree.insertLoopGo handle fuel st idx br).1.rankOfHandle = st.rankOfHandle := by
  intro fuel
  induction fuel with
  | zero =>
    intro st idx br h
    have : idx = 0 := by omega
    subst this
    simp [PtsTree.insertLoopGo, pathL_zero]
  | succ fuel ih =>
    intro st idx br h
    by_cases h0 : idx = 0
    · subst h0
      simp [PtsTree.insertLoopGo, pathL_zero]
    · rw [pathL_pos idx h0]
      simp only [PtsTree.insertLoopGo, if_neg h0]
      have hrec := ih (st.addToNode handle idx br) (idx / 2) (br + 1) (by omega)
      obtain ⟨hN, hB, hM, hP, hPs, hR⟩ := hrec
      obtain ⟨fM, fP, fPs, fR⟩ := pts_addToNode_fields st handle idx br
      refine ⟨?_, ?_, ?_, ?_, ?_, ?_⟩
      · intro n
        rw [hN n, pts_addToNode_len st handle idx br n, List.count_cons]
        by_cases hn : n = idx <;> simp [hn] <;> omega
      · rw [hB, List.length_cons]
        omega
      · rw [hM, fM]
      · rw [hP, fP]
      · rw [hPs, fPs]
      · rw [hR, fR]

lemma pts_insert_effects (st : PtsTree) (h rank : ℕ) :
    (∀ n, ((st.insert h rank).nodes n).length =
      (st.nodes n).length + (pathL (rank + st.p)).count n) ∧
    (st.insert h rank).m = st.m ∧ (st.insert h rank).p = st.p ∧
    (st.insert h rank).placementSize =
      Function.update st.placementSize h (pathL (rank + st.p)).length ∧
    (st.insert h rank).rankOfHandle = Function.update st.rankOfHandle h rank := by
  have he := pts_insertLoopGo_effects h (rank + st.p)
    { st with rankOfHandle := Function.update st.rankOfHandle h rank }
    (rank + st.p) 0 le_rfl
  obtain ⟨hN, hB, hM, hP, hPs, hR⟩ := he
  simp only [PtsTree.insert, PtsTree.insertLoop]
  refine ⟨?_, ?_, ?_, ?_, ?_⟩
  · intro n
    exact hN n
  · exact hM
  · exact hP
  · rw [hPs, hB]
    simp
  · exact hR

lemma pts_removeFromNode_fields (st : PtsTree) (node pos : ℕ) :
    (st.removeFromNode node pos).m = st.m ∧
    (st.removeFromNode node pos).p = st.p ∧
    (st.removeFromNode node pos).placementSize = st.placementSize ∧
    (st.removeFromNode node pos).rankOfHandle = st.rankOfHandle := by
  unfold PtsTree.removeFromNode
  by_cases he : (st.nodes node).isEmpty
  · simp [he]
  · by_cases hp : pos ≠ (st.nodes node).length - 1 <;> simp [he, hp]

lemma pts_removeFromNode_len (st : PtsTree) (node pos n : ℕ) :
    ((st.removeFromNode node pos).nodes n).length =
      (st.nodes n).length - (if n = node then 1 else 0) := by
  by_cases hn : n = node
  · subst hn
    by_cases he : (st.nodes n).isEmpty
    · have h0 : (st.nodes n).length = 0 := by
        simpa [List.isEmpty_iff_length_eq_zero] using he
      simp [PtsTree.removeFromNode, he, h0]
    · by_cases hp : pos ≠ (st.nodes n).length - 1
      · simp [PtsTree.removeFromNode, he, hp, List.length_dropLast, List.length_set]
      · simp [PtsTree.removeFromNode, he, hp, List.length_dropLast]
  · by_cases he : (st.nodes node).isEmpty
    · simp [PtsTree.removeFromNode, he, hn]
    · by_cases hp : pos ≠ (st.nodes node).length - 1 <;>
        simp [PtsTree.removeFromNode, he, hp, Function.update_noteq hn] <;>
        simp [hn]

lemma pts_eraseGo_effects (handle : ℕ) :
    ∀ rem st idx i, rem = (pathL idx).length →
      (∀ n, (pathL idx).count n ≤ (st.nodes n).length) →
      (∀ n, ((PtsTree.eraseGo st handle idx i rem).nodes n).length =
        (st.nodes n).length - (pathL idx).count n) ∧
      (PtsTree.eraseGo st handle idx i rem).m = st.m ∧
      (PtsTree.eraseGo st handle idx i rem).p = st.p ∧
      (PtsTree.eraseGo st handle idx i rem).placementSize = st.placementSize ∧
      (PtsTree.eraseGo st handle idx i rem).rankOfHandle = st.rankOfHandle := by
  intro rem
  induction rem with
  | zero =>
    intro st idx i hlen hcnt
    have hnil : pathL idx = [] := List.length_eq_zero.1 hlen.symm
    rw [hnil]
    simp [PtsTree.eraseGo]
  | succ rem ih =>
    intro st idx i hlen hcnt
    have h0 : idx ≠ 0 := by
      intro hc
      rw [hc, pathL_zero] at hlen
      simp at hlen
    rw [pathL_pos idx h0] at hlen hcnt ⊢
    simp only [PtsTree.eraseGo]
    set st1 := st.removeFromNode idx (st.posInNode (st.placementIndex handle i)) with hst1
    have f1 := pts_removeFromNode_fields st idx (st.posInNode (st.placementIndex handle i))
    have l1 : ∀ n, (st1.nodes n).length =
        (st.nodes n).length - (if n = idx then 1 else 0) := fun n =>
      pts_removeFromNode_len st idx _ n
    have hcnt1 : ∀ n, (pathL (idx / 2)).count n ≤ (st1.nodes n).length := by
      intro n
      have := hcnt n
      rw [List.count_cons] at this
      rw [l1 n]
      by_cases hn : n = idx <;> simp [hn] at this ⊢ <;> omega
    have hrec := ih st1 (idx / 2) (i + 1) (by simpa using hlen) hcnt1
    obtain ⟨hN, hM, hP, hPs, hR⟩ := hrec
    refine ⟨?_, ?_, ?_, ?_, ?_⟩
    · intro n
      rw [hN n, l1 n, List.count_cons]
      have := hcnt n
      rw [List.count_cons] at this
      by_cases hn : n = idx
      · simp [hn] at this ⊢
        omega
      · have hn' : ¬ idx = n := fun hc => hn hc.symm
        simp [hn, hn'] at this ⊢
    · rw [hM, f1.1]
    · rw [hP, f1.2.1]
    · rw [hPs, f1.2.2.1]
    · rw [hR, f1.2.2.2]

lemma pts_erase_effects (st : PtsTree) (h : ℕ)
    (hsz : st.placementSize h = (pathL (st.rankOfHandle h + st.p)).length)
    (hne : st.placementSize h ≠ 0)
    (hcnt : ∀ n, (pathL (st.rankOfHandle h + st.p)).count n ≤ (st.nodes n).length) :
    (∀ n, ((st.erase h).nodes n).length =
      (st.nodes n).length - (pathL (st.rankOfHandle h + st.p)).count n) ∧
    (st.erase h).m = st.m ∧ (st.erase h).p = st.p ∧
    (st.erase h).placementSize = Function.update st.placementSize h 0 ∧
    (st.erase h).rankOfHandle = Function.update st.rankOfHandle h kInvalidRank := by
  have he := pts_eraseGo_effects h (st.placementSize h) st (st.rankOfHandle h + st.p) 0
    hsz hcnt
  obtain ⟨hN, hM, hP, hPs, hR⟩ := he
  simp only [PtsTree.erase, if_neg hne]
  refine ⟨hN, hM, hP, ?_, ?_⟩
  · rw [hPs]
  · rw [hR]

lemma pts_countLoopGo_eq (st : PtsTree) :
    ∀ fuel l r, r ≤ fuel → st.countLoopGo fuel l r =
      ((coverL l r).map (fun n => (st.nodes n).length)).sum := by
  intro fuel
  induction fuel with
  | zero =>
    intro l r h
    have : ¬ l < r := by omega
    rw [coverL, dif_neg this]
    simp [PtsTree.countLoopGo]
  | succ fuel ih =>
    intro l r h
    by_cases hlt : l < r
    · rw [coverL, dif_pos hlt]
      simp only [PtsTree.countLoopGo, if_pos hlt]
      rw [ih ((l + 1) / 2) (r / 2) (by omega)]
      simp only [List.map_append, List.sum_append]
      congr 2
      · by_cases ho : l % 2 = 1 <;> simp [ho]
      · by_cases ho : r % 2 = 1 <;> simp [ho]
    · rw [coverL, dif_neg hlt]
      simp [PtsTree.countLoopGo, hlt]

/-! ### Range-point tree multiset invariant -/

/-- Size-level invariant of a range-point tree holding one point `lo i`
(shifted by `p`) per active handle `i`. -/
def PtsInv (m p : ℕ) (lo : ℕ → ℕ) (acts : List ℕ) (st : PtsTree) : Prop :=
  st.m = m ∧ st.p = p ∧
  (∀ n, (st.nodes n).length =
    (acts.map (fun i => (pathL (lo i + p)).count n)).sum) ∧
  (∀ i ∈ acts, st.rankOfHandle i = lo i ∧
    st.placementSize i = (pathL (lo i + p)).length) ∧
  (∀ i, i ∉ acts → st.placementSize i = 0)

lemma PtsInv_init (m nH : ℕ) (lo : ℕ → ℕ) :
    PtsInv m (pow2ge m) lo [] (PtsTree.init nH m) := by
  refine ⟨rfl, rfl, fun n => by simp [PtsTree.init], ?_, fun i _ => rfl⟩
  intro i hmem
  simp at hmem

lemma PtsInv_insert (m p : ℕ) (lo : ℕ → ℕ) (acts : List ℕ) (st : PtsTree)
    (inv : PtsInv m p lo acts st) (i : ℕ) (hni : i ∉ acts) :
    PtsInv m p lo (i :: acts) (st.insert i (lo i)) := by
  obtain ⟨hM, hP, hN, hAct, hPs⟩ := inv
  have heff := pts_insert_effects st i (lo i)
  obtain ⟨eN, eM, eP, ePs, eR⟩ := heff
  rw [hP] at eN ePs
  refine ⟨by rw [eM, hM], by rw [eP, hP], ?_, ?_, ?_⟩
  · intro n
    rw [eN n, hN n]
    simp [List.map_cons, List.sum_cons]
    omega
  · intro j hj
    rcases List.mem_cons.1 hj with rfl | hj'
    · refine ⟨?_, ?_⟩
      · rw [eR]; simp
      · rw [ePs]; simp
    · have hne : j ≠ i := fun hc => hni (hc ▸ hj')
      obtain ⟨h1, h2⟩ := hAct j hj'
      refine ⟨?_, ?_⟩
      · rw [eR, Function.update_noteq hne, h1]
      · rw [ePs, Function.update_noteq hne, h2]
  · intro j hj
    have hji : j ≠ i := fun hc => hj (hc ▸ List.mem_cons_self i acts)
    have hja : j ∉ acts := fun hc => hj (List.mem_cons_of_mem i hc)
    rw [ePs, Function.update_noteq hji, hPs j hja]

lemma PtsInv_erase (m p : ℕ) (lo : ℕ → ℕ) (acts : List ℕ) (st : PtsTree)
    (inv : PtsInv m p lo acts st) (i : ℕ) (hmem : i ∈ acts) (hnd : acts.Nodup)
    (hp1 : 1 ≤ p) :
    PtsInv m p lo (acts.erase i) (st.erase i) := by
  obtain ⟨hM, hP, hN, hAct, hPs⟩ := inv
  obtain ⟨hRi, hPsi⟩ := hAct i hmem
  have hperm : acts.Perm (i :: acts.erase i) := List.perm_cons_erase hmem
  have hsum : ∀ n, (acts.map (fun j => (pathL (lo j + p)).count n)).sum =
      (pathL (lo i + p)).count n +
      ((acts.erase i).map (fun j => (pathL (lo j + p)).count n)).sum := by
    intro n
    rw [(hperm.map _).sum_eq]
    simp
  have hlenpos : (pathL (lo i + p)).length ≠ 0 := by
    rw [pathL_pos (lo i + p) (by omega)]
    simp
  have hsz : st.placementSize i = (pathL (st.rankOfHandle i + st.p)).length := by
    rw [hRi, hP, hPsi]
  have hne : st.placementSize i ≠ 0 := by
    rw [hPsi]
    exact hlenpos
  have hcnt : ∀ n, (pathL (st.rankOfHandle i + st.p)).count n ≤ (st.nodes n).length := by
    intro n
    rw [hRi, hP, hN n, hsum n]
    omega
  have heff := pts_erase_effects st i hsz hne hcnt
  obtain ⟨eN, eM, eP, ePs, eR⟩ := heff
  rw [hRi, hP] at eN
  refine ⟨by rw [eM, hM], by rw [eP, hP], ?_, ?_, ?_⟩
  · intro n
    rw [eN n, hN n, hsum n]
    omega
  · intro j hj
    have hji : j ≠ i := ((List.Nodup.mem_erase_iff hnd).1 hj).1
    have hja : j ∈ acts := ((List.Nodup.mem_erase_iff hnd).1 hj).2
    obtain ⟨h1, h2⟩ := hAct j hja
    refine ⟨?_, ?_⟩
    · rw [eR, Function.update_noteq hji, h1]
    · rw [ePs, Function.update_noteq hji, h2]
  · intro j hj
    by_cases hji : j = i
    · subst hji
      rw [ePs, Function.update_same]
    · have hja : j ∉ acts := by
        intro hc
        exact hj ((List.Nodup.mem_erase_iff hnd).2 ⟨hji, hc⟩)
      rw [ePs, Function.update_noteq hji, hPs j hja]

lemma PtsInv_countRange (m p : ℕ) (lo : ℕ → ℕ) (acts : List ℕ) (st : PtsTree)
    (inv : PtsInv m p lo acts st) (l r : ℕ) (hm : 0 < m) (hmp : m ≤ p)
    (hlm : l ≤ m) (hrm : r ≤ m) (hbounds : ∀ i ∈ acts, lo i < m) :
    st.countRange l r = acts.countP (fun i => decide (l ≤ lo i ∧ lo i < r)) := by
  obtain ⟨hM, hP, hN, _, _⟩ := inv
  have hp1 : 1 ≤ p := by omega
  by_cases hrl : r ≤ l
  · have hz : acts.countP (fun i => decide (l ≤ lo i ∧ lo i < r)) = 0 := by
      rw [List.countP_eq_zero]
      intro i _
      simp
      omega
    rw [hz, PtsTree.countRange, if_pos]
    simp
    omega
  · have hcond : ¬ ((r ≤ l : Bool) || (st.m = 0 : Bool)) = true := by
      simp [hM]
      omega
    have hlm' : min l st.m = l := by rw [hM]; omega
    have hrm' : min r st.m = r := by rw [hM]; omega
    rw [PtsTree.countRange, if_neg hcond]
    simp only [hlm', hrm']
    rw [if_neg hrl, PtsTree.countLoop, hP,
      pts_countLoopGo_eq st (r + p) (l + p) (r + p) le_rfl]
    have hnodup : (coverL (l + p) (r + p)).Nodup :=
      coverL_nodup (r + p) (l + p) (by omega) (by omega)
    calc ((coverL (l + p) (r + p)).map (fun n => (st.nodes n).length)).sum
        = ((coverL (l + p) (r + p)).map (fun n =>
            (acts.map (fun i => (pathL (lo i + p)).count n)).sum)).sum := by
          congr 1
          exact List.map_congr_left (fun n _ => hN n)
      _ = (acts.map (fun i =>
            ((coverL (l + p) (r + p)).map (fun n => (pathL (lo i + p)).count n)).sum)).sum := by
          exact sum_sum_comm (coverL (l + p) (r + p)) acts
            (fun i n => (pathL (lo i + p)).count n)
      _ = (acts.map (fun i => if l ≤ lo i ∧ lo i < r then 1 else 0)).sum := by
          congr 1
          apply List.map_congr_left
          intro i hi'
          have hb := hbounds i hi'
          rw [sum_count_nodup (coverL (l + p) (r + p)) (pathL (lo i + p)) hnodup]
          rw [countP_mem_comm (pathL (lo i + p)) (coverL (l + p) (r + p))
            (pathL_nodup (lo i + p)) hnodup]
          rw [cover_path_countP (lo i + p) (r + p) (l + p) (by omega) (by omega)
            (by omega) (by omega)]
          have hiff := inSeg_top p l r (lo i) (by omega) (by omega)
          simp only [hiff]
      _ = acts.countP (fun i => decide (l ≤ lo i ∧ lo i < r)) := by
          exact sum_map_ite_eq_countP acts (fun i => l ≤ lo i ∧ lo i < r)

/-! ### Per-side active-index invariant (`ActiveIndex2D`) -/

/-- The 2D active index of one side holds, per active handle `i`, the y-rank
interval `[lo i, hi i)` in the stabbing tree and the point `lo i` in the
range-point tree. -/
def AInv (m p : ℕ) (lo hi : ℕ → ℕ) (acts : List ℕ) (a : ActiveIndex2D) : Prop :=
  a.m = m ∧ StInv m p lo hi acts a.stab ∧ PtsInv m p lo acts a.pts

lemma AInv_init (m nH : ℕ) (lo hi : ℕ → ℕ) :
    AInv m (pow2ge m) lo hi [] (ActiveIndex2D.init nH m) :=
  ⟨rfl, StInv_init m nH lo hi, PtsInv_init m nH lo⟩

lemma AInv_insert (m p : ℕ) (lo hi : ℕ → ℕ) (acts : List ℕ) (a : ActiveIndex2D)
    (inv : AInv m p lo hi acts a) (i : ℕ) (hni : i ∉ acts)
    (hm : 0 < m) (hlh : lo i < hi i) (hhm : hi i ≤ m) :
    AInv m p lo hi (i :: acts) (a.insert i (lo i) (hi i)) :=
  ⟨inv.1, StInv_insert m p lo hi acts a.stab inv.2.1 i hni hm hlh hhm,
    PtsInv_insert m p lo acts a.pts inv.2.2 i hni⟩

lemma AInv_erase (m p : ℕ) (lo hi : ℕ → ℕ) (acts : List ℕ) (a : ActiveIndex2D)
    (inv : AInv m p lo hi acts a) (i : ℕ) (hmem : i ∈ acts) (hnd : acts.Nodup)
    (hlh : lo i < hi i) (hp1 : 1 ≤ p) :
    AInv m p lo hi (acts.erase i) (a.erase i) :=
  ⟨inv.1, StInv_erase m p lo hi acts a.stab inv.2.1 i hmem hnd hlh,
    PtsInv_erase m p lo acts a.pts inv.2.2 i hmem hnd hp1⟩

/-- Pattern A plus Pattern B on the opposite active index count exactly the
active handles whose y-rank interval overlaps the query's `[q, qhi)`. -/
lemma AInv_weight (m p : ℕ) (lo hi : ℕ → ℕ) (acts : List ℕ) (a : ActiveIndex2D)
    (inv : AInv m p lo hi acts a) (q qhi : ℕ) (hq : q < m) (hqh : qhi ≤ m)
    (hqlt : q < qhi) (hm : 0 < m) (hmp : m ≤ p)
    (hbounds : ∀ i ∈ acts, lo i < hi i ∧ hi i ≤ m) :
    a.countA q + a.countB q qhi =
      acts.countP (fun i => decide (lo i < qhi ∧ q < hi i)) := by
  obtain ⟨hAm, hst, hpts⟩ := inv
  have hboundsLo : ∀ i ∈ acts, lo i < m := fun i hi' => by
    have := hbounds i hi'
    omega
  have hA : a.countA q = acts.countP (fun i => decide (lo i ≤ q ∧ q < hi i)) :=
    StInv_count m p lo hi acts a.stab hst q hq hm hmp hbounds
  have hl : (if q + 1 ≤ a.m then q + 1 else a.m) = q + 1 := by
    rw [hAm]
    have : q + 1 ≤ m := by omega
    simp [this]
  have hr : min qhi a.m = qhi := by
    rw [hAm]
    omega
  have hB : a.countB q qhi =
      acts.countP (fun i => decide (q + 1 ≤ lo i ∧ lo i < qhi)) := by
    rw [ActiveIndex2D.countB, if_neg (by rw [hAm]; omega), hl, hr]
    exact PtsInv_countRange m p lo acts a.pts hpts (q + 1) qhi hm hmp (by omega) hqh
      hboundsLo
  rw [hA, hB, ← countP_disjoint]
  · apply List.countP_congr
    intro i hi'
    have hb := hbounds i hi'
    constructor
    · intro h
      simp at h ⊢
      omega
    · intro h
      simp at h ⊢
      omega
  · intro i hi'
    have hb := hbounds i hi'
    rintro ⟨h1, h2⟩
    simp at h1 h2
    omega

/-! ### `lower_bound` rank semantics over the sorted unique y-domain -/

lemma lbRank_eq_countP (ys : List ℚ) (v : ℚ) :
    lbRank ys v = ys.countP (fun u => decide (u < v)) := by
  rw [lbRank, List.countP_eq_length_filter]

lemma lbRank_mono (ys : List ℚ) (u v : ℚ) (h : u ≤ v) :
    lbRank ys u ≤ lbRank ys v := by
  rw [lbRank_eq_countP, lbRank_eq_countP]
  apply List.countP_mono_left
  intro x _ hx
  simp at hx ⊢
  exact lt_of_lt_of_le hx h

lemma lbRank_lt_of_mem_lt (ys : List ℚ) (u v : ℚ) (hu : u ∈ ys) (h : u < v) :
    lbRank ys u < lbRank ys v := by
  rw [lbRank_eq_countP, lbRank_eq_countP]
  have hsplit : ys.countP (fun x => decide (x < u) || decide (x = u)) =
      ys.countP (fun x => decide (x < u)) + ys.countP (fun x => decide (x = u)) := by
    apply countP_disjoint
    intro x _
    rintro ⟨h1, h2⟩
    simp at h1 h2
    subst h2
    exact lt_irrefl x h1
  have hmem : 0 < ys.countP (fun x => decide (x = u)) := by
    rw [List.countP_pos_iff]
    exact ⟨u, hu, by simp⟩
  have hmono : ys.countP (fun x => decide (x < u) || decide (x = u)) ≤
      ys.countP (fun x => decide (x < v)) := by
    apply List.countP_mono_left
    intro x _ hx
    simp at hx ⊢
    rcases hx with hx | hx
    · exact lt_trans hx h
    · subst hx; exact h
  omega

lemma lbRank_lt_iff_of_mem (ys : List ℚ) (u v : ℚ) (hu : u ∈ ys) :
    lbRank ys u < lbRank ys v ↔ u < v := by
  constructor
  · intro h
    by_contra hc
    push_neg at hc
    have := lbRank_mono ys v u hc
    omega
  · exact lbRank_lt_of_mem_lt ys u v hu

lemma lbRank_lt_length_of_mem (ys : List ℚ) (u : ℚ) (hu : u ∈ ys) :
    lbRank ys u < ys.length := by
  rw [lbRank_eq_countP]
  have htot := List.length_eq_countP_add_countP (p := fun x => decide (x < u)) ys
  have hpos : 0 < ys.countP (fun x => ¬ decide (x < u)) := by
    rw [List.countP_pos_iff]
    exact ⟨u, hu, by simp⟩
  omega

lemma lbRank_le_length (ys : List ℚ) (v : ℚ) : lbRank ys v ≤ ys.length := by
  rw [lbRank_eq_countP]
  exact List.countP_le_length _

/-! ### The sweep order as a strict lexicographic key -/

/-- Position of a side in the configured tie-break order. -/
def sideRank (tb : SideTieBreak) (s : Side) : ℕ :=
  match tb, s with
  | .RBeforeS, .R => 0
  | .RBeforeS, .S => 1
  | .SBeforeR, .S => 0
  | .SBeforeR, .R => 1

/-- The strict lexicographic order `(x, kind, id, side rank, index)` realized
by `EventLess`. -/
def KeyLt (tb : SideTieBreak) (a b : Event) : Prop :=
  a.x < b.x ∨ (a.x = b.x ∧
    (a.kind.toNat < b.kind.toNat ∨ (a.kind.toNat = b.kind.toNat ∧
      (a.id < b.id ∨ (a.id = b.id ∧
        (sideRank tb a.side < sideRank tb b.side ∨
          (sideRank tb a.side = sideRank tb b.side ∧ a.index < b.index)))))))

lemma isFirst_iff (tb : SideTieBreak) (s t : Side) :
    IsFirst tb s t = true ↔ sideRank tb s < sideRank tb t := by
  cases tb <;> cases s <;> cases t <;> simp [IsFirst, sideRank]

lemma sideRank_eq_iff (tb : SideTieBreak) (s t : Side) :
    sideRank tb s = sideRank tb t ↔ s = t := by
  cases tb <;> cases s <;> cases t <;> simp [sideRank]

lemma eventLess_iff (tb : SideTieBreak) (a b : Event) :
    EventLess tb a b = true ↔ KeyLt tb a b := by
  unfold EventLess KeyLt
  rcases lt_trichotomy a.x b.x with hx | hx | hx
  · simp [hx, asymm hx]
  · rcases Nat.lt_trichotomy a.kind.toNat b.kind.toNat with hk | hk | hk
    · have h1 : ¬ b.kind.toNat < a.kind.toNat := by omega
      simp [hx, lt_irrefl, hk, h1]
    · rcases Nat.lt_trichotomy a.id b.id with hid | hid | hid
      · have h1 : ¬ a.kind.toNat < b.kind.toNat := by omega
        have h2 : ¬ b.id < a.id := by omega
        simp [hx, lt_irrefl, h1, hk, hid, h2]
      · have h1 : ¬ a.kind.toNat < b.kind.toNat := by omega
        have h2 : ¬ a.id < b.id := by omega
        by_cases hs : a.side = b.side
        · have h3 : sideRank tb a.side = sideRank tb b.side := by rw [hs]
          simp [hx, lt_irrefl, h1, hk, h2, hid, hs, h3]
        · have h3 : ¬ sideRank tb a.side = sideRank tb b.side := by
            rw [sideRank_eq_iff]
            exact hs
          simp [hx, lt_irrefl, h1, hk, h2, hid, hs, h3, isFirst_iff]
      · have h1 : ¬ a.kind.toNat < b.kind.toNat := by omega
        have h2 : ¬ a.id < b.id := by omega
        have h3 : ¬ a.id = b.id := by omega
        simp [hx, lt_irrefl, h1, hk, h2, hid, h3]
    · have h1 : ¬ a.kind.toNat < b.kind.toNat := by omega
      have h2 : ¬ a.kind.toNat = b.kind.toNat := by omega
      simp [hx, lt_irrefl, h1, hk, h2]
  · simp [asymm hx, hx, ne_of_gt hx]

lemma keyLt_asymm (tb : SideTieBreak) (a b : Event) :
    KeyLt tb a b → KeyLt tb b a → False := by
  unfold KeyLt
  rintro (h1 | ⟨hx1, h1⟩) (h2 | ⟨hx2, h2⟩)
  · exact absurd h2 (asymm h1)
  · rw [hx2] at h1
    exact lt_irrefl _ h1
  · rw [hx1] at h2
    exact lt_irrefl _ h2
  · omega

lemma keyLt_irrefl (tb : SideTieBreak) (a : Event) : ¬ KeyLt tb a a :=
  fun h => keyLt_asymm tb a a h h

lemma keyLt_trans (tb : SideTieBreak) (a b c : Event) :
    KeyLt tb a b → KeyLt tb b c → KeyLt tb a c := by
  unfold KeyLt
  rintro (h1 | ⟨hx1, h1⟩) (h2 | ⟨hx2, h2⟩)
  · exact Or.inl (lt_trans h1 h2)
  · exact Or.inl (hx2 ▸ h1)
  · exact Or.inl (hx1 ▸ h2)
  · refine Or.inr ⟨hx1.trans hx2, ?_⟩
    omega

lemma event_eq_of_key_eq (tb : SideTieBreak) (a b : Event) (hx : a.x = b.x)
    (hk : a.kind.toNat = b.kind.toNat) (hid : a.id = b.id)
    (hs : sideRank tb a.side = sideRank tb b.side) (hidx : a.index = b.index) :
    a = b := by
  have hk' : a.kind = b.kind := by
    cases ha : a.kind <;> cases hb : b.kind <;> simp_all [EventKind.toNat]
  have hs' : a.side = b.side := (sideRank_eq_iff tb a.side b.side).1 hs
  cases a
  cases b
  simp_all

lemma keyLt_connex (tb : SideTieBreak) (a b : Event) (h : a ≠ b) :
    KeyLt tb a b ∨ KeyLt tb b a := by
  rcases lt_trichotomy a.x b.x with hx | hx | hx
  · exact Or.inl (Or.inl hx)
  · rcases Nat.lt_trichotomy a.kind.toNat b.kind.toNat with hk | hk | hk
    · exact Or.inl (Or.inr ⟨hx, Or.inl hk⟩)
    · rcases Nat.lt_trichotomy a.id b.id with hid | hid | hid
      · exact Or.inl (Or.inr ⟨hx, Or.inr ⟨hk, Or.inl hid⟩⟩)
      · rcases Nat.lt_trichotomy (sideRank tb a.side) (sideRank tb b.side) with
          hs | hs | hs
        · exact Or.inl (Or.inr ⟨hx, Or.inr ⟨hk, Or.inr ⟨hid, Or.inl hs⟩⟩⟩)
        · rcases Nat.lt_trichotomy a.index b.index with hidx | hidx | hidx
          · exact Or.inl (Or.inr ⟨hx, Or.inr ⟨hk, Or.inr ⟨hid, Or.inr ⟨hs, hidx⟩⟩⟩⟩)
          · exact absurd (event_eq_of_key_eq tb a b hx hk hid hs hidx) h
          · exact Or.inr (Or.inr ⟨hx.symm, Or.inr ⟨hk.symm, Or.inr ⟨hid.symm,
              Or.inr ⟨hs.symm, hidx⟩⟩⟩⟩)
        · exact Or.inr (Or.inr ⟨hx.symm, Or.inr ⟨hk.symm, Or.inr ⟨hid.symm,
            Or.inl hs⟩⟩⟩)
      · exact Or.inr (Or.inr ⟨hx.symm, Or.inr ⟨hk.symm, Or.inl hid⟩⟩)
    · exact Or.inr (Or.inr ⟨hx.symm, Or.inl hk⟩)
  · exact Or.inr (Or.inl hx)

lemma eventLe_iff (tb : SideTieBreak) (a b : Event) :
    EventLe tb a b ↔ ¬ KeyLt tb b a := by
  unfold EventLe
  rw [← eventLess_iff]
  constructor
  · intro h hc
    rw [h] at hc
    exact Bool.false_ne_true hc
  · intro h
    by_contra hc
    exact h (Bool.of_not_eq_false hc)

instance (tb : SideTieBreak) : IsTotal Event (EventLe tb) where
  total := fun a b => by
    rw [eventLe_iff, eventLe_iff]
    by_contra hc
    push_neg at hc
    obtain ⟨h1, h2⟩ := hc
    exact keyLt_asymm tb a b h2 h1

instance (tb : SideTieBreak) : IsTrans Event (EventLe tb) where
  trans := fun a b c hab hbc => by
    rw [eventLe_iff] at hab hbc ⊢
    intro hca
    by_cases heq : a = b
    · subst heq
      exact hbc hca
    · rcases keyLt_connex tb a b heq with h | h
      · exact hbc (keyLt_trans tb c a b hca h)
      · exact hab h

/-! ### Sorted event lists: prefix characterization and structure -/

lemma sorted_buildSweepEvents (ds : Dataset) (tb : SideTieBreak) :
    (BuildSweepEvents ds tb).Sorted (EventLe tb) :=
  List.sorted_insertionSort (EventLe tb) _

lemma buildSweepEvents_perm (ds : Dataset) (tb : SideTieBreak) :
    (BuildSweepEvents ds tb).Perm
      (relationEvents ds.R .R ++ relationEvents ds.S .S) :=
  List.perm_insertionSort (EventLe tb) _

/-- In a sorted duplicate-free event list split as `done ++ e :: rest`, the
processed prefix consists exactly of the list members strictly below `e`. -/
lemma sorted_nodup_prefix_mem (tb : SideTieBreak) (done rest : List Event)
    (e : Event) (hs : (done ++ e :: rest).Sorted (EventLe tb))
    (hn : (done ++ e :: rest).Nodup) (a : Event) (ha : a ∈ done ++ e :: rest) :
    a ∈ done ↔ KeyLt tb a e := by
  rw [List.Sorted, List.pairwise_append] at hs
  obtain ⟨hs1, hs2, hcross⟩ := hs
  rw [List.nodup_append] at hn
  obtain ⟨hn1, hn2, hdisj⟩ := hn
  constructor
  · intro hd
    have hle : EventLe tb a e := hcross a hd e (List.mem_cons_self e rest)
    have hne : a ≠ e := by
      intro hc
      exact hdisj hd (hc ▸ List.mem_cons_self e rest)
    rcases keyLt_connex tb a e hne with h | h
    · exact h
    · exact absurd h ((eventLe_iff tb a e).1 hle)
  · intro hlt
    rcases List.mem_append.1 ha with hd | hm
    · exact hd
    · rcases List.mem_cons.1 hm with rfl | hr
      · exact absurd hlt (keyLt_irrefl tb a)
      · have hle : EventLe tb e a := List.rel_of_sorted_cons hs2 a hr
        exact absurd hlt ((eventLe_iff tb e a).1 hle)

def boxDflt : Box2 := ⟨⟨0, 0⟩, ⟨0, 0⟩⟩

/-- Literal Start event of box `i` (sweep axis 0). -/
def startEv (rel : Relation) (side : Side) (i : ℕ) : Event :=
  ⟨(rel.boxes.getD i boxDflt).lo.x, .Start, side, rel.GetId i, i⟩

/-- Literal End event of box `i` (sweep axis 0). -/
def endEv (rel : Relation) (side : Side) (i : ℕ) : Event :=
  ⟨(rel.boxes.getD i boxDflt).hi.x, .End, side, rel.GetId i, i⟩

lemma foldr_ifcons2_eq_flatMap {α : Type} (p : α → Prop) [DecidablePred p]
    (f g : α → Event) (L : List α) :
    L.foldr (fun i acc => if p i then f i :: g i :: acc else acc) [] =
      L.flatMap (fun i => if p i then [f i, g i] else []) := by
  induction L with
  | nil => rfl
  | cons a L ih => by_cases hp : p a <;> simp [hp, ih]

lemma relationEvents_eq (rel : Relation) (side : Side) :
    relationEvents rel side = (List.range rel.boxes.length).flatMap
      (fun i =>
        if (rel.boxes.getD i boxDflt).lo.x < (rel.boxes.getD i boxDflt).hi.x
        then [startEv rel side i, endEv rel side i] else []) := by
  unfold relationEvents
  exact foldr_ifcons2_eq_flatMap _ _ _ _

lemma mem_relationEvents (rel : Relation) (side : Side) (ev : Event) :
    ev ∈ relationEvents rel side ↔ ∃ i, i < rel.boxes.length ∧
      (rel.boxes.getD i boxDflt).lo.x < (rel.boxes.getD i boxDflt).hi.x ∧
      (ev = startEv rel side i ∨ ev = endEv rel side i) := by
  rw [relationEvents_eq, List.mem_flatMap]
  constructor
  · rintro ⟨i, hi, hmem⟩
    rw [List.mem_range] at hi
    refine ⟨i, hi, ?_⟩
    by_cases hp : (rel.boxes.getD i boxDflt).lo.x < (rel.boxes.getD i boxDflt).hi.x
    · rw [if_pos hp] at hmem
      rcases List.mem_cons.1 hmem with rfl | hmem2
      · exact ⟨hp, Or.inl rfl⟩
      · rcases List.mem_cons.1 hmem2 with rfl | hmem3
        · exact ⟨hp, Or.inr rfl⟩
        · simp at hmem3
    · rw [if_neg hp] at hmem
      simp at hmem
  · rintro ⟨i, hi, hp, hor⟩
    refine ⟨i, List.mem_range.2 hi, ?_⟩
    rw [if_pos hp]
    rcases hor with rfl | rfl
    · exact List.mem_cons_self _ _
    · exact List.mem_cons_of_mem _ (List.mem_cons_self _ _)

lemma side_of_mem_relationEvents (rel : Relation) (side : Side) (ev : Event)
    (h : ev ∈ relationEvents rel side) : ev.side = side := by
  rw [mem_relationEvents] at h
  obtain ⟨i, _, _, hor⟩ := h
  rcases hor with rfl | rfl <;> rfl

lemma index_of_mem_pairList (rel : Relation) (side : Side) (i : ℕ) (ev : Event)
    (h : ev ∈ (if (rel.boxes.getD i boxDflt).lo.x <
        (rel.boxes.getD i boxDflt).hi.x
      then [startEv rel side i, endEv rel side i] else [])) : ev.index = i := by
  by_cases hp : (rel.boxes.getD i boxDflt).lo.x < (rel.boxes.getD i boxDflt).hi.x
  · rw [if_pos hp] at h
    rcases List.mem_cons.1 h with rfl | h2
    · rfl
    · rcases List.mem_cons.1 h2 with rfl | h3
      · rfl
      · simp at h3
  · rw [if_neg hp] at h
    simp at h

lemma relationEvents_nodup (rel : Relation) (side : Side) :
    (relationEvents rel side).Nodup := by
  rw [relationEvents_eq, List.nodup_flatMap]
  constructor
  · intro i _
    split
    · simp [startEv, endEv]
    · simp
  · apply List.Pairwise.imp ?_ (List.pairwise_lt_range _)
    intro i j hij
    intro ev h1 h2
    have e1 := index_of_mem_pairList rel side i ev h1
    have e2 := index_of_mem_pairList rel side j ev h2
    omega

lemma baseEvents_nodup (ds : Dataset) :
    (relationEvents ds.R .R ++ relationEvents ds.S .S).Nodup := by
  rw [List.nodup_append]
  refine ⟨relationEvents_nodup ds.R .R, relationEvents_nodup ds.S .S, ?_⟩
  intro ev h1 h2
  have e1 := side_of_mem_relationEvents ds.R .R ev h1
  have e2 := side_of_mem_relationEvents ds.S .S ev h2
  rw [e1] at e2
  exact Side.noConfusion e2

lemma buildSweepEvents_nodup (ds : Dataset) (tb : SideTieBreak) :
    (BuildSweepEvents ds tb).Nodup :=
  (buildSweepEvents_perm ds tb).nodup_iff.2 (baseEvents_nodup ds)

/-! ### Facts about a validated dataset and its built context -/

lemma getD_map_lt {α β : Type} (l : List α) (f : α → β) (i : ℕ)
    (hi : i < l.length) (d : β) (d' : α) :
    (l.map f).getD i d = f (l.getD i d') := by
  rw [List.getD_eq_getElem (l.map f) d (by simpa using hi), List.getElem_map,
    List.getD_eq_getElem l d' hi]

lemma getD_mem_of_lt {α : Type} (l : List α) (i : ℕ) (hi : i < l.length) (d : α) :
    l.getD i d ∈ l := by
  rw [List.getD_eq_getElem l d hi]
  exact List.getElem_mem hi

lemma validate_proper_boxes (rel : Relation) (h : rel.ValidateProper = true) :
    ∀ i < rel.boxes.length,
      (rel.boxes.getD i boxDflt).lo.x < (rel.boxes.getD i boxDflt).hi.x ∧
      (rel.boxes.getD i boxDflt).lo.y < (rel.boxes.getD i boxDflt).hi.y := by
  intro i hi
  rw [Relation.ValidateProper, Bool.and_eq_true, List.all_eq_true] at h
  have hb := h.1 (rel.boxes.getD i boxDflt) (getD_mem_of_lt rel.boxes i hi boxDflt)
  rw [Bool.and_eq_true] at hb
  have he := hb.2
  simp [Box2.IsEmpty] at he
  simp only [List.getD_eq_getElem?_getD]
  exact he

lemma buildCtx_ok_inv (ds : Dataset) (ctx : Ctx) (h : buildCtx ds = .ok ctx) :
    ds.R.boxes.length ≤ U32MAX ∧ ds.S.boxes.length ≤ U32MAX ∧
    ctx.ds = ds ∧
    ctx.evs = BuildSweepEvents ds .RBeforeS ∧
    ctx.startIds = startIdsGo ctx.evs 0 ∧
    ctx.yCoords =
      (((ds.R.boxes ++ ds.S.boxes).map (fun b => b.lo.y)).insertionSort
        (· ≤ ·)).dedup ∧
    ctx.yloR = ds.R.boxes.map (fun b => lbRank ctx.yCoords b.lo.y) ∧
    ctx.yhiR = ds.R.boxes.map (fun b => lbRank ctx.yCoords b.hi.y) ∧
    ctx.yloS = ds.S.boxes.map (fun b => lbRank ctx.yCoords b.lo.y) ∧
    ctx.yhiS = ds.S.boxes.map (fun b => lbRank ctx.yCoords b.hi.y) ∧
    ctx.m = ctx.yCoords.length ∧ 0 < ctx.m := by
  unfold buildCtx at h
  by_cases hg : U32MAX < ds.R.boxes.length || U32MAX < ds.S.boxes.length
  · rw [if_pos hg] at h
    exact absurd h (by simp)
  · rw [if_neg hg] at h
    by_cases hes : ((((ds.R.boxes ++ ds.S.boxes).map (fun b => b.lo.y)).insertionSort
        (· ≤ ·)).dedup).isEmpty
    · rw [if_pos hes] at h
      exact absurd h (by simp)
    · rw [if_neg hes] at h
      rw [Except.ok.injEq] at h
      subst h
      simp only [Bool.or_eq_true, decide_eq_true_eq, not_or, not_lt] at hg
      refine ⟨hg.1, hg.2, rfl, rfl, rfl, rfl, rfl, rfl, rfl, rfl, rfl, ?_⟩
      simp only []
      rw [List.isEmpty_iff_length_eq_zero] at hes
      omega

lemma yCoords_nodup (ds : Dataset) (ctx : Ctx) (h : buildCtx ds = .ok ctx) :
    ctx.yCoords.Nodup := by
  rw [(buildCtx_ok_inv ds ctx h).2.2.2.2.2.1]
  exact List.nodup_dedup _

lemma mem_yCoords_iff (ds : Dataset) (ctx : Ctx) (h : buildCtx ds = .ok ctx)
    (v : ℚ) :
    v ∈ ctx.yCoords ↔ v ∈ (ds.R.boxes ++ ds.S.boxes).map (fun b => b.lo.y) := by
  rw [(buildCtx_ok_inv ds ctx h).2.2.2.2.2.1, List.mem_dedup,
    List.mem_insertionSort]

/-- Per-side y-lo rank table lookup as performed by the sweep passes. -/
def yloF (ctx : Ctx) (side : Side) (i : ℕ) : ℕ :=
  match side with
  | .R => ctx.yloR.getD i 0
  | .S => ctx.yloS.getD i 0

/-- Per-side y-hi (lower-bound) rank table lookup as performed by the sweep
passes. -/
def yhiF (ctx : Ctx) (side : Side) (i : ℕ) : ℕ :=
  match side with
  | .R => ctx.yhiR.getD i 0
  | .S => ctx.yhiS.getD i 0

/-- The relation a side's boxes come from. -/
def sideRel (ds : Dataset) (side : Side) : Relation :=
  match side with
  | .R => ds.R
  | .S => ds.S

lemma sideRel_R (ds : Dataset) : sideRel ds .R = ds.R := rfl

lemma sideRel_S (ds : Dataset) : sideRel ds .S = ds.S := rfl

lemma loY_mem_yCoords (ds : Dataset) (ctx : Ctx) (h : buildCtx ds = .ok ctx)
    (side : Side) (i : ℕ) (hi : i < (sideRel ds side).boxes.length) :
    ((sideRel ds side).boxes.getD i boxDflt).lo.y ∈ ctx.yCoords := by
  rw [mem_yCoords_iff ds ctx h]
  apply List.mem_map_of_mem
  rw [List.mem_append]
  cases side
  · exact Or.inl (getD_mem_of_lt _ i hi boxDflt)
  · exact Or.inr (getD_mem_of_lt _ i hi boxDflt)

lemma yloF_eq (ds : Dataset) (ctx : Ctx) (h : buildCtx ds = .ok ctx)
    (side : Side) (i : ℕ) (hi : i < (sideRel ds side).boxes.length) :
    yloF ctx side i = lbRank ctx.yCoords ((sideRel ds side).boxes.getD i boxDflt).lo.y := by
  obtain ⟨-, -, -, -, -, -, hR1, -, hS1, -, -, -⟩ := buildCtx_ok_inv ds ctx h
  cases side
  · rw [yloF, hR1]
    exact getD_map_lt _ _ i hi 0 boxDflt
  · rw [yloF, hS1]
    exact getD_map_lt _ _ i hi 0 boxDflt

lemma yhiF_eq (ds : Dataset) (ctx : Ctx) (h : buildCtx ds = .ok ctx)
    (side : Side) (i : ℕ) (hi : i < (sideRel ds side).boxes.length) :
    yhiF ctx side i = lbRank ctx.yCoords ((sideRel ds side).boxes.getD i boxDflt).hi.y := by
  obtain ⟨-, -, -, -, -, -, -, hR2, -, hS2, -, -⟩ := buildCtx_ok_inv ds ctx h
  cases side
  · rw [yhiF, hR2]
    exact getD_map_lt _ _ i hi 0 boxDflt
  · rw [yhiF, hS2]
    exact getD_map_lt _ _ i hi 0 boxDflt

lemma sideRel_validate (ds : Dataset) (hv : ds.ValidateProper = true) (side : Side) :
    (sideRel ds side).ValidateProper = true := by
  rw [Dataset.ValidateProper, Bool.and_eq_true, Bool.and_eq_true] at hv
  cases side
  · exact hv.1.2
  · exact hv.2

/-- The rank tables of a validated built context: each box's y-interval maps
to a nonempty rank interval `[ylo, yhi)` with `ylo < m` and `yhi ≤ m`. -/
lemma ranks_good (ds : Dataset) (ctx : Ctx) (hv : ds.ValidateProper = true)
    (h : buildCtx ds = .ok ctx) (side : Side) (i : ℕ)
    (hi : i < (sideRel ds side).boxes.length) :
    yloF ctx side i < yhiF ctx side i ∧ yhiF ctx side i ≤ ctx.m ∧
      yloF ctx side i < ctx.m := by
  have hprop := validate_proper_boxes (sideRel ds side)
    (sideRel_validate ds hv side) i hi
  have hmem := loY_mem_yCoords ds ctx h side i hi
  have hm := (buildCtx_ok_inv ds ctx h).2.2.2.2.2.2.2.2.2.2.1
  rw [yloF_eq ds ctx h side i hi, yhiF_eq ds ctx h side i hi]
  refine ⟨?_, ?_, ?_⟩
  · exact lbRank_lt_of_mem_lt ctx.yCoords _ _ hmem hprop.2
  · rw [hm]
    exact lbRank_le_length ctx.yCoords _
  · rw [hm]
    exact lbRank_lt_length_of_mem ctx.yCoords _ hmem

/-- Rank-interval overlap of two boxes coincides with value-level y-overlap
(both `lo.y` values are members of the y-domain). -/
lemma rank_overlap_iff (ds : Dataset) (ctx : Ctx) (hv : ds.ValidateProper = true)
    (h : buildCtx ds = .ok ctx) (sa sb : Side) (i j : ℕ)
    (hi : i < (sideRel ds sa).boxes.length) (hj : j < (sideRel ds sb).boxes.length) :
    (yloF ctx sa i < yhiF ctx sb j ∧ yloF ctx sb j < yhiF ctx sa i) ↔
      (((sideRel ds sa).boxes.getD i boxDflt).lo.y <
        ((sideRel ds sb).boxes.getD j boxDflt).hi.y ∧
       ((sideRel ds sb).boxes.getD j boxDflt).lo.y <
        ((sideRel ds sa).boxes.getD i boxDflt).hi.y) := by
  rw [yloF_eq ds ctx h sa i hi, yhiF_eq ds ctx h sb j hj,
    yloF_eq ds ctx h sb j hj, yhiF_eq ds ctx h sa i hi]
  rw [lbRank_lt_iff_of_mem ctx.yCoords _ _ (loY_mem_yCoords ds ctx h sa i hi),
    lbRank_lt_iff_of_mem ctx.yCoords _ _ (loY_mem_yCoords ds ctx h sb j hj)]

/-! ### Order-level per-event weights and the pairing identity -/

lemma keyLt_start_end (tb : SideTieBreak) (s e : Event) (hs : s.kind = .Start)
    (he : e.kind = .End) : KeyLt tb s e ↔ s.x < e.x := by
  unfold KeyLt
  rw [hs, he]
  constructor
  · rintro (h | ⟨-, h | ⟨h, -⟩⟩)
    · exact h
    · simp [EventKind.toNat] at h
    · simp [EventKind.toNat] at h
  · exact Or.inl

lemma flatMap_congr {α β : Type} (l : List α) (f g : α → List β)
    (h : ∀ a ∈ l, f a = g a) : l.flatMap f = l.flatMap g := by
  induction l with
  | nil => rfl
  | cons a l ih =>
    rw [List.flatMap_cons, List.flatMap_cons, h a (List.mem_cons_self a l),
      ih (fun b hb => h b (List.mem_cons_of_mem a hb))]

lemma filter_flatMap {α β : Type} (l : List α) (f : α → List β) (p : β → Bool) :
    (l.flatMap f).filter p = l.flatMap (fun a => (f a).filter p) := by
  induction l with
  | nil => rfl
  | cons a l ih => simp [List.flatMap_cons, List.filter_append, ih]

lemma flatMap_singleton_eq_map {α β : Type} (l : List α) (g : α → β) :
    l.flatMap (fun a => [g a]) = l.map g := by
  induction l with
  | nil => rfl
  | cons a l ih => simp [List.flatMap_cons, ih]

lemma countP_eq_sum_ind (l : List ℕ) (p : ℕ → Bool) :
    l.countP p = (l.map (fun x => if p x = true then 1 else 0)).sum := by
  induction l with
  | nil => simp
  | cons a l ih =>
    rw [List.countP_cons, List.map_cons, List.sum_cons, ih]
    by_cases h : p a = true <;> simp [h] <;> omega

lemma map_eq_range_map {α β : Type} (l : List α) (f : α → β) (d : α) :
    l.map f = (List.range l.length).map (fun i => f (l.getD i d)) := by
  induction l with
  | nil => rfl
  | cons a l ih =>
    rw [List.length_cons, List.range_succ_eq_map, List.map_cons, List.map_cons,
      List.map_map]
    congr 1

/-- Pair predicate as seen from the Start event of R-box `i`: S-box `j`
started earlier, is still open, and overlaps on y. -/
def pairPredRS (ds : Dataset) (i j : ℕ) : Bool :=
  EventLess .RBeforeS (startEv ds.S .S j) (startEv ds.R .R i) &&
  EventLess .RBeforeS (startEv ds.R .R i) (endEv ds.S .S j) &&
  decide ((ds.S.boxes.getD j boxDflt).lo.y < (ds.R.boxes.getD i boxDflt).hi.y) &&
  decide ((ds.R.boxes.getD i boxDflt).lo.y < (ds.S.boxes.getD j boxDflt).hi.y)

/-- Pair predicate as seen from the Start event of S-box `j`. -/
def pairPredSR (ds : Dataset) (j i : ℕ) : Bool :=
  EventLess .RBeforeS (startEv ds.R .R i) (startEv ds.S .S j) &&
  EventLess .RBeforeS (startEv ds.S .S j) (endEv ds.R .R i) &&
  decide ((ds.R.boxes.getD i boxDflt).lo.y < (ds.S.boxes.getD j boxDflt).hi.y) &&
  decide ((ds.S.boxes.getD j boxDflt).lo.y < (ds.R.boxes.getD i boxDflt).hi.y)

/-- Order-level specification of the weight `w(e)` computed at a Start
event: the number of opposite boxes whose Start precedes `e`, whose End
follows `e`, and whose y-interval overlaps the query's. -/
def specW (ds : Dataset) (e : Event) : ℕ :=
  match e.side with
  | .R => (List.range ds.S.boxes.length).countP (fun j => pairPredRS ds e.index j)
  | .S => (List.range ds.R.boxes.length).countP (fun i => pairPredSR ds e.index i)

/-- Sum of the order-level weights over the Start events of a list. -/
def specWsum (ds : Dataset) (l : List Event) : ℕ :=
  ((l.filter (fun e => e.kind == EventKind.Start)).map (specW ds)).sum

/-- Each intersecting pair is claimed by exactly one of its two Start events
(the later one in sweep order); non-intersecting pairs are claimed by
neither. -/
lemma pair_exactly_one (ds : Dataset) (hv : ds.ValidateProper = true) (i j : ℕ)
    (hi : i < ds.R.boxes.length) (hj : j < ds.S.boxes.length) :
    (if pairPredRS ds i j = true then 1 else 0) +
      (if pairPredSR ds j i = true then 1 else 0) =
    (if (ds.R.boxes.getD i boxDflt).Intersects (ds.S.boxes.getD j boxDflt) = true
      then 1 else 0) := by
  have hbp := validate_proper_boxes ds.R (sideRel_validate ds hv .R) i hi
  have hcp := validate_proper_boxes ds.S (sideRel_validate ds hv .S) j hj
  set b := ds.R.boxes.getD i boxDflt with hb
  set c := ds.S.boxes.getD j boxDflt with hc
  have hbe : b.IsEmpty = false := by
    simp [Box2.IsEmpty]
    exact ⟨hbp.1, hbp.2⟩
  have hce : c.IsEmpty = false := by
    simp [Box2.IsEmpty]
    exact ⟨hcp.1, hcp.2⟩
  have hInt : ((ds.R.boxes.getD i boxDflt).Intersects (ds.S.boxes.getD j boxDflt)
      = true) ↔ ((b.lo.x < c.hi.x ∧ c.lo.x < b.hi.x) ∧
        (b.lo.y < c.hi.y ∧ c.lo.y < b.hi.y)) := by
    rw [← hb, ← hc, Box2.Intersects]
    rw [hbe, hce]
    simp
  have hx1 : (startEv ds.R .R i).x = b.lo.x := rfl
  have hx2 : (endEv ds.S .S j).x = c.hi.x := rfl
  have hx3 : (startEv ds.S .S j).x = c.lo.x := rfl
  have hx4 : (endEv ds.R .R i).x = b.hi.x := rfl
  have hRS : EventLess .RBeforeS (startEv ds.R .R i) (endEv ds.S .S j) = true ↔
      b.lo.x < c.hi.x := by
    rw [eventLess_iff, keyLt_start_end .RBeforeS _ _ rfl rfl, hx1, hx2]
  have hSR : EventLess .RBeforeS (startEv ds.S .S j) (endEv ds.R .R i) = true ↔
      c.lo.x < b.hi.x := by
    rw [eventLess_iff, keyLt_start_end .RBeforeS _ _ rfl rfl, hx3, hx4]
  have hne : startEv ds.S .S j ≠ startEv ds.R .R i := by
    intro hcon
    have : (startEv ds.S .S j).side = (startEv ds.R .R i).side := by rw [hcon]
    exact Side.noConfusion this
  have hA : EventLess .RBeforeS (startEv ds.S .S j) (startEv ds.R .R i) = true ↔
      KeyLt .RBeforeS (startEv ds.S .S j) (startEv ds.R .R i) := eventLess_iff ..
  have hA' : EventLess .RBeforeS (startEv ds.R .R i) (startEv ds.S .S j) = true ↔
      KeyLt .RBeforeS (startEv ds.R .R i) (startEv ds.S .S j) := eventLess_iff ..
  have hPiff : pairPredRS ds i j = true ↔
      (KeyLt .RBeforeS (startEv ds.S .S j) (startEv ds.R .R i) ∧
        b.lo.x < c.hi.x ∧ (c.lo.y < b.hi.y ∧ b.lo.y < c.hi.y)) := by
    rw [pairPredRS]
    simp only [Bool.and_eq_true, decide_eq_true_eq, ← hb, ← hc]
    rw [hRS, hA]
    constructor
    · rintro ⟨⟨⟨h1, h2⟩, h3⟩, h4⟩
      exact ⟨h1, h2, h3, h4⟩
    · rintro ⟨h1, h2, h3, h4⟩
      exact ⟨⟨⟨h1, h2⟩, h3⟩, h4⟩
  have hQiff : pairPredSR ds j i = true ↔
      (KeyLt .RBeforeS (startEv ds.R .R i) (startEv ds.S .S j) ∧
        c.lo.x < b.hi.x ∧ (b.lo.y < c.hi.y ∧ c.lo.y < b.hi.y)) := by
    rw [pairPredSR]
    simp only [Bool.and_eq_true, decide_eq_true_eq, ← hb, ← hc]
    rw [hSR, hA']
    constructor
    · rintro ⟨⟨⟨h1, h2⟩, h3⟩, h4⟩
      exact ⟨h1, h2, h3, h4⟩
    · rintro ⟨h1, h2, h3, h4⟩
      exact ⟨⟨⟨h1, h2⟩, h3⟩, h4⟩
  have hnP_of_nBC : ¬ (b.lo.x < c.hi.x) → pairPredRS ds i j ≠ true := by
    intro hxc hcon
    exact hxc (hPiff.1 hcon).2.1
  have hnQ_of_nCB : ¬ (c.lo.x < b.hi.x) → pairPredSR ds j i ≠ true := by
    intro hxc hcon
    exact hxc (hQiff.1 hcon).2.1
  have hnQ_of_nBC : ¬ (b.lo.x < c.hi.x) → pairPredSR ds j i ≠ true := by
    intro hxc hcon
    have hlt : KeyLt .RBeforeS (startEv ds.S .S j) (startEv ds.R .R i) :=
      Or.inl (show (startEv ds.S .S j).x < (startEv ds.R .R i).x from
        lt_of_lt_of_le hcp.1 (le_of_not_lt hxc))
    exact keyLt_asymm _ _ _ hlt (hQiff.1 hcon).1
  have hnP_of_nCB : ¬ (c.lo.x < b.hi.x) → pairPredRS ds i j ≠ true := by
    intro hxc hcon
    have hlt : KeyLt .RBeforeS (startEv ds.R .R i) (startEv ds.S .S j) :=
      Or.inl (show (startEv ds.R .R i).x < (startEv ds.S .S j).x from
        lt_of_lt_of_le hbp.1 (le_of_not_lt hxc))
    exact keyLt_asymm _ _ _ hlt (hPiff.1 hcon).1
  by_cases hyo : b.lo.y < c.hi.y ∧ c.lo.y < b.hi.y
  · by_cases hxo : b.lo.x < c.hi.x ∧ c.lo.x < b.hi.x
    · rw [if_pos (hInt.2 ⟨hxo, hyo⟩)]
      rcases keyLt_connex .RBeforeS (startEv ds.S .S j) (startEv ds.R .R i) hne
        with hcon | hcon
      · rw [if_pos (hPiff.2 ⟨hcon, hxo.1, hyo.2, hyo.1⟩), if_neg]
        rw [hQiff]
        rintro ⟨hcon', -⟩
        exact keyLt_asymm _ _ _ hcon hcon'
      · rw [if_pos (hQiff.2 ⟨hcon, hxo.2, hyo.1, hyo.2⟩), if_neg]
        rw [hPiff]
        rintro ⟨hcon', -⟩
        exact keyLt_asymm _ _ _ hcon hcon'
    · rw [if_neg (fun hcon => hxo (hInt.1 hcon).1)]
      rcases not_and_or.1 hxo with hxc | hxc
      · rw [if_neg (hnP_of_nBC hxc), if_neg (hnQ_of_nBC hxc)]
      · rw [if_neg (hnP_of_nCB hxc), if_neg (hnQ_of_nCB hxc)]
  · rw [if_neg (fun hcon => hyo (hInt.1 hcon).2),
      if_neg (show pairPredRS ds i j ≠ true from fun hcon => by
        obtain ⟨-, -, h3, h4⟩ := hPiff.1 hcon
        exact hyo ⟨h4, h3⟩),
      if_neg (show pairPredSR ds j i ≠ true from fun hcon => by
        obtain ⟨-, -, h3, h4⟩ := hQiff.1 hcon
        exact hyo ⟨h3, h4⟩)]

lemma self_eq_range_map {α : Type} (l : List α) (d : α) :
    l = (List.range l.length).map (fun i => l.getD i d) := by
  conv_lhs => rw [← List.map_id l]
  rw [map_eq_range_map l id d]
  rfl

lemma countNaive_eq_range (ds : Dataset) :
    CountNaive ds.R ds.S = ((List.range ds.R.boxes.length).map (fun i =>
      (List.range ds.S.boxes.length).countP (fun j =>
        (ds.R.boxes.getD i boxDflt).Intersects (ds.S.boxes.getD j boxDflt)))).sum := by
  rw [CountNaive, map_eq_range_map ds.R.boxes _ boxDflt]
  congr 1
  apply List.map_congr_left
  intro i _
  rw [← List.countP_eq_length_filter]
  conv_lhs => rw [self_eq_range_map ds.S.boxes boxDflt]
  rw [List.countP_map]
  rfl

/-- Pairing identity: summing the order-level weights over all Start events
counts every intersecting pair exactly once. -/
lemma specWsum_eq_countNaive (ds : Dataset) (hv : ds.ValidateProper = true) :
    specWsum ds (BuildSweepEvents ds .RBeforeS) = CountNaive ds.R ds.S := by
  have hperm := (buildSweepEvents_perm ds .RBeforeS).filter
    (fun e => e.kind == EventKind.Start)
  have h1 : specWsum ds (BuildSweepEvents ds .RBeforeS) =
      specWsum ds (relationEvents ds.R .R ++ relationEvents ds.S .S) := by
    unfold specWsum
    exact (hperm.map (specW ds)).sum_eq
  rw [h1]
  unfold specWsum
  rw [List.filter_append]
  have hstart : ∀ (rel : Relation) (side : Side), rel.ValidateProper = true →
      (relationEvents rel side).filter (fun e => e.kind == EventKind.Start) =
        (List.range rel.boxes.length).map (startEv rel side) := by
    intro rel side hval
    rw [relationEvents_eq, filter_flatMap]
    rw [flatMap_congr (List.range rel.boxes.length) _
      (fun i => [startEv rel side i]) ?_]
    · exact flatMap_singleton_eq_map _ _
    · intro a ha
      rw [List.mem_range] at ha
      have hp := validate_proper_boxes rel hval a ha
      rw [if_pos hp.1]
      rfl
  rw [hstart ds.R .R (sideRel_validate ds hv .R),
    hstart ds.S .S (sideRel_validate ds hv .S)]
  rw [List.map_append, List.sum_append, List.map_map, List.map_map]
  have hWR : (specW ds) ∘ (startEv ds.R .R) = fun i =>
      (List.range ds.S.boxes.length).countP (fun j => pairPredRS ds i j) := rfl
  have hWS : (specW ds) ∘ (startEv ds.S .S) = fun j =>
      (List.range ds.R.boxes.length).countP (fun i => pairPredSR ds j i) := rfl
  rw [hWR, hWS]
  calc ((List.range ds.R.boxes.length).map (fun i =>
          (List.range ds.S.boxes.length).countP (fun j => pairPredRS ds i j))).sum +
        ((List.range ds.S.boxes.length).map (fun j =>
          (List.range ds.R.boxes.length).countP (fun i => pairPredSR ds j i))).sum
      = ((List.range ds.R.boxes.length).map (fun i =>
          ((List.range ds.S.boxes.length).map (fun j =>
            if pairPredRS ds i j = true then 1 else 0)).sum)).sum +
        ((List.range ds.S.boxes.length).map (fun j =>
          ((List.range ds.R.boxes.length).map (fun i =>
            if pairPredSR ds j i = true then 1 else 0)).sum)).sum := by
        congr 1
        · congr 1
          apply List.map_congr_left
          intro i _
          exact countP_eq_sum_ind _ _
        · congr 1
          apply List.map_congr_left
          intro j _
          exact countP_eq_sum_ind _ _
    _ = ((List.range ds.R.boxes.length).map (fun i =>
          ((List.range ds.S.boxes.length).map (fun j =>
            if pairPredRS ds i j = true then 1 else 0)).sum)).sum +
        ((List.range ds.R.boxes.length).map (fun i =>
          ((List.range ds.S.boxes.length).map (fun j =>
            if pairPredSR ds j i = true then 1 else 0)).sum)).sum := by
        congr 1
        exact sum_sum_comm (List.range ds.S.boxes.length)
          (List.range ds.R.boxes.length)
          (fun i j => if pairPredSR ds j i = true then 1 else 0)
    _ = ((List.range ds.R.boxes.length).map (fun i =>
          ((List.range ds.S.boxes.length).map (fun j =>
            if pairPredRS ds i j = true then 1 else 0)).sum +
          ((List.range ds.S.boxes.length).map (fun j =>
            if pairPredSR ds j i = true then 1 else 0)).sum)).sum := by
        rw [sum_map_add']
    _ = ((List.range ds.R.boxes.length).map (fun i =>
          ((List.range ds.S.boxes.length).map (fun j =>
            if (ds.R.boxes.getD i boxDflt).Intersects (ds.S.boxes.getD j boxDflt)
              = true then 1 else 0)).sum)).sum := by
        congr 1
        apply List.map_congr_left
        intro i hi'
        rw [List.mem_range] at hi'
        rw [← sum_map_add']
        congr 1
        apply List.map_congr_left
        intro j hj'
        rw [List.mem_range] at hj'
        exact pair_exactly_one ds hv i j hi' hj'
    _ = ((List.range ds.R.boxes.length).map (fun i =>
          (List.range ds.S.boxes.length).countP (fun j =>
            (ds.R.boxes.getD i boxDflt).Intersects (ds.S.boxes.getD j boxDflt)))).sum := by
        congr 1
        apply List.map_congr_left
        intro i _
        rw [countP_eq_sum_ind]
    _ = CountNaive ds.R ds.S := (countNaive_eq_range ds).symm

/-! ### Glue for the sweep induction -/

lemma countP_of_mem_iff (A : List ℕ) (hA : A.Nodup) (n : ℕ) (q : ℕ → Bool)
    (hchar : ∀ x, x ∈ A ↔ (x < n ∧ q x = true)) (P : ℕ → Bool) :
    A.countP P = (List.range n).countP (fun x => P x && q x) := by
  have hperm : A.Perm ((List.range n).filter q) := by
    rw [List.perm_ext_iff_of_nodup hA ((List.nodup_range n).filter _)]
    intro x
    rw [List.mem_filter, List.mem_range, hchar x]
  rw [hperm.countP_eq, List.countP_filter]

lemma sum_map_le {α : Type} (l : List α) (f : α → ℕ) (c : ℕ)
    (h : ∀ x ∈ l, f x ≤ c) : (l.map f).sum ≤ l.length * c := by
  induction l with
  | nil => simp
  | cons a l ih =>
    rw [List.map_cons, List.sum_cons, List.length_cons]
    have h1 := h a (List.mem_cons_self a l)
    have h2 := ih (fun x hx => h x (List.mem_cons_of_mem a hx))
    have : (l.length + 1) * c = l.length * c + c := by ring
    omega

lemma countNaive_le_mul (ds : Dataset) :
    CountNaive ds.R ds.S ≤ ds.R.boxes.length * ds.S.boxes.length := by
  rw [CountNaive]
  apply sum_map_le
  intro b _
  exact List.length_filter_le _ _

lemma specWsum_append_one (ds : Dataset) (l : List Event) (e : Event) :
    specWsum ds (l ++ [e]) =
      specWsum ds l + (if e.kind = EventKind.Start then specW ds e else 0) := by
  unfold specWsum
  rw [List.filter_append, List.map_append, List.sum_append]
  cases hk : e.kind <;> simp [List.filter, hk] <;> rfl

lemma specWsum_le_append (ds : Dataset) (l l₂ : List Event) :
    specWsum ds l ≤ specWsum ds (l ++ l₂) := by
  unfold specWsum
  exact sublist_sum_le (((List.sublist_append_left l l₂).filter _).map _)

lemma ev_mem_evs (ds : Dataset) (hv : ds.ValidateProper = true)
    (tb : SideTieBreak) (side : Side) (j : ℕ)
    (hj : j < (sideRel ds side).boxes.length) :
    startEv (sideRel ds side) side j ∈ BuildSweepEvents ds tb ∧
    endEv (sideRel ds side) side j ∈ BuildSweepEvents ds tb := by
  have hperm := buildSweepEvents_perm ds tb
  rw [hperm.mem_iff, hperm.mem_iff]
  have hp := validate_proper_boxes (sideRel ds side) (sideRel_validate ds hv side) j hj
  cases side
  · constructor
    · exact List.mem_append.2 (Or.inl
        ((mem_relationEvents ds.R .R _).2 ⟨j, hj, hp.1, Or.inl rfl⟩))
    · exact List.mem_append.2 (Or.inl
        ((mem_relationEvents ds.R .R _).2 ⟨j, hj, hp.1, Or.inr rfl⟩))
  · constructor
    · exact List.mem_append.2 (Or.inr
        ((mem_relationEvents ds.S .S _).2 ⟨j, hj, hp.1, Or.inl rfl⟩))
    · exact List.mem_append.2 (Or.inr
        ((mem_relationEvents ds.S .S _).2 ⟨j, hj, hp.1, Or.inr rfl⟩))

lemma ev_char (ds : Dataset) (tb : SideTieBreak) (e : Event)
    (hmem : e ∈ BuildSweepEvents ds tb) :
    e.index < (sideRel ds e.side).boxes.length ∧
    ((sideRel ds e.side).boxes.getD e.index boxDflt).lo.x <
      ((sideRel ds e.side).boxes.getD e.index boxDflt).hi.x ∧
    (e.kind = .Start → e = startEv (sideRel ds e.side) e.side e.index) ∧
    (e.kind = .End → e = endEv (sideRel ds e.side) e.side e.index) := by
  rw [(buildSweepEvents_perm ds tb).mem_iff, List.mem_append] at hmem
  rcases hmem with hm | hm
  · obtain ⟨i, hi, hp, hor⟩ := (mem_relationEvents ds.R .R e).1 hm
    rcases hor with rfl | rfl
    · exact ⟨hi, hp, fun _ => rfl, fun hc => EventKind.noConfusion hc⟩
    · exact ⟨hi, hp, fun hc => EventKind.noConfusion hc, fun _ => rfl⟩
  · obtain ⟨i, hi, hp, hor⟩ := (mem_relationEvents ds.S .S e).1 hm
    rcases hor with rfl | rfl
    · exact ⟨hi, hp, fun _ => rfl, fun hc => EventKind.noConfusion hc⟩
    · exact ⟨hi, hp, fun hc => EventKind.noConfusion hc, fun _ => rfl⟩

lemma mem_append_single_iff {α : Type} (l : List α) (a x : α) :
    x ∈ l ++ [a] ↔ x ∈ l ∨ x = a := by
  simp [List.mem_append]

lemma startEv_ne_endEv (rel rel' : Relation) (side side' : Side) (i i' : ℕ) :
    startEv rel side i ≠ endEv rel' side' i' := by
  intro h
  exact EventKind.noConfusion (congrArg Event.kind h)

lemma startEv_eq_iff_index (rel : Relation) (side : Side) (i j : ℕ) :
    startEv rel side i = startEv rel side j ↔ i = j := by
  constructor
  · intro h
    exact congrArg Event.index h
  · intro h
    rw [h]

lemma endEv_eq_iff_index (rel : Relation) (side : Side) (i j : ℕ) :
    endEv rel side i = endEv rel side j ↔ i = j := by
  constructor
  · intro h
    exact congrArg Event.index h
  · intro h
    rw [h]

lemma ev_side_ne {rel rel' : Relation} {side side' : Side} {i i' : ℕ}
    (h : side ≠ side') :
    startEv rel side i ≠ startEv rel' side' i' ∧
    startEv rel side i ≠ endEv rel' side' i' ∧
    endEv rel side i ≠ startEv rel' side' i' ∧
    endEv rel side i ≠ endEv rel' side' i' := by
  refine ⟨?_, ?_, ?_, ?_⟩ <;> intro hc <;> exact h (congrArg Event.side hc)

/-- Sweep invariant: after processing the prefix `done` of the sorted event
list, both active indexes hold exactly the boxes whose Start has been seen
but whose End has not, and `W` is the exact running sum of the order-level
weights of the processed Start events. -/
def SweepInv (ds : Dataset) (ctx : Ctx) (done : List Event) (st : CountState) :
    Prop :=
  ∃ actsR actsS : List ℕ,
    actsR.Nodup ∧ actsS.Nodup ∧
    (∀ i, i ∈ actsR ↔ (i < ds.R.boxes.length ∧
      startEv ds.R .R i ∈ done ∧ endEv ds.R .R i ∉ done)) ∧
    (∀ i, i ∈ actsS ↔ (i < ds.S.boxes.length ∧
      startEv ds.S .S i ∈ done ∧ endEv ds.S .S i ∉ done)) ∧
    AInv ctx.m (pow2ge ctx.m) (yloF ctx .R) (yhiF ctx .R) actsR st.aR ∧
    AInv ctx.m (pow2ge ctx.m) (yloF ctx .S) (yhiF ctx .S) actsS st.aS ∧
    st.W = specWsum ds done

lemma SweepInv_init (ds : Dataset) (ctx : Ctx) :
    SweepInv ds ctx [] (initCountState ctx) := by
  refine ⟨[], [], List.nodup_nil, List.nodup_nil, ?_, ?_, ?_, ?_, rfl⟩
  · intro i
    simp
  · intro i
    simp
  · exact AInv_init ctx.m _ _ _
  · exact AInv_init ctx.m _ _ _

lemma SweepInv_step (ds : Dataset) (ctx : Ctx) (hv : ds.ValidateProper = true)
    (hok : buildCtx ds = .ok ctx) (done rest : List Event) (e : Event)
    (sid? : Option ℕ) (hsplit : ctx.evs = done ++ e :: rest) (st : CountState)
    (inv : SweepInv ds ctx done st) :
    SweepInv ds ctx (done ++ [e]) (countStep ctx st (e, sid?)) := by
  obtain ⟨actsR, actsS, hndR, hndS, hiffR, hiffS, hAR, hAS, hW⟩ := inv
  obtain ⟨hszR, hszS, hds, hevs, -, -, -, -, -, -, hmeq, hmpos⟩ :=
    buildCtx_ok_inv ds ctx hok
  have hmp : ctx.m ≤ pow2ge ctx.m := le_pow2ge ctx.m
  have hp1 : 1 ≤ pow2ge ctx.m := one_le_pow2ge ctx.m
  have hsorted : (done ++ e :: rest).Sorted (EventLe .RBeforeS) := by
    rw [← hsplit, hevs]
    exact sorted_buildSweepEvents ds .RBeforeS
  have hnodup : (done ++ e :: rest).Nodup := by
    rw [← hsplit, hevs]
    exact buildSweepEvents_nodup ds .RBeforeS
  have hpref : ∀ a ∈ done ++ e :: rest, (a ∈ done ↔ KeyLt .RBeforeS a e) :=
    sorted_nodup_prefix_mem .RBeforeS done rest e hsorted hnodup
  have hemid : e ∈ done ++ e :: rest :=
    List.mem_append.2 (Or.inr (List.mem_cons_self e rest))
  have henotdone : e ∉ done := fun hc =>
    keyLt_irrefl .RBeforeS e ((hpref e hemid).1 hc)
  have hemem : e ∈ BuildSweepEvents ds .RBeforeS := by
    rw [← hevs, hsplit]
    exact hemid
  have hmem_all : ∀ (side : Side) (j : ℕ), j < (sideRel ds side).boxes.length →
      startEv (sideRel ds side) side j ∈ done ++ e :: rest ∧
      endEv (sideRel ds side) side j ∈ done ++ e :: rest := by
    intro side j hj
    have hv2 := ev_mem_evs ds hv .RBeforeS side j hj
    rw [← hevs, hsplit] at hv2
    exact hv2
  have hEvR : ∀ j, j < ds.R.boxes.length →
      startEv ds.R .R j ∈ done ++ e :: rest ∧
      endEv ds.R .R j ∈ done ++ e :: rest :=
    fun j hj => hmem_all .R j hj
  have hEvS : ∀ j, j < ds.S.boxes.length →
      startEv ds.S .S j ∈ done ++ e :: rest ∧
      endEv ds.S .S j ∈ done ++ e :: rest :=
    fun j hj => hmem_all .S j hj
  have hactive_iff : ∀ (side : Side) (j : ℕ), j < (sideRel ds side).boxes.length →
      ((startEv (sideRel ds side) side j ∈ done ∧
        endEv (sideRel ds side) side j ∉ done) ↔
      (KeyLt .RBeforeS (startEv (sideRel ds side) side j) e ∧
        ¬ KeyLt .RBeforeS (endEv (sideRel ds side) side j) e)) := by
    intro side j hj
    obtain ⟨h1, h2⟩ := hmem_all side j hj
    rw [hpref _ h1, hpref _ h2]
  have hchar := ev_char ds .RBeforeS e hemem
  obtain ⟨ex, ekind, eside, eid, eidx⟩ := e
  cases ekind
  case End =>
    have hWnew : specWsum ds (done ++ [⟨ex, .End, eside, eid, eidx⟩]) =
        specWsum ds done := by
      rw [specWsum_append_one]
      simp
    cases eside
    case R =>
      have he_eq : (⟨ex, .End, .R, eid, eidx⟩ : Event) = endEv ds.R .R eidx :=
        hchar.2.2.2 rfl
      have hidx : eidx < ds.R.boxes.length := hchar.1
      have hxp : (ds.R.boxes.getD eidx boxDflt).lo.x <
          (ds.R.boxes.getD eidx boxDflt).hi.x := hchar.2.1
      have hstep : countStep ctx st (⟨ex, .End, .R, eid, eidx⟩, sid?) =
          { st with aR := st.aR.erase eidx } := rfl
      rw [hstep]
      have hlh := (ranks_good ds ctx hv hok .R eidx hidx).1
      have hmemR : eidx ∈ actsR := by
        rw [hiffR eidx]
        refine ⟨hidx, ?_, ?_⟩
        · rw [hpref _ (hEvR eidx hidx).1, he_eq]
          exact (keyLt_start_end .RBeforeS _ _ rfl rfl).2 hxp
        · rw [← he_eq]
          exact henotdone
      refine ⟨actsR.erase eidx, actsS, hndR.erase eidx, hndS, ?_, ?_, ?_, ?_, ?_⟩
      · intro i
        rw [List.Nodup.mem_erase_iff hndR, hiffR i,
          mem_append_single_iff, mem_append_single_iff]
        constructor
        · rintro ⟨hne, h1, h2, h3⟩
          refine ⟨h1, Or.inl h2, ?_⟩
          rintro (hc | hc)
          · exact h3 hc
          · rw [he_eq, endEv_eq_iff_index] at hc
            exact hne hc
        · rintro ⟨h1, h2, h3⟩
          rcases h2 with h2 | h2
          swap
          · rw [he_eq] at h2
            exact absurd h2 (startEv_ne_endEv _ _ _ _ _ _)
          refine ⟨?_, h1, h2, fun hc => h3 (Or.inl hc)⟩
          intro hc
          subst hc
          exact h3 (Or.inr he_eq.symm)
      · intro i
        rw [hiffS i, mem_append_single_iff, mem_append_single_iff]
        have hs1 : startEv ds.S .S i ≠ ⟨ex, .End, .R, eid, eidx⟩ := by
          rw [he_eq]
          exact (ev_side_ne (show Side.S ≠ Side.R from fun hc =>
            Side.noConfusion hc)).2.1
        have hs2 : endEv ds.S .S i ≠ ⟨ex, .End, .R, eid, eidx⟩ := by
          rw [he_eq]
          exact (ev_side_ne (show Side.S ≠ Side.R from fun hc =>
            Side.noConfusion hc)).2.2.2
        constructor
        · rintro ⟨h1, h2, h3⟩
          refine ⟨h1, Or.inl h2, ?_⟩
          rintro (hc | hc)
          · exact h3 hc
          · exact hs2 hc
        · rintro ⟨h1, h2, h3⟩
          rcases h2 with h2 | h2
          · exact ⟨h1, h2, fun hc => h3 (Or.inl hc)⟩
          · exact absurd h2 hs1
      · exact AInv_erase ctx.m (pow2ge ctx.m) _ _ actsR st.aR hAR eidx hmemR hndR
          hlh hp1
      · exact hAS
      · rw [hWnew]
        exact hW
    case S =>
      have he_eq : (⟨ex, .End, .S, eid, eidx⟩ : Event) = endEv ds.S .S eidx :=
        hchar.2.2.2 rfl
      have hidx : eidx < ds.S.boxes.length := hchar.1
      have hxp : (ds.S.boxes.getD eidx boxDflt).lo.x <
          (ds.S.boxes.getD eidx boxDflt).hi.x := hchar.2.1
      have hstep : countStep ctx st (⟨ex, .End, .S, eid, eidx⟩, sid?) =
          { st with aS := st.aS.erase eidx } := rfl
      rw [hstep]
      have hlh := (ranks_good ds ctx hv hok .S eidx hidx).1
      have hmemS : eidx ∈ actsS := by
        rw [hiffS eidx]
        refine ⟨hidx, ?_, ?_⟩
        · rw [hpref _ (hEvS eidx hidx).1, he_eq]
          exact (keyLt_start_end .RBeforeS _ _ rfl rfl).2 hxp
        · rw [← he_eq]
          exact henotdone
      refine ⟨actsR, actsS.erase eidx, hndR, hndS.erase eidx, ?_, ?_, ?_, ?_, ?_⟩
      · intro i
        rw [hiffR i, mem_append_single_iff, mem_append_single_iff]
        have hs1 : startEv ds.R .R i ≠ ⟨ex, .End, .S, eid, eidx⟩ := by
          rw [he_eq]
          exact (ev_side_ne (show Side.R ≠ Side.S from fun hc =>
            Side.noConfusion hc)).2.1
        have hs2 : endEv ds.R .R i ≠ ⟨ex, .End, .S, eid, eidx⟩ := by
          rw [he_eq]
          exact (ev_side_ne (show Side.R ≠ Side.S from fun hc =>
            Side.noConfusion hc)).2.2.2
        constructor
        · rintro ⟨h1, h2, h3⟩
          refine ⟨h1, Or.inl h2, ?_⟩
          rintro (hc | hc)
          · exact h3 hc
          · exact hs2 hc
        · rintro ⟨h1, h2, h3⟩
          rcases h2 with h2 | h2
          · exact ⟨h1, h2, fun hc => h3 (Or.inl hc)⟩
          · exact absurd h2 hs1
      · intro i
        rw [List.Nodup.mem_erase_iff hndS, hiffS i,
          mem_append_single_iff, mem_append_single_iff]
        constructor
        · rintro ⟨hne, h1, h2, h3⟩
          refine ⟨h1, Or.inl h2, ?_⟩
          rintro (hc | hc)
          · exact h3 hc
          · rw [he_eq, endEv_eq_iff_index] at hc
            exact hne hc
        · rintro ⟨h1, h2, h3⟩
          rcases h2 with h2 | h2
          swap
          · rw [he_eq] at h2
            exact absurd h2 (startEv_ne_endEv _ _ _ _ _ _)
          refine ⟨?_, h1, h2, fun hc => h3 (Or.inl hc)⟩
          intro hc
          subst hc
          exact h3 (Or.inr he_eq.symm)
      · exact hAR
      · exact AInv_erase ctx.m (pow2ge ctx.m) _ _ actsS st.aS hAS eidx hmemS hndS
          hlh hp1
      · rw [hWnew]
        exact hW
  case Start =>
    cases eside
    case R =>
      have he_eq : (⟨ex, .Start, .R, eid, eidx⟩ : Event) = startEv ds.R .R eidx :=
        hchar.2.2.1 rfl
      have hidx : eidx < ds.R.boxes.length := hchar.1
      have hxp : (ds.R.boxes.getD eidx boxDflt).lo.x <
          (ds.R.boxes.getD eidx boxDflt).hi.x := hchar.2.1
      have hstep : countStep ctx st (⟨ex, .Start, .R, eid, eidx⟩, sid?) =
          { st with
            wa := Function.update st.wa (sid?.getD 0)
              (st.aS.countA (yloF ctx .R eidx))
            wb := Function.update st.wb (sid?.getD 0)
              (st.aS.countB (yloF ctx .R eidx) (yhiF ctx .R eidx))
            wt := Function.update st.wt (sid?.getD 0)
              (st.aS.countA (yloF ctx .R eidx) +
               st.aS.countB (yloF ctx .R eidx) (yhiF ctx .R eidx))
            W := add64 st.W
              (st.aS.countA (yloF ctx .R eidx) +
               st.aS.countB (yloF ctx .R eidx) (yhiF ctx .R eidx))
            aR := st.aR.insert eidx (yloF ctx .R eidx) (yhiF ctx .R eidx) } := rfl
      rw [hstep]
      obtain ⟨hq1, hq2, hq3⟩ := ranks_good ds ctx hv hok .R eidx hidx
      have hniR : eidx ∉ actsR := by
        rw [hiffR eidx]
        rintro ⟨-, hc, -⟩
        rw [← he_eq] at hc
        exact henotdone hc
      have hboundsS : ∀ s ∈ actsS, yloF ctx .S s < yhiF ctx .S s ∧
          yhiF ctx .S s ≤ ctx.m := by
        intro s hs
        have hslt := ((hiffS s).1 hs).1
        have := ranks_good ds ctx hv hok .S s hslt
        exact ⟨this.1, this.2.1⟩
      have hw : st.aS.countA (yloF ctx .R eidx) +
          st.aS.countB (yloF ctx .R eidx) (yhiF ctx .R eidx) =
          actsS.countP (fun s => decide (yloF ctx .S s < yhiF ctx .R eidx ∧
            yloF ctx .R eidx < yhiF ctx .S s)) :=
        AInv_weight ctx.m (pow2ge ctx.m) _ _ actsS st.aS hAS
          (yloF ctx .R eidx) (yhiF ctx .R eidx) hq3 hq2 hq1 hmpos hmp hboundsS
      have hw2 : actsS.countP (fun s => decide (yloF ctx .S s < yhiF ctx .R eidx ∧
            yloF ctx .R eidx < yhiF ctx .S s)) =
          (List.range ds.S.boxes.length).countP (fun s =>
            decide (yloF ctx .S s < yhiF ctx .R eidx ∧
              yloF ctx .R eidx < yhiF ctx .S s) &&
            decide (startEv ds.S .S s ∈ done ∧ endEv ds.S .S s ∉ done)) := by
        apply countP_of_mem_iff actsS hndS
        intro x
        rw [hiffS x]
        constructor
        · rintro ⟨h1, h2, h3⟩
          exact ⟨h1, by simp [h2, h3]⟩
        · rintro ⟨h1, h2⟩
          simp at h2
          exact ⟨h1, h2.1, h2.2⟩
      have hw3 : (List.range ds.S.boxes.length).countP (fun s =>
            decide (yloF ctx .S s < yhiF ctx .R eidx ∧
              yloF ctx .R eidx < yhiF ctx .S s) &&
            decide (startEv ds.S .S s ∈ done ∧ endEv ds.S .S s ∉ done)) =
          (List.range ds.S.boxes.length).countP (fun s => pairPredRS ds eidx s) := by
        apply List.countP_congr
        intro s hs
        rw [List.mem_range] at hs
        rw [Bool.and_eq_true, decide_eq_true_eq, decide_eq_true_eq]
        rw [pairPredRS]
        simp only [Bool.and_eq_true, decide_eq_true_eq]
        rw [eventLess_iff, eventLess_iff]
        have hov := rank_overlap_iff ds ctx hv hok .S .R s eidx hs hidx
        have hseR : startEv ds.S .S s ∈ done ↔
            KeyLt .RBeforeS (startEv ds.S .S s) (⟨ex, .Start, .R, eid, eidx⟩ : Event) :=
          hpref _ (hEvS s hs).1
        have heeR : endEv ds.S .S s ∈ done ↔
            KeyLt .RBeforeS (endEv ds.S .S s) (⟨ex, .Start, .R, eid, eidx⟩ : Event) :=
          hpref _ (hEvS s hs).2
        have hnee : (⟨ex, .Start, .R, eid, eidx⟩ : Event) ≠ endEv ds.S .S s := by
          intro hc
          exact EventKind.noConfusion (congrArg Event.kind hc)
        have hiff2 : ¬ KeyLt .RBeforeS (endEv ds.S .S s)
              (⟨ex, .Start, .R, eid, eidx⟩ : Event) ↔
            KeyLt .RBeforeS (⟨ex, .Start, .R, eid, eidx⟩ : Event)
              (endEv ds.S .S s) := by
          constructor
          · intro h
            rcases keyLt_connex .RBeforeS _ _ hnee with h2 | h2
            · exact h2
            · exact absurd h2 h
          · intro h hc
            exact keyLt_asymm _ _ _ h hc
        rw [he_eq] at hseR heeR hiff2
        constructor
        · rintro ⟨hov', hin, hnotin⟩
          refine ⟨⟨⟨hseR.1 hin, ?_⟩, ?_⟩, ?_⟩
          · exact hiff2.1 (fun hc => hnotin (heeR.2 hc))
          · exact (hov.1 hov').1
          · exact (hov.1 hov').2
        · rintro ⟨⟨⟨h1, h2⟩, h3⟩, h4⟩
          refine ⟨hov.2 ⟨h3, h4⟩, hseR.2 h1, fun hc => ?_⟩
          exact keyLt_asymm _ _ _ h2 (heeR.1 hc)
      have hwspec : st.aS.countA (yloF ctx .R eidx) +
          st.aS.countB (yloF ctx .R eidx) (yhiF ctx .R eidx) =
          specW ds (⟨ex, .Start, .R, eid, eidx⟩ : Event) := by
        rw [hw, hw2, hw3]
        rfl
      have hwsum : specWsum ds (done ++ [(⟨ex, .Start, .R, eid, eidx⟩ : Event)]) =
          specWsum ds done + specW ds (⟨ex, .Start, .R, eid, eidx⟩ : Event) := by
        rw [specWsum_append_one]
        simp
      have hbound : specWsum ds done +
          specW ds (⟨ex, .Start, .R, eid, eidx⟩ : Event) < U64MOD := by
        have h1 : specWsum ds (done ++ [(⟨ex, .Start, .R, eid, eidx⟩ : Event)]) ≤
            specWsum ds (BuildSweepEvents ds .RBeforeS) := by
          have h2 := specWsum_le_append ds
            (done ++ [(⟨ex, .Start, .R, eid, eidx⟩ : Event)]) rest
          rw [List.append_assoc] at h2
          rw [← hevs, hsplit]
          exact h2
        rw [hwsum] at h1
        have h3 := specWsum_eq_countNaive ds hv
        have h4 := countNaive_le_mul ds
        have h5 : ds.R.boxes.length * ds.S.boxes.length ≤ U32MAX * U32MAX :=
          Nat.mul_le_mul hszR hszS
        have h6 : U32MAX * U32MAX < U64MOD := by
          rw [U32MAX, U64MOD]
          norm_num
        omega
      have hWfin : add64 st.W
          (st.aS.countA (yloF ctx .R eidx) +
            st.aS.countB (yloF ctx .R eidx) (yhiF ctx .R eidx)) =
          specWsum ds (done ++ [(⟨ex, .Start, .R, eid, eidx⟩ : Event)]) := by
        rw [hwspec, hW, add64, wrap64, Nat.mod_eq_of_lt hbound, hwsum]
      refine ⟨eidx :: actsR, actsS, ?_, hndS, ?_, ?_, ?_, ?_, ?_⟩
      · exact List.nodup_cons.2 ⟨hniR, hndR⟩
      · intro i
        rw [List.mem_cons, hiffR i, mem_append_single_iff, mem_append_single_iff]
        have hendne : ∀ k : ℕ, endEv ds.R .R k ≠ (⟨ex, .Start, .R, eid, eidx⟩ : Event) := by
          intro k hc
          exact EventKind.noConfusion (congrArg Event.kind hc)
        constructor
        · rintro (heq | ⟨h1, h2, h3⟩)
          · rw [heq]
            refine ⟨hidx, Or.inr he_eq.symm, ?_⟩
            rintro (hc | hc)
            · have hkey : KeyLt .RBeforeS (⟨ex, .Start, .R, eid, eidx⟩ : Event)
                  (endEv ds.R .R eidx) := by
                rw [he_eq]
                exact (keyLt_start_end .RBeforeS _ _ rfl rfl).2 hxp
              have := (hpref _ (hEvR eidx hidx).2).1 hc
              exact keyLt_asymm _ _ _ hkey this
            · exact hendne eidx hc
          · refine ⟨h1, Or.inl h2, ?_⟩
            rintro (hc | hc)
            · exact h3 hc
            · exact hendne i hc
        · rintro ⟨h1, h2, h3⟩
          rcases h2 with h2 | h2
          · right
            refine ⟨h1, h2, fun hc => h3 (Or.inl hc)⟩
          · left
            rw [he_eq, startEv_eq_iff_index] at h2
            exact h2
      · intro i
        rw [hiffS i, mem_append_single_iff, mem_append_single_iff]
        have hs1 : startEv ds.S .S i ≠ (⟨ex, .Start, .R, eid, eidx⟩ : Event) := by
          rw [he_eq]
          exact (ev_side_ne (show Side.S ≠ Side.R from fun hc =>
            Side.noConfusion hc)).1
        have hs2 : endEv ds.S .S i ≠ (⟨ex, .Start, .R, eid, eidx⟩ : Event) := by
          rw [he_eq]
          exact (ev_side_ne (show Side.S ≠ Side.R from fun hc =>
            Side.noConfusion hc)).2.2.1
        constructor
        · rintro ⟨h1, h2, h3⟩
          refine ⟨h1, Or.inl h2, ?_⟩
          rintro (hc | hc)
          · exact h3 hc
          · exact hs2 hc
        · rintro ⟨h1, h2, h3⟩
          rcases h2 with h2 | h2
          · exact ⟨h1, h2, fun hc => h3 (Or.inl hc)⟩
          · exact absurd h2 hs1
      · exact AInv_insert ctx.m (pow2ge ctx.m) _ _ actsR st.aR hAR eidx hniR
          hmpos hq1 hq2
      · exact hAS
      · exact hWfin
    case S =>
      have he_eq : (⟨ex, .Start, .S, eid, eidx⟩ : Event) = startEv ds.S .S eidx :=
        hchar.2.2.1 rfl
      have hidx : eidx < ds.S.boxes.length := hchar.1
      have hxp : (ds.S.boxes.getD eidx boxDflt).lo.x <
          (ds.S.boxes.getD eidx boxDflt).hi.x := hchar.2.1
      have hstep : countStep ctx st (⟨ex, .Start, .S, eid, eidx⟩, sid?) =
          { st with
            wa := Function.update st.wa (sid?.getD 0)
              (st.aR.countA (yloF ctx .S eidx))
            wb := Function.update st.wb (sid?.getD 0)
              (st.aR.countB (yloF ctx .S eidx) (yhiF ctx .S eidx))
            wt := Function.update st.wt (sid?.getD 0)
              (st.aR.countA (yloF ctx .S eidx) +
               st.aR.countB (yloF ctx .S eidx) (yhiF ctx .S eidx))
            W := add64 st.W
              (st.aR.countA (yloF ctx .S eidx) +
               st.aR.countB (yloF ctx .S eidx) (yhiF ctx .S eidx))
            aS := st.aS.insert eidx (yloF ctx .S eidx) (yhiF ctx .S eidx) } := rfl
      rw [hstep]
      obtain ⟨hq1, hq2, hq3⟩ := ranks_good ds ctx hv hok .S eidx hidx
      have hniS : eidx ∉ actsS := by
        rw [hiffS eidx]
        rintro ⟨-, hc, -⟩
        rw [← he_eq] at hc
        exact henotdone hc
      have hboundsR : ∀ s ∈ actsR, yloF ctx .R s < yhiF ctx .R s ∧
          yhiF ctx .R s ≤ ctx.m := by
        intro s hs
        have hslt := ((hiffR s).1 hs).1
        have := ranks_good ds ctx hv hok .R s hslt
        exact ⟨this.1, this.2.1⟩
      have hw : st.aR.countA (yloF ctx .S eidx) +
          st.aR.countB (yloF ctx .S eidx) (yhiF ctx .S eidx) =
          actsR.countP (fun s => decide (yloF ctx .R s < yhiF ctx .S eidx ∧
            yloF ctx .S eidx < yhiF ctx .R s)) :=
        AInv_weight ctx.m (pow2ge ctx.m) _ _ actsR st.aR hAR
          (yloF ctx .S eidx) (yhiF ctx .S eidx) hq3 hq2 hq1 hmpos hmp hboundsR
      have hw2 : actsR.countP (fun s => decide (yloF ctx .R s < yhiF ctx .S eidx ∧
            yloF ctx .S eidx < yhiF ctx .R s)) =
          (List.range ds.R.boxes.length).countP (fun s =>
            decide (yloF ctx .R s < yhiF ctx .S eidx ∧
              yloF ctx .S eidx < yhiF ctx .R s) &&
            decide (startEv ds.R .R s ∈ done ∧ endEv ds.R .R s ∉ done)) := by
        apply countP_of_mem_iff actsR hndR
        intro x
        rw [hiffR x]
        constructor
        · rintro ⟨h1, h2, h3⟩
          exact ⟨h1, by simp [h2, h3]⟩
        · rintro ⟨h1, h2⟩
          simp at h2
          exact ⟨h1, h2.1, h2.2⟩
      have hw3 : (List.range ds.R.boxes.length).countP (fun s =>
            decide (yloF ctx .R s < yhiF ctx .S eidx ∧
              yloF ctx .S eidx < yhiF ctx .R s) &&
            decide (startEv ds.R .R s ∈ done ∧ endEv ds.R .R s ∉ done)) =
          (List.range ds.R.boxes.length).countP (fun s => pairPredSR ds eidx s) := by
        apply List.countP_congr
        intro s hs
        rw [List.mem_range] at hs
        rw [Bool.and_eq_true, decide_eq_true_eq, decide_eq_true_eq]
        rw [pairPredSR]
        simp only [Bool.and_eq_true, decide_eq_true_eq]
        rw [eventLess_iff, eventLess_iff]
        have hov := rank_overlap_iff ds ctx hv hok .R .S s eidx hs hidx
        have hseR : startEv ds.R .R s ∈ done ↔
            KeyLt .RBeforeS (startEv ds.R .R s) (⟨ex, .Start, .S, eid, eidx⟩ : Event) :=
          hpref _ (hEvR s hs).1
        have heeR : endEv ds.R .R s ∈ done ↔
            KeyLt .RBeforeS (endEv ds.R .R s) (⟨ex, .Start, .S, eid, eidx⟩ : Event) :=
          hpref _ (hEvR s hs).2
        have hnee : (⟨ex, .Start, .S, eid, eidx⟩ : Event) ≠ endEv ds.R .R s := by
          intro hc
          exact EventKind.noConfusion (congrArg Event.kind hc)
        have hiff2 : ¬ KeyLt .RBeforeS (endEv ds.R .R s)
              (⟨ex, .Start, .S, eid, eidx⟩ : Event) ↔
            KeyLt .RBeforeS (⟨ex, .Start, .S, eid, eidx⟩ : Event)
              (endEv ds.R .R s) := by
          constructor
          · intro h
            rcases keyLt_connex .RBeforeS _ _ hnee with h2 | h2
            · exact h2
            · exact absurd h2 h
          · intro h hc
            exact keyLt_asymm _ _ _ h hc
        rw [he_eq] at hseR heeR hiff2
        constructor
        · rintro ⟨hov', hin, hnotin⟩
          refine ⟨⟨⟨hseR.1 hin, ?_⟩, ?_⟩, ?_⟩
          · exact hiff2.1 (fun hc => hnotin (heeR.2 hc))
          · exact (hov.1 hov').1
          · exact (hov.1 hov').2
        · rintro ⟨⟨⟨h1, h2⟩, h3⟩, h4⟩
          refine ⟨hov.2 ⟨h3, h4⟩, hseR.2 h1, fun hc => ?_⟩
          exact keyLt_asymm _ _ _ h2 (heeR.1 hc)
      have hwspec : st.aR.countA (yloF ctx .S eidx) +
          st.aR.countB (yloF ctx .S eidx) (yhiF ctx .S eidx) =
          specW ds (⟨ex, .Start, .S, eid, eidx⟩ : Event) := by
        rw [hw, hw2, hw3]
        rfl
      have hwsum : specWsum ds (done ++ [(⟨ex, .Start, .S, eid, eidx⟩ : Event)]) =
          specWsum ds done + specW ds (⟨ex, .Start, .S, eid, eidx⟩ : Event) := by
        rw [specWsum_append_one]
        simp
      have hbound : specWsum ds done +
          specW ds (⟨ex, .Start, .S, eid, eidx⟩ : Event) < U64MOD := by
        have h1 : specWsum ds (done ++ [(⟨ex, .Start, .S, eid, eidx⟩ : Event)]) ≤
            specWsum ds (BuildSweepEvents ds .RBeforeS) := by
          have h2 := specWsum_le_append ds
            (done ++ [(⟨ex, .Start, .S, eid, eidx⟩ : Event)]) rest
          rw [List.append_assoc] at h2
          rw [← hevs, hsplit]
          exact h2
        rw [hwsum] at h1
        have h3 := specWsum_eq_countNaive ds hv
        have h4 := countNaive_le_mul ds
        have h5 : ds.R.boxes.length * ds.S.boxes.length ≤ U32MAX * U32MAX :=
          Nat.mul_le_mul hszR hszS
        have h6 : U32MAX * U32MAX < U64MOD := by
          rw [U32MAX, U64MOD]
          norm_num
        omega
      have hWfin : add64 st.W
          (st.aR.countA (yloF ctx .S eidx) +
            st.aR.countB (yloF ctx .S eidx) (yhiF ctx .S eidx)) =
          specWsum ds (done ++ [(⟨ex, .Start, .S, eid, eidx⟩ : Event)]) := by
        rw [hwspec, hW, add64, wrap64, Nat.mod_eq_of_lt hbound, hwsum]
      refine ⟨actsR, eidx :: actsS, hndR, ?_, ?_, ?_, ?_, ?_, ?_⟩
      · exact List.nodup_cons.2 ⟨hniS, hndS⟩
      · intro i
        rw [hiffR i, mem_append_single_iff, mem_append_single_iff]
        have hs1 : startEv ds.R .R i ≠ (⟨ex, .Start, .S, eid, eidx⟩ : Event) := by
          rw [he_eq]
          exact (ev_side_ne (show Side.R ≠ Side.S from fun hc =>
            Side.noConfusion hc)).1
        have hs2 : endEv ds.R .R i ≠ (⟨ex, .Start, .S, eid, eidx⟩ : Event) := by
          rw [he_eq]
          exact (ev_side_ne (show Side.R ≠ Side.S from fun hc =>
            Side.noConfusion hc)).2.2.1
        constructor
        · rintro ⟨h1, h2, h3⟩
          refine ⟨h1, Or.inl h2, ?_⟩
          rintro (hc | hc)
          · exact h3 hc
          · exact hs2 hc
        · rintro ⟨h1, h2, h3⟩
          rcases h2 with h2 | h2
          · exact ⟨h1, h2, fun hc => h3 (Or.inl hc)⟩
          · exact absurd h2 hs1
      · intro i
        rw [List.mem_cons, hiffS i, mem_append_single_iff, mem_append_single_iff]
        have hendne : ∀ k : ℕ, endEv ds.S .S k ≠ (⟨ex, .Start, .S, eid, eidx⟩ : Event) := by
          intro k hc
          exact EventKind.noConfusion (congrArg Event.kind hc)
        constructor
        · rintro (heq | ⟨h1, h2, h3⟩)
          · rw [heq]
            refine ⟨hidx, Or.inr he_eq.symm, ?_⟩
            rintro (hc | hc)
            · have hkey : KeyLt .RBeforeS (⟨ex, .Start, .S, eid, eidx⟩ : Event)
                  (endEv ds.S .S eidx) := by
                rw [he_eq]
                exact (keyLt_start_end .RBeforeS _ _ rfl rfl).2 hxp
              have := (hpref _ (hEvS eidx hidx).2).1 hc
              exact keyLt_asymm _ _ _ hkey this
            · exact hendne eidx hc
          · refine ⟨h1, Or.inl h2, ?_⟩
            rintro (hc | hc)
            · exact h3 hc
            · exact hendne i hc
        · rintro ⟨h1, h2, h3⟩
          rcases h2 with h2 | h2
          · right
            refine ⟨h1, h2, fun hc => h3 (Or.inl hc)⟩
          · left
            rw [he_eq, startEv_eq_iff_index] at h2
            exact h2
      · exact hAR
      · exact AInv_insert ctx.m (pow2ge ctx.m) _ _ actsS st.aS hAS eidx hniS
          hmpos hq1 hq2
      · exact hWfin

lemma SweepInv_foldl (ds : Dataset) (ctx : Ctx) (hv : ds.ValidateProper = true)
    (hok : buildCtx ds = .ok ctx) :
    ∀ (PL : List (Event × Option ℕ)) (done : List Event) (st : CountState),
      SweepInv ds ctx done st →
      ctx.evs = done ++ PL.map Prod.fst →
      SweepInv ds ctx (done ++ PL.map Prod.fst) (PL.foldl (countStep ctx) st) := by
  intro PL
  induction PL with
  | nil =>
    intro done st hinv hsplit
    simpa using hinv
  | cons p PL ih =>
    intro done st hinv hsplit
    obtain ⟨e, sid?⟩ := p
    simp only [List.map_cons] at hsplit ⊢
    have hstep := SweepInv_step ds ctx hv hok done (PL.map Prod.fst) e sid?
      hsplit st hinv
    have hsplit2 : ctx.evs = (done ++ [e]) ++ PL.map Prod.fst := by
      rw [hsplit, List.append_assoc]
      rfl
    have hrec := ih (done ++ [e]) _ hstep hsplit2
    rw [List.foldl_cons]
    have hli : done ++ e :: PL.map Prod.fst = (done ++ [e]) ++ PL.map Prod.fst := by
      rw [List.append_assoc]
      rfl
    rw [hli]
    exact hrec

lemma startIdsGo_length (l : List Event) : ∀ c, (startIdsGo l c).length = l.length := by
  induction l with
  | nil =>
    intro c
    rfl
  | cons e l ih =>
    intro c
    cases hk : e.kind <;> simp [startIdsGo, hk, ih]

/-- Pass 1 of Framework II computes exactly the naive join count (no
wrap-around occurs for a validated, successfully built dataset). -/
lemma samplingCount_W_eq (ds : Dataset) (ctx : Ctx) (hv : ds.ValidateProper = true)
    (hok : buildCtx ds = .ok ctx) :
    (samplingCount ctx).W = CountNaive ds.R ds.S := by
  obtain ⟨-, -, -, hevs, hsid, -, -, -, -, -, -, -⟩ := buildCtx_ok_inv ds ctx hok
  have hlen : ctx.evs.length ≤ ctx.startIds.length := by
    rw [hsid, startIdsGo_length]
  have hfst : (ctx.evs.zip ctx.startIds).map Prod.fst = ctx.evs :=
    List.map_fst_zip _ _ hlen
  have h := SweepInv_foldl ds ctx hv hok (ctx.evs.zip ctx.startIds) []
    (initCountState ctx) (SweepInv_init ds ctx) (by rw [hfst]; rfl)
  obtain ⟨-, -, -, -, -, -, -, -, hW⟩ := h
  rw [samplingCount, hW]
  rw [List.nil_append, hfst, hevs]
  exact specWsum_eq_countNaive ds hv

/-! ### Slot-plan conservation (`BuildSlotPlan2D`) -/

lemma mul64_lt (a b : ℕ) : mul64 a b < U64MOD := by
  apply Nat.mod_lt
  rw [U64MOD]
  norm_num

lemma rng_nextU64_lt (g : Rng) : (g.nextU64).1 < U64MOD := by
  show mul64 _ _ < U64MOD
  exact mul64_lt _ _

lemma uniformU64Go_lt (bound threshold : ℕ) (hb : 0 < bound) :
    ∀ fuel (g : Rng), (Rng.uniformU64Go bound threshold fuel g).1 < bound := by
  have key : ∀ g : Rng, ((g.nextU64).1 * bound) >>> 64 < bound := by
    intro g
    have hx := rng_nextU64_lt g
    rw [U64MOD] at hx
    rw [Nat.shiftRight_eq_div_pow]
    rw [Nat.div_lt_iff_lt_mul (by positivity)]
    calc (g.nextU64).1 * bound < 2 ^ 64 * bound :=
        mul_lt_mul_of_pos_right hx hb
      _ = bound * 2 ^ 64 := Nat.mul_comm _ _
  intro fuel
  induction fuel with
  | zero =>
    intro g
    exact key g
  | succ fuel ih =>
    intro g
    simp only [Rng.uniformU64Go]
    split
    · exact key g
    · exact ih _

lemma uniformU64_lt (g : Rng) (bound : ℕ) (hb : 0 < bound) :
    (g.uniformU64 bound).1 < bound := by
  rw [Rng.uniformU64, if_neg (by omega)]
  exact uniformU64Go_lt bound _ hb kUniformFuel g

lemma getD_range (n i : ℕ) (hi : i < n) : (List.range n).getD i 0 = i := by
  rw [List.getD_eq_getElem _ _ (by simpa using hi), List.getElem_range]

lemma buildFromU64_fields (weights : List ℕ) (tbl : AliasTable)
    (h : AliasTable.buildFromU64 weights = .ok tbl) :
    tbl.n = weights.length ∧ (∀ i, i < tbl.n → tbl.aliasIdx.getD i i < tbl.n) := by
  unfold AliasTable.buildFromU64 at h
  by_cases h0 : weights.length = 0
  · rw [if_pos h0, Except.ok.injEq] at h
    subst h
    exact ⟨h0.symm, fun i hi => absurd hi (by simp)⟩
  · rw [if_neg h0] at h
    by_cases hbig : U32MAX < weights.length
    · rw [if_pos hbig] at h
      exact absurd h (by simp)
    · rw [if_neg hbig] at h
      by_cases hsum : weights.sum = 0
      · rw [if_pos hsum, Except.ok.injEq] at h
        subst h
        refine ⟨rfl, ?_⟩
        intro i hi
        simp only [] at hi ⊢
        rw [List.getD_eq_getElem _ _ (by simpa using hi), List.getElem_range]
        exact hi
      · rw [if_neg hsum, Except.ok.injEq] at h
        subst h
        refine ⟨rfl, ?_⟩
        intro i hi
        simp only [] at hi ⊢
        rw [getD_map_lt (List.range weights.length) _ i (by simpa using hi) i 0,
          getD_range weights.length i hi]
        split
        · exact hi
        · omega

lemma aliasSample_lt (tbl : AliasTable) (g : Rng) (hn : 0 < tbl.n)
    (hidx : ∀ i, i < tbl.n → tbl.aliasIdx.getD i i < tbl.n) :
    (tbl.sample g).1 < tbl.n := by
  rw [AliasTable.sample]
  split
  · exact uniformU64_lt g tbl.n hn
  · have hi := uniformU64_lt g tbl.n hn
    simp only []
    split
    · exact hi
    · exact hidx _ hi

lemma planDraws_length (tbl : AliasTable) (wA wB : List ℕ) :
    ∀ k (g : Rng) acc, ((planDraws tbl wA wB k g acc).1).length = acc.length + k := by
  intro k
  induction k with
  | zero =>
    intro g acc
    rfl
  | succ k ih =>
    intro g acc
    simp only [planDraws]
    rw [ih]
    simp
    omega

lemma planDraws_mem (tbl : AliasTable) (wA wB : List ℕ) (hn : 0 < tbl.n)
    (hidx : ∀ i, i < tbl.n → tbl.aliasIdx.getD i i < tbl.n) :
    ∀ k (g : Rng) acc d, d ∈ (planDraws tbl wA wB k g acc).1 →
      d ∈ acc ∨ d.1 < tbl.n := by
  intro k
  induction k with
  | zero =>
    intro g acc d hd
    exact Or.inl hd
  | succ k ih =>
    intro g acc d hd
    simp only [planDraws] at hd
    have := ih _ _ d hd
    rcases this with hmem | hlt
    · rw [List.mem_append] at hmem
      rcases hmem with hmem | hmem
      · exact Or.inl hmem
      · rcases List.mem_cons.1 hmem with rfl | hc
        · exact Or.inr (aliasSample_lt tbl _ hn hidx)
        · simp at hc
    · exact Or.inr hlt

lemma sum_range_ite (v c : ℕ) : ∀ E, v < E →
    ((List.range E).map (fun e => if v = e then c else 0)).sum = c := by
  intro E
  induction E with
  | zero =>
    intro h
    omega
  | succ E ih =>
    intro h
    rw [List.range_succ, List.map_append, List.sum_append]
    by_cases hv : v = E
    · subst hv
      have hz : ((List.range v).map (fun e => if v = e then c else 0)).sum = 0 := by
        have : ∀ e ∈ List.range v, (if v = e then c else 0) = 0 := by
          intro e he
          rw [List.mem_range] at he
          rw [if_neg (by omega)]
        rw [List.map_congr_left this, sum_map_zero]
      rw [hz]
      simp
    · rw [ih (by omega)]
      simp [hv]

lemma sum_planCnt (E : ℕ) (draws : List (ℕ × Bool)) (h : ∀ d ∈ draws, d.1 < E) :
    ((List.range E).map (planCnt draws false)).sum +
    ((List.range E).map (planCnt draws true)).sum = draws.length := by
  induction draws with
  | nil =>
    have hz : ∀ pat : Bool, ((List.range E).map (planCnt [] pat)).sum = 0 := by
      intro pat
      have : ∀ e ∈ List.range E, planCnt [] pat e = 0 := fun e _ => rfl
      rw [List.map_congr_left this, sum_map_zero]
    rw [hz, hz]
    rfl
  | cons d rest ih =>
    have hd := h d (List.mem_cons_self d rest)
    have hrest := fun x hx => h x (List.mem_cons_of_mem d hx)
    have hstep : ∀ (pat : Bool) e, planCnt (d :: rest) pat e =
        planCnt rest pat e + (if d.1 = e ∧ d.2 = pat then 1 else 0) := by
      intro pat e
      rw [planCnt, planCnt, List.countP_cons]
      congr 1
      by_cases h1 : d.1 = e <;> by_cases h2 : d.2 = pat <;> simp [h1, h2]
    have hrw : ∀ pat : Bool, ((List.range E).map (planCnt (d :: rest) pat)).sum =
        ((List.range E).map (planCnt rest pat)).sum +
        ((List.range E).map (fun e => if d.1 = e ∧ d.2 = pat then 1 else 0)).sum := by
      intro pat
      rw [← sum_map_add']
      congr 1
      apply List.map_congr_left
      intro e _
      exact hstep pat e
    rw [hrw, hrw]
    have hone : ∀ pat : Bool, d.2 = pat →
        ((List.range E).map (fun e => if d.1 = e ∧ d.2 = pat then 1 else 0)).sum = 1 := by
      intro pat hpat
      have : ∀ e ∈ List.range E, (if d.1 = e ∧ d.2 = pat then 1 else 0) =
          (if d.1 = e then 1 else 0) := by
        intro e _
        by_cases h1 : d.1 = e <;> simp [h1, hpat]
      rw [List.map_congr_left this]
      exact sum_range_ite d.1 1 E hd
    have hzero : ∀ pat : Bool, d.2 ≠ pat →
        ((List.range E).map (fun e => if d.1 = e ∧ d.2 = pat then 1 else 0)).sum = 0 := by
      intro pat hpat
      have : ∀ e ∈ List.range E, (if d.1 = e ∧ d.2 = pat then 1 else 0) = 0 := by
        intro e _
        rw [if_neg]
        rintro ⟨-, hc⟩
        exact hpat hc
      rw [List.map_congr_left this, sum_map_zero]
    have hlen : (d :: rest).length = rest.length + 1 := rfl
    rw [hlen]
    have := ih hrest
    rcases Bool.eq_false_or_eq_true d.2 with hpat | hpat
    · rw [hzero false (by rw [hpat]; simp), hone true hpat]
      omega
    · rw [hone false hpat, hzero true (by rw [hpat]; exact Bool.false_ne_true)]
      omega

lemma prefixSums_length (cnt : ℕ → ℕ) (E : ℕ) :
    (prefixSums cnt E).length = E + 1 := by
  simp [prefixSums]

lemma prefixSums_getD (cnt : ℕ → ℕ) (E e : ℕ) (he : e ≤ E) :
    (prefixSums cnt E).getD e 0 = ((List.range e).map cnt).sum := by
  rw [prefixSums, getD_map_lt (List.range (E + 1)) _ e (by simp; omega) 0 0,
    getD_range (E + 1) e (by omega)]

lemma partial_sum_mono (cnt : ℕ → ℕ) (a b : ℕ) (h : a ≤ b) :
    ((List.range a).map cnt).sum ≤ ((List.range b).map cnt).sum :=
  sublist_sum_le ((List.range_sublist.2 h).map cnt)

lemma partial_sum_succ (cnt : ℕ → ℕ) (e : ℕ) :
    ((List.range (e + 1)).map cnt).sum = ((List.range e).map cnt).sum + cnt e := by
  rw [List.range_succ, List.map_append, List.sum_append]
  simp

/-- Per-pattern prefix-sum offset of the full draw list. -/
def offF (D : List (ℕ × Bool)) (pat : Bool) (e : ℕ) : ℕ :=
  ((List.range e).map (planCnt D pat)).sum

lemma offF_succ (D : List (ℕ × Bool)) (pat : Bool) (e : ℕ) :
    offF D pat (e + 1) = offF D pat e + planCnt D pat e :=
  partial_sum_succ _ e

lemma offF_mono (D : List (ℕ × Bool)) (pat : Bool) (a b : ℕ) (h : a ≤ b) :
    offF D pat a ≤ offF D pat b :=
  partial_sum_mono _ a b h

lemma planCnt_prefix_le (done rem : List (ℕ × Bool)) (pat : Bool) (e : ℕ) :
    planCnt done pat e ≤ planCnt (done ++ rem) pat e := by
  rw [planCnt, planCnt, List.countP_append]
  omega

lemma window_cover (cnt : ℕ → ℕ) : ∀ E p, p < ((List.range E).map cnt).sum →
    ∃ e, e < E ∧ ((List.range e).map cnt).sum ≤ p ∧
      p < ((List.range (e + 1)).map cnt).sum := by
  intro E
  induction E with
  | zero =>
    intro p hp
    simp at hp
  | succ E ih =>
    intro p hp
    by_cases hlt : p < ((List.range E).map cnt).sum
    · obtain ⟨e, he, h1, h2⟩ := ih p hlt
      exact ⟨e, by omega, h1, h2⟩
    · refine ⟨E, by omega, by omega, hp⟩

lemma countP_range_update_none (f : ℕ → Option ℕ) (q n : ℕ) (hq : q < n)
    (hnone : f q = none) (x : Option ℕ) (v : ℕ) :
    (List.range n).countP (fun p => Function.update f q x p == some v) =
    (List.range n).countP (fun p => f p == some v) +
      (if x == some v then 1 else 0) := by
  have hperm := List.perm_cons_erase (List.mem_range.2 hq)
  rw [hperm.countP_eq, hperm.countP_eq, List.countP_cons, List.countP_cons]
  have hcong : ((List.range n).erase q).countP
        (fun p => Function.update f q x p == some v) =
      ((List.range n).erase q).countP (fun p => f p == some v) := by
    apply List.countP_congr
    intro p hp
    have hpq : p ≠ q := ((List.Nodup.mem_erase_iff (List.nodup_range n)).1 hp).1
    rw [Function.update_noteq hpq]
  rw [hcong, Function.update_same, hnone]
  simp

/-- Invariant of the stable scatter pass: cursors sit at offset plus
processed count, written cells are exactly the window prefixes below the
cursors, and every processed draw index is stored in exactly one cell. -/
lemma fillGo_inv (E : ℕ) (D : List (ℕ × Bool)) (hD : ∀ d ∈ D, d.1 < E) :
    ∀ (rem done : List (ℕ × Bool)) (curA curB : ℕ → ℕ) (slA slB : ℕ → Option ℕ),
      D = done ++ rem →
      (∀ e, e < E → curA e = offF D false e + planCnt done false e) →
      (∀ e, e < E → curB e = offF D true e + planCnt done true e) →
      (∀ p, (slA p).isSome = true ↔
        ∃ e, e < E ∧ offF D false e ≤ p ∧ p < curA e) →
      (∀ p, (slB p).isSome = true ↔
        ∃ e, e < E ∧ offF D true e ≤ p ∧ p < curB e) →
      (∀ v, (List.range (offF D false E)).countP (fun p => slA p == some v) +
            (List.range (offF D true E)).countP (fun p => slB p == some v) =
        if v < done.length then 1 else 0) →
      (∀ v, (List.range (offF D false E)).countP
            (fun p => (fillGo rem done.length curA curB slA slB).1 p == some v) +
          (List.range (offF D true E)).countP
            (fun p => (fillGo rem done.length curA curB slA slB).2 p == some v) =
        if v < D.length then 1 else 0) ∧
      (∀ p, p < offF D false E →
        ((fillGo rem done.length curA curB slA slB).1 p).isSome = true) ∧
      (∀ p, p < offF D true E →
        ((fillGo rem done.length curA curB slA slB).2 p).isSome = true) := by
  intro rem
  induction rem with
  | nil =>
    intro done curA curB slA slB hsplit hA hB hdA hdB hcnt
    rw [List.append_nil] at hsplit
    subst hsplit
    refine ⟨hcnt, ?_, ?_⟩
    · intro p hp
      obtain ⟨e, he, h1, h2⟩ := window_cover (planCnt D false) E p hp
      show (slA p).isSome = true
      rw [hdA p]
      refine ⟨e, he, h1, ?_⟩
      rw [hA e he]
      have := partial_sum_succ (planCnt D false) e
      have h3 : offF D false e = ((List.range e).map (planCnt D false)).sum := rfl
      omega
    · intro p hp
      obtain ⟨e, he, h1, h2⟩ := window_cover (planCnt D true) E p hp
      show (slB p).isSome = true
      rw [hdB p]
      refine ⟨e, he, h1, ?_⟩
      rw [hB e he]
      have := partial_sum_succ (planCnt D true) e
      have h3 : offF D true e = ((List.range e).map (planCnt D true)).sum := rfl
      omega
  | cons d rest ih =>
    obtain ⟨eid, pat⟩ := d
    intro done curA curB slA slB hsplit hA hB hdA hdB hcnt
    have heid : eid < E := by
      have hmem : ((eid, pat) : ℕ × Bool) ∈ D := by
        rw [hsplit]
        exact List.mem_append.2 (Or.inr (List.mem_cons_self _ _))
      exact hD _ hmem
    have hsplit' : D = (done ++ [(eid, pat)]) ++ rest := by
      rw [hsplit, List.append_assoc]
      rfl
    have hlen' : (done ++ [(eid, pat)]).length = done.length + 1 := by simp
    have hcle : ∀ (pat' : Bool) e, planCnt done pat' e ≤ planCnt D pat' e := by
      intro pat' e
      rw [hsplit]
      exact planCnt_prefix_le done _ pat' e
    have hcntA' : ∀ e, planCnt (done ++ [(eid, pat)]) false e =
        planCnt done false e + (if pat = false ∧ e = eid then 1 else 0) := by
      intro e
      rw [planCnt, planCnt, List.countP_append]
      congr 1
      rw [List.countP_singleton]
      by_cases h1 : pat = false <;> by_cases h2 : e = eid <;>
        simp [h1, h2] <;> try omega
    have hcntB' : ∀ e, planCnt (done ++ [(eid, pat)]) true e =
        planCnt done true e + (if pat = true ∧ e = eid then 1 else 0) := by
      intro e
      rw [planCnt, planCnt, List.countP_append]
      congr 1
      rw [List.countP_singleton]
      by_cases h1 : pat = true <;> by_cases h2 : e = eid <;>
        simp [h1, h2] <;> try omega
    rcases Or.symm (Bool.eq_false_or_eq_true pat) with hpat | hpat
    · -- pattern A write
      subst hpat
      have hcntD : planCnt done false eid + 1 ≤ planCnt D false eid := by
        rw [hsplit, planCnt, planCnt, List.countP_append, List.countP_cons]
        simp
      have hstep : fillGo ((eid, false) :: rest) done.length curA curB slA slB =
          fillGo rest (done.length + 1)
            (Function.update curA eid (curA eid + 1)) curB
            (Function.update slA (curA eid) (some done.length)) slB := rfl
      rw [hstep]
      have hqlo : offF D false eid ≤ curA eid := by
        rw [hA eid heid]
        omega
      have hqhi : curA eid < offF D false (eid + 1) := by
        rw [hA eid heid, offF_succ]
        omega
      have hqT : curA eid < offF D false E :=
        lt_of_lt_of_le hqhi (offF_mono D false (eid + 1) E (by omega))
      have hfresh : slA (curA eid) = none := by
        rw [← Option.not_isSome_iff_eq_none, hdA (curA eid)]
        rintro ⟨e, he, h1, h2⟩
        rcases Nat.lt_trichotomy e eid with hlt | rfl | hgt
        · have hm1 : offF D false (e + 1) ≤ offF D false eid :=
            offF_mono D false (e + 1) eid (by omega)
          have hc := hA e he
          have := hcle false e
          have := offF_succ D false e
          omega
        · omega
        · have hm1 : offF D false (eid + 1) ≤ offF D false e :=
            offF_mono D false (eid + 1) e (by omega)
          omega
      have hA' : ∀ e, e < E → Function.update curA eid (curA eid + 1) e =
          offF D false e + planCnt (done ++ [(eid, false)]) false e := by
        intro e he
        rw [hcntA' e]
        by_cases hee : e = eid
        · subst hee
          rw [Function.update_same, hA e he, if_pos ⟨rfl, rfl⟩]
          omega
        · rw [Function.update_noteq hee, hA e he, if_neg (fun hc => hee hc.2)]
          omega
      have hB' : ∀ e, e < E → curB e =
          offF D true e + planCnt (done ++ [(eid, false)]) true e := by
        intro e he
        rw [hcntB' e, hB e he, if_neg (by simp)]
        omega
      have hdA' : ∀ p, (Function.update slA (curA eid) (some done.length) p).isSome
            = true ↔
          ∃ e, e < E ∧ offF D false e ≤ p ∧
            p < Function.update curA eid (curA eid + 1) e := by
        intro p
        by_cases hp : p = curA eid
        · subst hp
          rw [Function.update_same]
          simp only [Option.isSome_some, true_iff]
          exact ⟨eid, heid, hqlo, by rw [Function.update_same]; omega⟩
        · rw [Function.update_noteq hp, hdA p]
          constructor
          · rintro ⟨e, he, h1, h2⟩
            refine ⟨e, he, h1, ?_⟩
            by_cases hee : e = eid
            · subst hee
              rw [Function.update_same]
              omega
            · rw [Function.update_noteq hee]
              exact h2
          · rintro ⟨e, he, h1, h2⟩
            refine ⟨e, he, h1, ?_⟩
            by_cases hee : e = eid
            · subst hee
              rw [Function.update_same] at h2
              omega
            · rw [Function.update_noteq hee] at h2
              exact h2
      have hcnt' : ∀ v, (List.range (offF D false E)).countP
            (fun p => Function.update slA (curA eid) (some done.length) p == some v) +
          (List.range (offF D true E)).countP (fun p => slB p == some v) =
          if v < (done ++ [(eid, false)]).length then 1 else 0 := by
        intro v
        rw [countP_range_update_none slA (curA eid) _ hqT hfresh, hlen']
        have hthis := hcnt v
        by_cases hv : v = done.length
        · subst hv
          rw [if_neg (lt_irrefl _)] at hthis
          have hb : ((some done.length == some done.length) : Bool) = true := by
            simp
          rw [hb, if_pos rfl, if_pos (Nat.lt_succ_self _)]
          omega
        · have hb : ((some done.length == some v) : Bool) = false := by
            simp
            omega
          rw [hb, if_neg (show ¬ (false = true) by simp)]
          by_cases hv2 : v < done.length
          · rw [if_pos hv2] at hthis
            rw [if_pos (show v < done.length + 1 by omega)]
            omega
          · rw [if_neg hv2] at hthis
            rw [if_neg (show ¬ v < done.length + 1 by omega)]
            omega
      have hrec := ih (done ++ [(eid, false)])
        (Function.update curA eid (curA eid + 1)) curB
        (Function.update slA (curA eid) (some done.length)) slB
        hsplit' hA' hB' hdA' hdB hcnt'
      rw [hlen'] at hrec
      exact hrec
    · -- pattern B write
      subst hpat
      have hcntD : planCnt done true eid + 1 ≤ planCnt D true eid := by
        rw [hsplit, planCnt, planCnt, List.countP_append, List.countP_cons]
        simp
      have hstep : fillGo ((eid, true) :: rest) done.length curA curB slA slB =
          fillGo rest (done.length + 1) curA
            (Function.update curB eid (curB eid + 1))
            slA (Function.update slB (curB eid) (some done.length)) := rfl
      rw [hstep]
      have hqlo : offF D true eid ≤ curB eid := by
        rw [hB eid heid]
        omega
      have hqhi : curB eid < offF D true (eid + 1) := by
        rw [hB eid heid, offF_succ]
        omega
      have hqT : curB eid < offF D true E :=
        lt_of_lt_of_le hqhi (offF_mono D true (eid + 1) E (by omega))
      have hfresh : slB (curB eid) = none := by
        rw [← Option.not_isSome_iff_eq_none, hdB (curB eid)]
        rintro ⟨e, he, h1, h2⟩
        rcases Nat.lt_trichotomy e eid with hlt | rfl | hgt
        · have hm1 : offF D true (e + 1) ≤ offF D true eid :=
            offF_mono D true (e + 1) eid (by omega)
          have hc := hB e he
          have := hcle true e
          have := offF_succ D true e
          omega
        · omega
        · have hm1 : offF D true (eid + 1) ≤ offF D true e :=
            offF_mono D true (eid + 1) e (by omega)
          omega
      have hB' : ∀ e, e < E → Function.update curB eid (curB eid + 1) e =
          offF D true e + planCnt (done ++ [(eid, true)]) true e := by
        intro e he
        rw [hcntB' e]
        by_cases hee : e = eid
        · subst hee
          rw [Function.update_same, hB e he, if_pos ⟨rfl, rfl⟩]
          omega
        · rw [Function.update_noteq hee, hB e he, if_neg (fun hc => hee hc.2)]
          omega
      have hA' : ∀ e, e < E → curA e =
          offF D false e + planCnt (done ++ [(eid, true)]) false e := by
        intro e he
        rw [hcntA' e, hA e he, if_neg (by simp)]
        omega
      have hdB' : ∀ p, (Function.update slB (curB eid) (some done.length) p).isSome
            = true ↔
          ∃ e, e < E ∧ offF D true e ≤ p ∧
            p < Function.update curB eid (curB eid + 1) e := by
        intro p
        by_cases hp : p = curB eid
        · subst hp
          rw [Function.update_same]
          simp only [Option.isSome_some, true_iff]
          exact ⟨eid, heid, hqlo, by rw [Function.update_same]; omega⟩
        · rw [Function.update_noteq hp, hdB p]
          constructor
          · rintro ⟨e, he, h1, h2⟩
            refine ⟨e, he, h1, ?_⟩
            by_cases hee : e = eid
            · subst hee
              rw [Function.update_same]
              omega
            · rw [Function.update_noteq hee]
              exact h2
          · rintro ⟨e, he, h1, h2⟩
            refine ⟨e, he, h1, ?_⟩
            by_cases hee : e = eid
            · subst hee
              rw [Function.update_same] at h2
              omega
            · rw [Function.update_noteq hee] at h2
              exact h2
      have hcnt' : ∀ v, (List.range (offF D false E)).countP
            (fun p => slA p == some v) +
          (List.range (offF D true E)).countP
            (fun p => Function.update slB (curB eid) (some done.length) p == some v) =
          if v < (done ++ [(eid, true)]).length then 1 else 0 := by
        intro v
        rw [countP_range_update_none slB (curB eid) _ hqT hfresh, hlen']
        have hthis := hcnt v
        by_cases hv : v = done.length
        · subst hv
          rw [if_neg (lt_irrefl _)] at hthis
          have hb : ((some done.length == some done.length) : Bool) = true := by
            simp
          rw [hb, if_pos rfl, if_pos (Nat.lt_succ_self _)]
          omega
        · have hb : ((some done.length == some v) : Bool) = false := by
            simp
            omega
          rw [hb, if_neg (show ¬ (false = true) by simp)]
          by_cases hv2 : v < done.length
          · rw [if_pos hv2] at hthis
            rw [if_pos (show v < done.length + 1 by omega)]
            omega
          · rw [if_neg hv2] at hthis
            rw [if_neg (show ¬ v < done.length + 1 by omega)]
            omega
      have hrec := ih (done ++ [(eid, true)]) curA
        (Function.update curB eid (curB eid + 1))
        slA (Function.update slB (curB eid) (some done.length))
        hsplit' hA' hB' hdA hdB' hcnt'
      rw [hlen'] at hrec
      exact hrec

lemma BuildSlotPlan2D_ok_eq (t : ℕ) (g : Rng) (wTotal wA wB : List ℕ)
    (tbl : AliasTable) (hE : ¬ wTotal.length = 0)
    (hb : AliasTable.buildFromU64 wTotal = .ok tbl) :
    BuildSlotPlan2D t g wTotal wA wB = .ok
      ({ offsetA := prefixSums
            (planCnt (planDraws tbl wA wB t g []).1 false) wTotal.length
         offsetB := prefixSums
            (planCnt (planDraws tbl wA wB t g []).1 true) wTotal.length
         slotsA := (List.range ((prefixSums
              (planCnt (planDraws tbl wA wB t g []).1 false)
              wTotal.length).getD wTotal.length 0)).map
            (fun p => (((fillGo (planDraws tbl wA wB t g []).1 0
              (fun e => (prefixSums
                (planCnt (planDraws tbl wA wB t g []).1 false)
                wTotal.length).getD e 0)
              (fun e => (prefixSums
                (planCnt (planDraws tbl wA wB t g []).1 true)
                wTotal.length).getD e 0)
              (fun _ => none) (fun _ => none)).1 p).getD 0))
         slotsB := (List.range ((prefixSums
              (planCnt (planDraws tbl wA wB t g []).1 true)
              wTotal.length).getD wTotal.length 0)).map
            (fun p => (((fillGo (planDraws tbl wA wB t g []).1 0
              (fun e => (prefixSums
                (planCnt (planDraws tbl wA wB t g []).1 false)
                wTotal.length).getD e 0)
              (fun e => (prefixSums
                (planCnt (planDraws tbl wA wB t g []).1 true)
                wTotal.length).getD e 0)
              (fun _ => none) (fun _ => none)).2 p).getD 0)) },
        (planDraws tbl wA wB t g []).2) := by
  simp only [BuildSlotPlan2D]
  rw [if_neg hE, hb]

/-- Full conservation statement for a successful `BuildSlotPlan2D`. -/
lemma slotPlan_conservation (t : ℕ) (g : Rng) (wTotal wA wB : List ℕ)
    (plan : SlotPlan2D) (g' : Rng)
    (hok : BuildSlotPlan2D t g wTotal wA wB = .ok (plan, g')) :
    plan.offsetA.length = wTotal.length + 1 ∧
    plan.offsetB.length = wTotal.length + 1 ∧
    (∀ a b, a ≤ b → b ≤ wTotal.length →
      plan.offsetA.getD a 0 ≤ plan.offsetA.getD b 0 ∧
      plan.offsetB.getD a 0 ≤ plan.offsetB.getD b 0) ∧
    plan.offsetA.getD wTotal.length 0 + plan.offsetB.getD wTotal.length 0 = t ∧
    plan.slotsA.length + plan.slotsB.length = t ∧
    (∀ j, j < t → plan.slotsA.count j + plan.slotsB.count j = 1) := by
  by_cases hE : wTotal.length = 0
  · rw [BuildSlotPlan2D] at hok
    rw [if_pos hE] at hok
    exact absurd hok (by simp)
  cases hb : AliasTable.buildFromU64 wTotal with
  | error e =>
    rw [BuildSlotPlan2D, if_neg hE, hb] at hok
    exact absurd hok (by simp)
  | ok tbl =>
    rw [BuildSlotPlan2D_ok_eq t g wTotal wA wB tbl hE hb] at hok
    rw [Except.ok.injEq, Prod.mk.injEq] at hok
    obtain ⟨hplan, -⟩ := hok
    obtain ⟨hn_eq, hidx⟩ := buildFromU64_fields wTotal tbl hb
    have hn : 0 < tbl.n := by omega
    have hdlen : (planDraws tbl wA wB t g []).1.length = t := by
      have := planDraws_length tbl wA wB t g []
      simpa using this
    have hdmem : ∀ d ∈ (planDraws tbl wA wB t g []).1, d.1 < wTotal.length := by
      intro d hd
      rcases planDraws_mem tbl wA wB hn hidx t g [] d hd with hmem | hlt
      · simp at hmem
      · omega
    have hA0 : ∀ e, e < wTotal.length →
        (prefixSums (planCnt (planDraws tbl wA wB t g []).1 false)
          wTotal.length).getD e 0 =
        offF (planDraws tbl wA wB t g []).1 false e +
          planCnt ([] : List (ℕ × Bool)) false e := by
      intro e he
      rw [prefixSums_getD _ _ _ (by omega)]
      have h0 : planCnt ([] : List (ℕ × Bool)) false e = 0 := rfl
      have h3 : offF (planDraws tbl wA wB t g []).1 false e =
        ((List.range e).map (planCnt (planDraws tbl wA wB t g []).1 false)).sum := rfl
      omega
    have hB0 : ∀ e, e < wTotal.length →
        (prefixSums (planCnt (planDraws tbl wA wB t g []).1 true)
          wTotal.length).getD e 0 =
        offF (planDraws tbl wA wB t g []).1 true e +
          planCnt ([] : List (ℕ × Bool)) true e := by
      intro e he
      rw [prefixSums_getD _ _ _ (by omega)]
      have h0 : planCnt ([] : List (ℕ × Bool)) true e = 0 := rfl
      have h3 : offF (planDraws tbl wA wB t g []).1 true e =
        ((List.range e).map (planCnt (planDraws tbl wA wB t g []).1 true)).sum := rfl
      omega
    have hdA0 : ∀ p : ℕ, ((fun _ : ℕ => (none : Option ℕ)) p).isSome = true ↔
        ∃ e, e < wTotal.length ∧
          offF (planDraws tbl wA wB t g []).1 false e ≤ p ∧
          p < (prefixSums (planCnt (planDraws tbl wA wB t g []).1 false)
            wTotal.length).getD e 0 := by
      intro p
      constructor
      · intro hc
        exact absurd hc (by simp)
      · rintro ⟨e, he, h1, h2⟩
        rw [hA0 e he] at h2
        have h0 : planCnt ([] : List (ℕ × Bool)) false e = 0 := rfl
        omega
    have hdB0 : ∀ p : ℕ, ((fun _ : ℕ => (none : Option ℕ)) p).isSome = true ↔
        ∃ e, e < wTotal.length ∧
          offF (planDraws tbl wA wB t g []).1 true e ≤ p ∧
          p < (prefixSums (planCnt (planDraws tbl wA wB t g []).1 true)
            wTotal.length).getD e 0 := by
      intro p
      constructor
      · intro hc
        exact absurd hc (by simp)
      · rintro ⟨e, he, h1, h2⟩
        rw [hB0 e he] at h2
        have h0 : planCnt ([] : List (ℕ × Bool)) true e = 0 := rfl
        omega
    have hcnt0 : ∀ v : ℕ,
        (List.range (offF (planDraws tbl wA wB t g []).1 false
          wTotal.length)).countP
            (fun _ => ((fun _ : ℕ => (none : Option ℕ)) 0 == some v)) +
        (List.range (offF (planDraws tbl wA wB t g []).1 true
          wTotal.length)).countP
            (fun _ => ((fun _ : ℕ => (none : Option ℕ)) 0 == some v)) =
        if v < ([] : List (ℕ × Bool)).length then 1 else 0 := by
      intro v
      rw [if_neg (by simp)]
      have hz : ∀ n : ℕ, (List.range n).countP
          (fun _ => ((none : Option ℕ) == some v)) = 0 := by
        intro n
        apply List.countP_eq_zero.2
        intro a _
        rw [show ((none : Option ℕ) == some v) = false from rfl]
        simp
      rw [hz, hz]
    have hfill := fillGo_inv wTotal.length (planDraws tbl wA wB t g []).1 hdmem
      (planDraws tbl wA wB t g []).1 []
      (fun e => (prefixSums (planCnt (planDraws tbl wA wB t g []).1 false)
        wTotal.length).getD e 0)
      (fun e => (prefixSums (planCnt (planDraws tbl wA wB t g []).1 true)
        wTotal.length).getD e 0)
      (fun _ => none) (fun _ => none) rfl hA0 hB0 hdA0 hdB0 hcnt0
    obtain ⟨hc, hdefA, hdefB⟩ := hfill
    simp only [List.length_nil] at hc hdefA hdefB
    have hTA : (prefixSums (planCnt (planDraws tbl wA wB t g []).1 false)
        wTotal.length).getD wTotal.length 0 =
        offF (planDraws tbl wA wB t g []).1 false wTotal.length :=
      prefixSums_getD _ _ _ (le_refl _)
    have hTB : (prefixSums (planCnt (planDraws tbl wA wB t g []).1 true)
        wTotal.length).getD wTotal.length 0 =
        offF (planDraws tbl wA wB t g []).1 true wTotal.length :=
      prefixSums_getD _ _ _ (le_refl _)
    have hsum : offF (planDraws tbl wA wB t g []).1 false wTotal.length +
        offF (planDraws tbl wA wB t g []).1 true wTotal.length = t := by
      have := sum_planCnt wTotal.length (planDraws tbl wA wB t g []).1 hdmem
      rw [hdlen] at this
      exact this
    subst hplan
    refine ⟨?_, ?_, ?_, ?_, ?_, ?_⟩
    · exact prefixSums_length _ _
    · exact prefixSums_length _ _
    · intro a b hab hbE
      constructor
      · show (prefixSums (planCnt (planDraws tbl wA wB t g []).1 false)
            wTotal.length).getD a 0 ≤ _
        rw [prefixSums_getD _ _ _ (by omega), prefixSums_getD _ _ _ hbE]
        exact partial_sum_mono _ a b hab
      · show (prefixSums (planCnt (planDraws tbl wA wB t g []).1 true)
            wTotal.length).getD a 0 ≤ _
        rw [prefixSums_getD _ _ _ (by omega), prefixSums_getD _ _ _ hbE]
        exact partial_sum_mono _ a b hab
    · show (prefixSums (planCnt (planDraws tbl wA wB t g []).1 false)
          wTotal.length).getD wTotal.length 0 + _ = t
      rw [hTA, hTB]
      exact hsum
    · simp only [List.length_map, List.length_range]
      rw [hTA, hTB]
      exact hsum
    · intro j hj
      have hcountA : ((List.range ((prefixSums
            (planCnt (planDraws tbl wA wB t g []).1 false)
            wTotal.length).getD wTotal.length 0)).map
          (fun p => (((fillGo (planDraws tbl wA wB t g []).1 0
            (fun e => (prefixSums
              (planCnt (planDraws tbl wA wB t g []).1 false)
              wTotal.length).getD e 0)
            (fun e => (prefixSums
              (planCnt (planDraws tbl wA wB t g []).1 true)
              wTotal.length).getD e 0)
            (fun _ => none) (fun _ => none)).1 p).getD 0))).count j =
          (List.range (offF (planDraws tbl wA wB t g []).1 false
            wTotal.length)).countP
            (fun p => ((fillGo (planDraws tbl wA wB t g []).1 0
              (fun e => (prefixSums
                (planCnt (planDraws tbl wA wB t g []).1 false)
                wTotal.length).getD e 0)
              (fun e => (prefixSums
                (planCnt (planDraws tbl wA wB t g []).1 true)
                wTotal.length).getD e 0)
              (fun _ => none) (fun _ => none)).1 p == some j)) := by
        rw [List.count, List.countP_map, hTA]
        apply List.countP_congr
        intro p hp
        rw [List.mem_range] at hp
        have hs := hdefA p hp
        obtain ⟨v, hv⟩ := Option.isSome_iff_exists.1 hs
        simp only [Function.comp_apply]
        rw [hv]
        exact Iff.rfl
      have hcountB : ((List.range ((prefixSums
            (planCnt (planDraws tbl wA wB t g []).1 true)
            wTotal.length).getD wTotal.length 0)).map
          (fun p => (((fillGo (planDraws tbl wA wB t g []).1 0
            (fun e => (prefixSums
              (planCnt (planDraws tbl wA wB t g []).1 false)
              wTotal.length).getD e 0)
            (fun e => (prefixSums
              (planCnt (planDraws tbl wA wB t g []).1 true)
              wTotal.length).getD e 0)
            (fun _ => none) (fun _ => none)).2 p).getD 0))).count j =
          (List.range (offF (planDraws tbl wA wB t g []).1 true
            wTotal.length)).countP
            (fun p => ((fillGo (planDraws tbl wA wB t g []).1 0
              (fun e => (prefixSums
                (planCnt (planDraws tbl wA wB t g []).1 false)
                wTotal.length).getD e 0)
              (fun e => (prefixSums
                (planCnt (planDraws tbl wA wB t g []).1 true)
                wTotal.length).getD e 0)
              (fun _ => none) (fun _ => none)).2 p == some j)) := by
        rw [List.count, List.countP_map, hTB]
        apply List.countP_congr
        intro p hp
        rw [List.mem_range] at hp
        have hs := hdefB p hp
        obtain ⟨v, hv⟩ := Option.isSome_iff_exists.1 hs
        simp only [Function.comp_apply]
        rw [hv]
        exact Iff.rfl
      show _ + _ = 1
      rw [hcountA, hcountB]
      have := hc j
      rw [hdlen, if_pos hj] at this
      exact this

/-! ## Claim C6: slot-plan conservation -/

/-- C6: on weight vectors with `w_total = w_A + w_B` pointwise and positive
total, every successful `BuildSlotPlan2D` satisfies conservation: offsets are
monotone prefix-sum arrays of length E + 1 whose final entries sum to t, the
flat slot arrays' lengths sum to exactly t, and every output position
0..t−1 appears in exactly one of the two slot lists. -/
theorem slot_plan_conservation (t : ℕ) (g : Rng) (wTotal wA wB : List ℕ)
    (plan : SlotPlan2D) (g' : Rng)
    (hw : wTotal = List.zipWith (· + ·) wA wB)
    (hpos : 0 < wTotal.sum)
    (hok : BuildSlotPlan2D t g wTotal wA wB = .ok (plan, g')) :
    plan.offsetA.length = wTotal.length + 1 ∧
    plan.offsetB.length = wTotal.length + 1 ∧
    (∀ a b, a ≤ b → b ≤ wTotal.length →
      plan.offsetA.getD a 0 ≤ plan.offsetA.getD b 0 ∧
      plan.offsetB.getD a 0 ≤ plan.offsetB.getD b 0) ∧
    plan.offsetA.getD wTotal.length 0 + plan.offsetB.getD wTotal.length 0 = t ∧
    plan.slotsA.length + plan.slotsB.length = t ∧
    (∀ j, j < t → plan.slotsA.count j + plan.slotsB.count j = 1) :=
  slotPlan_conservation t g wTotal wA wB plan g' hok

deriving instance DecidableEq for Xoshiro256SS

deriving instance DecidableEq for Rng

/-- The rng state left by the C6 witness run. -/
def rngC6 : Rng :=
  ⟨⟨11439139192846281772, 5268438290654635862, 17922034669047553271,
    10777600161572733866⟩⟩

/-- Witness for C6: a concrete successful slot plan (E = 1, t = 2). -/
theorem slot_plan_conservation_witness :
    (([2] : List ℕ) = List.zipWith (· + ·) [1] [1] ∧ 0 < ([2] : List ℕ).sum ∧
      BuildSlotPlan2D 2 (Rng.ofSeed 1) [2] [1] [1] =
        .ok (⟨[0, 1], [0, 1], [1], [0]⟩, rngC6)) ∧
    ((⟨[0, 1], [0, 1], [1], [0]⟩ : SlotPlan2D).offsetA.length = [2].length + 1 ∧
     (⟨[0, 1], [0, 1], [1], [0]⟩ : SlotPlan2D).offsetB.length = [2].length + 1 ∧
     (∀ a b, a ≤ b → b ≤ [2].length →
       (⟨[0, 1], [0, 1], [1], [0]⟩ : SlotPlan2D).offsetA.getD a 0 ≤
         (⟨[0, 1], [0, 1], [1], [0]⟩ : SlotPlan2D).offsetA.getD b 0 ∧
       (⟨[0, 1], [0, 1], [1], [0]⟩ : SlotPlan2D).offsetB.getD a 0 ≤
         (⟨[0, 1], [0, 1], [1], [0]⟩ : SlotPlan2D).offsetB.getD b 0) ∧
     (⟨[0, 1], [0, 1], [1], [0]⟩ : SlotPlan2D).offsetA.getD [2].length 0 +
       (⟨[0, 1], [0, 1], [1], [0]⟩ : SlotPlan2D).offsetB.getD [2].length 0 = 2 ∧
     (⟨[0, 1], [0, 1], [1], [0]⟩ : SlotPlan2D).slotsA.length +
       (⟨[0, 1], [0, 1], [1], [0]⟩ : SlotPlan2D).slotsB.length = 2 ∧
     (∀ j, j < 2 →
       (⟨[0, 1], [0, 1], [1], [0]⟩ : SlotPlan2D).slotsA.count j +
         (⟨[0, 1], [0, 1], [1], [0]⟩ : SlotPlan2D).slotsB.count j = 1)) :=
  ⟨⟨by decide, by decide, by decide⟩,
   slot_plan_conservation 2 (Rng.ofSeed 1) [2] [1] [1]
     ⟨[0, 1], [0, 1], [1], [0]⟩ rngC6 (by decide) (by decide) (by decide)⟩

/-! ## Concrete datasets, contexts and configurations used as witnesses -/

def dsC3 : Dataset :=
  ⟨⟨[⟨⟨5, 0⟩, ⟨10, 10⟩⟩], []⟩, ⟨[⟨⟨0, 1⟩, ⟨20, 2⟩⟩, ⟨⟨0, 3⟩, ⟨20, 4⟩⟩], []⟩, true⟩

def ctxC3 : Ctx :=
  { ds := dsC3
    evs := [⟨0, .Start, .S, 0, 0⟩, ⟨0, .Start, .S, 1, 1⟩, ⟨5, .Start, .R, 0, 0⟩,
            ⟨10, .End, .R, 0, 0⟩, ⟨20, .End, .S, 0, 0⟩, ⟨20, .End, .S, 1, 1⟩]
    startIds := [some 0, some 1, some 2, none, none, none]
    numStarts := 3
    yCoords := [0, 1, 3]
    yloR := [0]
    yhiR := [3]
    yloS := [1, 2]
    yhiS := [2, 3]
    m := 3 }

lemma ctxC3_spec : buildCtx dsC3 = .ok ctxC3 := by decide

def cfg0 : Config := { t := 1, jStar := 0 }

def scoreZero : ScoreFn := fun _ _ _ _ _ _ => ⟨0, 1⟩

def dsTouch : Dataset :=
  ⟨⟨[⟨⟨0, 0⟩, ⟨5, 10⟩⟩], []⟩, ⟨[⟨⟨5, 0⟩, ⟨10, 10⟩⟩], []⟩, true⟩

def ctxTouch : Ctx :=
  { ds := dsTouch
    evs := [⟨0, .Start, .R, 0, 0⟩, ⟨5, .End, .R, 0, 0⟩, ⟨5, .Start, .S, 0, 0⟩,
            ⟨10, .End, .S, 0, 0⟩]
    startIds := [some 0, none, some 1, none]
    numStarts := 2
    yCoords := [0]
    yloR := [0]
    yhiR := [1]
    yloS := [0]
    yhiS := [1]
    m := 1 }

lemma ctxTouch_spec : buildCtx dsTouch = .ok ctxTouch := by decide

/-! ## Claim C3: Framework III at budget 0 -/

/-- No full-cache or prefetch artifact is present in an adaptive pass-1
state. -/
def NoCachePrefetch (st : ACState) : Prop :=
  (∀ sid, st.cached sid = false) ∧ (∀ sid, st.prefetchKeep sid = 0) ∧
  (∀ sid, st.prefetchPartners sid = []) ∧ st.heap = [] ∧ st.memFull = 0 ∧
  st.cachePartners = []

def NoCachePrefetchE (r : Except String ACState) : Prop :=
  ∀ st, r = .ok st → NoCachePrefetch st

lemma aCountStep_budget0_nocache (score : ScoreFn) (ctx : Ctx)
    (E wSmall bps t : ℕ) (acc : Except String ACState) (ev : Event)
    (sid? : Option ℕ) (hacc : NoCachePrefetchE acc) :
    NoCachePrefetchE (aCountStep score ctx E 0 wSmall false bps t acc (ev, sid?)) := by
  cases acc with
  | error e =>
    intro st h
    rw [aCountStep] at h
    exact absurd h (by simp)
  | ok st0 =>
    have h0 := hacc st0 rfl
    obtain ⟨hc0, hk0, hp0, hh0, hm0, hcp0⟩ := h0
    intro st h
    obtain ⟨x, k, sd, oid, idx⟩ := ev
    rw [aCountStep] at h
    try simp only [Bool.false_eq_true, false_and, and_false, if_false] at h
    repeat' split at h
    all_goals first
      | exact Except.noConfusion h
      | omega
      | (simp only [Except.ok.injEq] at h
         rw [← h]
         exact ⟨hc0, hk0, hp0, hh0, hm0, hcp0⟩)

lemma adaptiveCount_foldl_nocache (score : ScoreFn) (ctx : Ctx)
    (E wSmall bps t : ℕ) :
    ∀ (L : List (Event × Option ℕ)) (acc : Except String ACState),
      NoCachePrefetchE acc →
      NoCachePrefetchE
        (L.foldl (aCountStep score ctx E 0 wSmall false bps t) acc) := by
  intro L
  induction L with
  | nil =>
    intro acc hacc
    exact hacc
  | cons p L ih =>
    intro acc hacc
    rw [List.foldl_cons]
    exact ih _ (by
      have := aCountStep_budget0_nocache score ctx E wSmall bps t acc p.1 p.2 hacc
      simpa using this)

/-- C3 counterexample: at budget 0 (cfg0 has j* = 0 and no extra budget),
dataset `dsC3`, t = 1 and seed 2, Framework II and Framework III both succeed
with count 2 but return different pair vectors — the SampleSets are not
byte-identical. -/
theorem adaptive_budget0_pairs_differ_counterexample :
    cfg0.budget = 0 ∧
    runSamplingOnce dsC3 cfg0 2 = .ok ⟨⟨2, true⟩, { pairs := [(0, 1)] }⟩ ∧
    runAdaptiveOnce scoreZero dsC3 cfg0 2 = .ok ⟨⟨2, true⟩, { pairs := [(0, 0)] }⟩ ∧
    ([((0 : ℕ), (1 : ℕ))] : List (ℕ × ℕ)) ≠ [(0, 0)] := by
  refine ⟨by decide, ?_, ?_, by decide⟩
  · rw [runSamplingOnce, ctxC3_spec]
    decide
  · rw [runAdaptiveOnce, ctxC3_spec]
    decide

/-- C3 (amended): with budget 0 the adaptive Count builds no full cache and
draws no prefetch samples — prefetch is disabled, the count rng is returned
unconsumed, and the cache and prefetch state of the resulting pass-1 state
are all empty.  The two frameworks' SampleSets are nevertheless not
byte-identical in general (see the counterexample): the adaptive Sample
consumes randomness by per-event derived streams instead of Framework II's
single sequential stream. -/
theorem adaptive_budget0_no_cache_no_prefetch (score : ScoreFn) (ctx : Ctx)
    (cfg : Config) (rng? : Option Rng) (st : ACState) (rng?' : Option Rng)
    (hb : cfg.budget = 0)
    (hok : adaptiveCount score ctx cfg rng? = .ok (st, rng?')) :
    rng?' = rng? ∧ NoCachePrefetch st := by
  unfold adaptiveCount at hok
  rw [hb] at hok
  simp only [gt_iff_lt] at hok
  rw [if_neg (by rintro ⟨-, hgt, -⟩; omega)] at hok
  have hdec : decide (rng?.isSome = true ∧ 0 < 0 ∧ 0 < cfg.t) = false :=
    decide_eq_false (by rintro ⟨-, hgt, -⟩; omega)
  rw [hdec] at hok
  have hinv := adaptiveCount_foldl_nocache score ctx ctx.numStarts cfg.wSmall 0
    cfg.t (ctx.evs.zip ctx.startIds) (.ok (initACState ctx))
    (by
      intro st1 h1
      simp only [Except.ok.injEq] at h1
      rw [← h1]
      exact ⟨fun _ => rfl, fun _ => rfl, fun _ => rfl, rfl, rfl, rfl⟩)
  cases hres : (ctx.evs.zip ctx.startIds).foldl
      (aCountStep score ctx ctx.numStarts 0 cfg.wSmall false 0 cfg.t)
      (.ok (initACState ctx)) with
  | error e =>
    rw [hres] at hok
    exact absurd hok (by simp)
  | ok stF =>
    rw [hres] at hok
    simp only [Except.ok.injEq, Prod.mk.injEq] at hok
    obtain ⟨hst, hrng⟩ := hok
    rw [hres] at hinv
    refine ⟨hrng.symm, ?_⟩
    rw [← hst]
    exact hinv stF rfl

/-- The trivial context used by the C3 witness: no sweep events at all. -/
def ctxTriv : Ctx :=
  { ds := dsC3
    evs := []
    startIds := []
    numStarts := 0
    yCoords := [0]
    yloR := []
    yhiR := []
    yloS := []
    yhiS := []
    m := 1 }

/-- Witness for the amended C3: a concrete budget-0 adaptive Count run
returning the untouched rng and an artifact-free state. -/
theorem adaptive_budget0_no_cache_witness :
    (cfg0.budget = 0 ∧
      adaptiveCount scoreZero ctxTriv cfg0 none = .ok (initACState ctxTriv, none)) ∧
    ((none : Option Rng) = none ∧ NoCachePrefetch (initACState ctxTriv)) :=
  ⟨⟨by decide, rfl⟩,
   adaptive_budget0_no_cache_no_prefetch scoreZero ctxTriv cfg0 none
     (initACState ctxTriv) none (by decide) rfl⟩

/-! ## Claim C4: determinism of the sampling runner -/

/-- C4: sampling is deterministic.  `RunSamplingOnce` is a pure function of
(dataset, `cfg.t`, seed): the count-phase rng is `ofSeed (DeriveSeed seed 1)`
(ignored by Count, which reads no randomness), the sample-phase rng is
`ofSeed (DeriveSeed seed 2)`, and no other source of randomness enters the
computation — so two runs at the same inputs return identical results, byte
for byte. -/
theorem sampling_run_deterministic (ds : Dataset) (cfg : Config) (seed : ℕ) :
    runSamplingOnce ds cfg seed =
      match buildCtx ds with
      | .error e => .error e
      | .ok ctx =>
        match samplingSample ctx (samplingCount ctx) cfg.t
            (Rng.ofSeed (DeriveSeed seed 2)) with
        | .error e => .error e
        | .ok ss => .ok { count := MakeExactCount (samplingCount ctx).W,
                          samples := ss } := rfl

/-! ## Claim C5: half-open intersection semantics -/

/-- C5: under half-open semantics two proper rectangles intersect iff on each
axis each one's `lo` is strictly below the other's `hi`; and for the concrete
dataset `dsTouch`, whose R rectangle ends at x = 5 where the S rectangle
starts, both the brute-force count and pass 1 of Framework II report zero
join pairs. -/
theorem intersects_halfopen_and_touching :
    (∀ a b : Box2, a.IsProper = true → b.IsProper = true →
      (a.Intersects b = true ↔
        (a.lo.x < b.hi.x ∧ b.lo.x < a.hi.x ∧ a.lo.y < b.hi.y ∧ b.lo.y < a.hi.y))) ∧
    CountNaive dsTouch.R dsTouch.S = 0 ∧
    (samplingCount ctxTouch).W = 0 := by
  refine ⟨?_, by decide, by decide⟩
  intro a b ha hb
  rw [Box2.IsProper, Bool.not_eq_true'] at ha hb
  rw [Box2.Intersects, if_neg (by rw [ha, hb]; simp)]
  simp only [Bool.and_eq_true, decide_eq_true_eq]
  rw [and_assoc]

/-- Witness for C5 at a concrete proper, overlapping pair of boxes. -/
theorem intersects_halfopen_witness :
    ((⟨⟨0, 0⟩, ⟨2, 2⟩⟩ : Box2).IsProper = true ∧
     (⟨⟨1, 1⟩, ⟨3, 3⟩⟩ : Box2).IsProper = true) ∧
    ((⟨⟨0, 0⟩, ⟨2, 2⟩⟩ : Box2).Intersects ⟨⟨1, 1⟩, ⟨3, 3⟩⟩ = true ↔
      ((0 : ℚ) < 3 ∧ (1 : ℚ) < 2 ∧ (0 : ℚ) < 3 ∧ (1 : ℚ) < 2)) :=
  ⟨⟨by decide, by decide⟩,
   intersects_halfopen_and_touching.1 ⟨⟨0, 0⟩, ⟨2, 2⟩⟩ ⟨⟨1, 1⟩, ⟨3, 3⟩⟩
     (by decide) (by decide)⟩

/-! ## Claim C7: Build on validated datasets -/

/-- C7 counterexample: the dataset with zero rectangles passes validation yet
`Build` fails with the empty y-domain error, refuting "Build never fails on a
dataset that passes validation (including datasets with zero rectangles)". -/
theorem build_empty_dataset_fails_counterexample :
    (⟨⟨[], []⟩, ⟨[], []⟩, true⟩ : Dataset).ValidateProper = true ∧
    buildCtx ⟨⟨[], []⟩, ⟨[], []⟩, true⟩ =
      .error "Ours2DContext: empty y-domain" :=
  ⟨by decide, by decide⟩

/-- C7 (amended): `Build` succeeds on every validated dataset that has at
least one rectangle and u32-bounded relation sizes; only the empty y-domain
(no rectangles at all) or an oversized relation make it fail. -/
theorem build_succeeds_on_validated_nonempty (ds : Dataset)
    (hv : ds.ValidateProper = true)
    (hszR : ds.R.boxes.length ≤ U32MAX) (hszS : ds.S.boxes.length ≤ U32MAX)
    (hne : ds.R.boxes ++ ds.S.boxes ≠ []) :
    ∃ ctx, buildCtx ds = .ok ctx := by
  rw [buildCtx]
  rw [if_neg (by simp; omega)]
  rw [if_neg ?hy]
  case hy =>
    rw [List.isEmpty_iff]
    intro hc
    rw [List.dedup_eq_nil] at hc
    have hperm := List.perm_insertionSort (α := ℚ) (· ≤ ·)
      ((ds.R.boxes ++ ds.S.boxes).map (fun b => b.lo.y))
    rw [hc] at hperm
    have hmap := hperm.nil_eq
    rw [eq_comm, List.map_eq_nil_iff] at hmap
    exact hne hmap
  exact ⟨_, rfl⟩

/-- Witness for the amended C7 at the concrete touching dataset. -/
theorem build_succeeds_witness :
    (dsTouch.ValidateProper = true ∧ dsTouch.R.boxes.length ≤ U32MAX ∧
      dsTouch.S.boxes.length ≤ U32MAX ∧ dsTouch.R.boxes ++ dsTouch.S.boxes ≠ []) ∧
    ∃ ctx, buildCtx dsTouch = .ok ctx :=
  ⟨⟨by decide, by decide, by decide, by decide⟩,
   build_succeeds_on_validated_nonempty dsTouch (by decide) (by decide)
     (by decide) (by decide)⟩

/-! ## Claim C9: the sweep event order -/

/-- C9: the comparator `EventLess` realizes exactly the lexicographic order
(x ascending; End before Start at equal x; id ascending; configured side
tie-break; index ascending) for every pair of events, and the sweep event
list built by `BuildSweepEvents` is sorted under it. -/
theorem eventless_order_and_sorted :
    (∀ (tb : SideTieBreak) (a b : Event),
      EventLess tb a b = true ↔ KeyLt tb a b) ∧
    (∀ (ds : Dataset) (tb : SideTieBreak),
      (BuildSweepEvents ds tb).Sorted (EventLe tb)) :=
  ⟨eventLess_iff, sorted_buildSweepEvents⟩

/-! ## Claim C10: k = 0 early returns of the tree samplers -/

/-- C10: `StabbingSegTree::Sample` and `RangePointSegTree::SampleRange` with
k = 0 succeed with an empty output even on an empty queried set, because the
k = 0 early return precedes the emptiness checks; with k > 0 an empty tree
makes both report failure. -/
theorem segtree_sample_k0_early_return :
    (∀ (st : StabTree) (q : ℕ) (g : Rng), st.sample q 0 g = (some [], g)) ∧
    (∀ (pt : PtsTree) (l r : ℕ) (g : Rng), pt.sampleRange l r 0 g = (some [], g)) ∧
    (∀ (nH m q k : ℕ) (g : Rng), 0 < k →
      ((StabTree.init nH m).sample q k g).1 = none) ∧
    (∀ (nH m l r k : ℕ) (g : Rng), 0 < k →
      ((PtsTree.init nH m).sampleRange l r k g).1 = none) := by
  refine ⟨?_, ?_, ?_, ?_⟩
  · intro st q g
    rw [StabTree.sample, if_pos rfl]
  · intro pt l r g
    rw [PtsTree.sampleRange, if_pos rfl]
  · intro nH m q k g hk
    rw [StabTree.sample, if_neg (by omega)]
    split
    · rfl
    · simp [StabTree.init]
  · intro nH m l r k g hk
    rw [PtsTree.sampleRange, if_neg (by omega)]
    split
    · rfl
    · simp [PtsTree.init]

/-! ## Claim C1: Count equals the brute-force oracle -/

/-- C1: for every validated, successfully built dataset, pass 1 of Framework
II computes exactly the brute-force oracle count `CountNaive`, and every
successful run of the sampling runner returns that exact value as its
`CountResult`, for every configuration and seed. -/
theorem count_equals_oracle (ds : Dataset) (ctx : Ctx)
    (hv : ds.ValidateProper = true) (hok : buildCtx ds = .ok ctx) :
    (samplingCount ctx).W = CountNaive ds.R ds.S ∧
    ∀ (cfg : Config) (seed : ℕ) (out : RunOut),
      runSamplingOnce ds cfg seed = .ok out →
      out.count = MakeExactCount (CountNaive ds.R ds.S) := by
  have hW := samplingCount_W_eq ds ctx hv hok
  refine ⟨hW, ?_⟩
  intro cfg seed out hrun
  rw [runSamplingOnce, hok] at hrun
  have hrun' : (match samplingSample ctx (samplingCount ctx) cfg.t
        (Rng.ofSeed (DeriveSeed seed 2)) with
      | .error e => (.error e : Except String RunOut)
      | .ok ss => .ok { count := MakeExactCount (samplingCount ctx).W,
                        samples := ss }) = .ok out := hrun
  cases hss : samplingSample ctx (samplingCount ctx) cfg.t
      (Rng.ofSeed (DeriveSeed seed 2)) with
  | error e =>
    rw [hss] at hrun'
    exact absurd hrun' (by simp)
  | ok ss =>
    rw [hss] at hrun'
    simp only [Except.ok.injEq] at hrun'
    rw [← hrun', hW]

/-- Witness for C1 at the concrete dataset `dsC3` (|J| = 2). -/
theorem count_equals_oracle_witness :
    dsC3.ValidateProper = true ∧ buildCtx dsC3 = .ok ctxC3 ∧
    ((samplingCount ctxC3).W = CountNaive dsC3.R dsC3.S ∧
      ∀ (cfg : Config) (seed : ℕ) (out : RunOut),
        runSamplingOnce dsC3 cfg seed = .ok out →
        out.count = MakeExactCount (CountNaive dsC3.R dsC3.S)) :=
  ⟨by decide, ctxC3_spec, count_equals_oracle dsC3 ctxC3 (by decide) ctxC3_spec⟩

/-! ## Claim C2: overflow behaviour of the two Count implementations -/

/-- The per-event weight `w = wa + wb` computed by both Count passes for a
Start event, read off the opposite active index. -/
def aWeight (ctx : Ctx) (aR aS : ActiveIndex2D) (ev : Event) : ℕ :=
  let qIsR := ev.side = Side.R
  let qYlo := if qIsR then ctx.yloR.getD ev.index 0 else ctx.yloS.getD ev.index 0
  let qYhi := if qIsR then ctx.yhiR.getD ev.index 0 else ctx.yhiS.getD ev.index 0
  let other := if qIsR then aS else aR
  other.countA qYlo + other.countB qYlo qYhi

/-- The doctored pass-1 state used to exhibit the silent wrap of Framework
II's accumulator: the two S rectangles of `dsC3` are active and the running
total sits at the u64 maximum. -/
def stBigC2 : CountState :=
  { countStep ctxC3 (countStep ctxC3 (initCountState ctxC3)
      (⟨0, .Start, .S, 0, 0⟩, some 0)) (⟨0, .Start, .S, 1, 1⟩, some 1) with
    W := U64MOD - 1 }

/-- C2 counterexample: Framework II's Count accumulates `W += w` with plain
wrap-around u64 arithmetic and no error channel: at a state with W = 2⁶⁴ − 1,
processing a Start event of weight 2 yields W = 1 — the sum wrapped and no
`JoinTooLarge` failure occurred (the step cannot fail: its type has no error
outcome). -/
theorem count_overflow_wraps_counterexample :
    stBigC2.W = U64MOD - 1 ∧
    aWeight ctxC3 stBigC2.aR stBigC2.aS ⟨5, .Start, .R, 0, 0⟩ = 2 ∧
    (countStep ctxC3 stBigC2 (⟨5, .Start, .R, 0, 0⟩, some 2)).W = 1 :=
  ⟨by decide, by decide, by decide⟩

/-- C2 (amended): the u64-overflow check guarding the weight accumulation
lives in Framework III's Count (`adaptive.h`), not Framework II's: whenever
the running total would pass 2⁶⁴ − 1, the adaptive per-event step fails with
the `JoinTooLarge`-style error. -/
theorem adaptive_count_overflow_errors (score : ScoreFn) (ctx : Ctx)
    (E budget wSmall : ℕ) (ep : Bool) (bps t : ℕ) (st : ACState)
    (x : ℚ) (side : Side) (oid idx sid : ℕ) (hsid : sid < E)
    (hov : 0 < aWeight ctx st.aR st.aS ⟨x, .Start, side, oid, idx⟩ ∧
      (U64MOD - 1) - aWeight ctx st.aR st.aS ⟨x, .Start, side, oid, idx⟩ < st.W) :
    aCountStep score ctx E budget wSmall ep bps t (.ok st)
      (⟨x, .Start, side, oid, idx⟩, some sid) =
      .error "OursAdaptiveBaseline::Count: |J| overflowed u64" := by
  simp only [aWeight] at hov
  rw [aCountStep]
  simp only [Option.getD_some]
  rw [if_neg (by omega)]
  rw [if_pos hov]

/-- The doctored adaptive pass-1 state for the C2 witness: same active S
rectangles, running total at the u64 maximum. -/
def aStBigC2 : ACState :=
  { initACState ctxC3 with
    aS := ((ActiveIndex2D.init 2 3).insert 0 1 2).insert 1 2 3
    W := U64MOD - 1 }

/-- Witness for the amended C2 at a concrete overflowing state. -/
theorem adaptive_count_overflow_witness :
    (2 < 3 ∧ 0 < aWeight ctxC3 aStBigC2.aR aStBigC2.aS ⟨5, .Start, .R, 0, 0⟩ ∧
      (U64MOD - 1) - aWeight ctxC3 aStBigC2.aR aStBigC2.aS ⟨5, .Start, .R, 0, 0⟩ <
        aStBigC2.W) ∧
    aCountStep scoreZero ctxC3 3 0 0 false 0 1 (.ok aStBigC2)
      (⟨5, .Start, .R, 0, 0⟩, some 2) =
      .error "OursAdaptiveBaseline::Count: |J| overflowed u64" :=
  ⟨⟨by decide, by decide, by decide⟩,
   adaptive_count_overflow_errors scoreZero ctxC3 3 0 0 false 0 1 aStBigC2
     5 .R 0 0 2 (by decide) ⟨by decide, by decide⟩⟩

/-! ## Claim C8: empty sampling requests and empty joins -/

/-- C8: for every built context, `Sample` with t = 0 succeeds with an empty
`SampleSet` whatever the pass-1 state says about |J|; and on a validated
built dataset with |J| = 0, Count reports exactly 0 and `Sample` succeeds
with an empty `SampleSet` for every t within the u32 range. -/
theorem sample_t0_and_empty_join (ds : Dataset) (ctx : Ctx)
    (hv : ds.ValidateProper = true) (hok : buildCtx ds = .ok ctx) :
    (∀ (cs : CountState) (g : Rng),
      samplingSample ctx cs 0 g = .ok { pairs := [] }) ∧
    (CountNaive ds.R ds.S = 0 →
      (samplingCount ctx).W = 0 ∧
      ∀ (t : ℕ) (g : Rng), t ≤ U32MAX →
        samplingSample ctx (samplingCount ctx) t g = .ok { pairs := [] }) := by
  constructor
  · intro cs g
    rw [samplingSample, if_neg (by omega), if_pos rfl]
  · intro hJ
    have hW : (samplingCount ctx).W = 0 := by
      rw [samplingCount_W_eq ds ctx hv hok, hJ]
    refine ⟨hW, ?_⟩
    intro t g ht
    rw [samplingSample, if_neg (by omega)]
    by_cases ht0 : t = 0
    · rw [if_pos ht0]
    · rw [if_neg ht0, if_pos hW]

/-- Witness for C8 at the touching dataset (|J| = 0). -/
theorem sample_t0_and_empty_join_witness :
    (dsTouch.ValidateProper = true ∧ buildCtx dsTouch = .ok ctxTouch ∧
      CountNaive dsTouch.R dsTouch.S = 0 ∧ 3 ≤ U32MAX) ∧
    samplingSample ctxTouch (samplingCount ctxTouch) 3 (Rng.ofSeed 7) =
      .ok { pairs := [] } :=
  ⟨⟨by decide, ctxTouch_spec, by decide, by decide⟩,
   ((sample_t0_and_empty_join dsTouch ctxTouch (by decide) ctxTouch_spec).2
     (by decide)).2 3 (Rng.ofSeed 7) (by decide)⟩

/-- Witness for C10's k > 0 empty-tree failures at concrete trees. -/
theorem segtree_sample_k0_witness :
    (0 < 2 ∧ ((StabTree.init 3 4).sample 1 2 (Rng.ofSeed 0)).1 = none) ∧
    (0 < 2 ∧ ((PtsTree.init 3 4).sampleRange 0 2 2 (Rng.ofSeed 0)).1 = none) :=
  ⟨⟨by decide, segtree_sample_k0_early_return.2.2.1 3 4 1 2 (Rng.ofSeed 0) (by decide)⟩,
   ⟨by decide, segtree_sample_k0_early_return.2.2.2 3 4 0 2 2 (Rng.ofSeed 0) (by decide)⟩⟩

end SJS
